import Mathlib

/-!
# GRFMerge: a verification development for `src/grfmerge.cpp`

The program integrates a GRD patch file (written by GRFDiff) into a GRF sprite
container.  This file embeds the record codec (`copy`, `copyblock`,
`copysprite`, `skipsprite`), `mergeset`, and the driver (`checkisselfextr`,
`domerge`, `main`) as Lean functions over explicit stream states, and proves
properties of them.

Conventions of the embedding.

* A byte is a `Fin 256`.  `U16` values are natural numbers; where the source
  relies on 16-bit wrap-around the reduction is written out (`sub16` for
  `size -= 8`, `% 65536` for `++curno`).
* A stream opened for reading (`FILE *` in mode `"rb"`) is a `FILE`: the bytes
  already consumed, the bytes still to come, and the end-of-file indicator.
  `ftell` is the number of consumed bytes.
* A stream opened for writing is the list of bytes written so far; the
  source's `FILE *to` that may be `NULL` is an `Option (List Byte)`.
* `die` (which calls `exit(2)`) is `Except.error`; the `Fault` says which call
  of `die` was reached.  The state of the world at that moment is kept only by
  `install`.  Writing to a stream does not fail.
* A loop of the source is a function with a first argument that bounds the
  number of its iterations; where the bound is reached the result is
  `Fault.hang`, which no statement below takes for an outcome of the program.
* The messages of the program are left out, except for the listing of the
  sprite numbers in list mode.
* The file system is a map from paths to contents.  The calls `rename` and
  `remove` that succeed are recorded in the order in which they are made; a
  call fails when its file is missing or when the environment says so.
* A file that exists can be opened for reading.  For a file that does not
  exist, `fopen` fails with `ENOENT`, or with another `errno` when the
  environment says so; `install` and `checkisselfextr` test `errno`.
* `fseek` succeeds for an offset inside the file; behind the end of the file
  it fails when the environment refuses the offset, and the program, which
  ignores its result, reads on at the old position.
* The global variables `grdofs` and `issfx` are passed to `checkisselfextr`
  and returned by it; the width of the type `long` is a parameter.
-/

namespace GrfMerge

/-- One octet of a file. -/
abbrev Byte := Fin 256

/-- An output stream: everything written to it so far; `none` is `NULL`. -/
abbrev Sink := Option (List Byte)

/-- The reasons for which the program terminates abnormally. -/
inductive Fault
  /-- A read returned fewer items than wanted (`copy`, `cfread`). -/
  | shortRead
  /-- The message "Oops, got too many bytes" of `copysprite`. -/
  | tooManyBytes
  /-- The GRD version is larger than 1. -/
  | badVersion
  /-- The temporary file could not be opened for writing. -/
  | cantOpenTemp
  /-- The reply to "Shall I delete it instead?" was no: `die("")`. -/
  | aborted
  /-- The call `remove(grffile)` failed. -/
  | deleteFailed
  /-- The call `rename(tempfile, grffile)` failed. -/
  | renameFailed
  /-- The integer division of `showpct` had a zero divisor. -/
  | divideByZero
  /-- The message "Out of memory" after a failed `malloc`. -/
  | outOfMemory
  /-- The message "This is not a GRD file." of `domerge`. -/
  | notGRD
  /-- The GRD file could not be opened by `domerge`. -/
  | cantOpenGRD
  /-- The message "No GRD file specified!" of `main`. -/
  | noGRDFile
  /-- The expression `(long) r * (1L << e)` of `checkisselfextr` has no value
  defined by the language: the shift or the product leaves the type `long`. -/
  | undefinedOffset
  /-- A loop of the source did not finish within the fuel of its model. -/
  | hang
  deriving DecidableEq, Repr

/-- A stream opened for reading. -/
structure FILE where
  /-- The bytes before the file position. -/
  done : List Byte
  /-- The bytes from the file position on. -/
  rest : List Byte
  /-- The end-of-file indicator tested by `feof`. -/
  eof : Bool
  deriving DecidableEq, Repr

/-- Equality of outcomes is decidable, so that closed instances can be evaluated. -/
instance instDecidableEqExcept {ε α : Type} [DecidableEq ε] [DecidableEq α] :
    DecidableEq (Except ε α)
  | .ok a, .ok b => if h : a = b then isTrue (by rw [h]) else isFalse (fun h1 => h (by cases h1; rfl))
  | .error a, .error b =>
    if h : a = b then isTrue (by rw [h]) else isFalse (fun h1 => h (by cases h1; rfl))
  | .ok _, .error _ => isFalse (fun h => by cases h)
  | .error _, .ok _ => isFalse (fun h => by cases h)

/-- The position reported by `ftell`. -/
def ftell (f : FILE) : Nat := f.done.length

/-- A stream as `fopen(_, "rb")` returns it: at offset 0, indicator clear. -/
def fopenRead (content : List Byte) : FILE := { done := [], rest := content, eof := false }

/-- Modelled from the spec: `cfread` of grfcomm, whose body is not part of the
sources; the spec states that any short read is fatal.  It reads exactly `n`
bytes and advances the stream, or terminates the program. -/
def cfread (n : Nat) (f : FILE) : Except Fault (List Byte × FILE) :=
  if n ≤ f.rest.length then
    .ok (f.rest.take n, { f with done := f.done ++ f.rest.take n, rest := f.rest.drop n })
  else .error .shortRead

/-- Modelled from the spec: `cfwrite` of grfcomm, whose body is not part of
the sources: it appends the bytes to the output stream.  Applied to an
optional stream it also covers the guard `if (to)` in front of each write. -/
def cfwrite (bs : List Byte) (dst : Sink) : Sink := dst.map (fun out => out ++ bs)

/-- The constant `BLOCKSIZE`. -/
def BLOCKSIZE : Nat := 8192

/-- The loop of `copyblock` (lines 142-153); the first argument bounds the
number of iterations. -/
def copyblockLoop : Nat → Nat → FILE → Sink → Except Fault (FILE × Sink)
  | 0, size, src, dst => if size > 0 then .error .hang else .ok (src, dst)
  | fuel + 1, size, src, dst =>
    if size > 0 then
      let thisblock := if size > BLOCKSIZE then BLOCKSIZE else size
      match cfread thisblock src with
      | .error e => .error e
      | .ok (bs, src1) => copyblockLoop fuel (size - thisblock) src1 (cfwrite bs dst)
    else .ok (src, dst)

/-- The function `copyblock` (lines 138-154): move `size` bytes in pieces of
at most `BLOCKSIZE`.  Every iteration moves at least one byte, so `size`
iterations are enough. -/
def copyblock (size : Nat) (src : FILE) (dst : Sink) : Except Fault (FILE × Sink) :=
  copyblockLoop size size src dst

/-- The function `copy` (lines 157-170), called with `size * n` bytes to move:
read them, die when fewer came, and write them when there is an output
stream.  The bytes read are returned in place of the out-parameter `data`. -/
def copy (n : Nat) (src : FILE) (dst : Sink) : Except Fault (List Byte × FILE × Sink) :=
  if n ≤ src.rest.length then
    .ok (src.rest.take n, { src with done := src.done ++ src.rest.take n, rest := src.rest.drop n },
      dst.map (fun out => out ++ src.rest.take n))
  else .error .shortRead

/-- A `U16` stored in two bytes, low byte first. -/
def le16 : List Byte → Nat
  | [lo, hi] => lo.val + 256 * hi.val
  | _ => 0

/-- The subtraction `a - b` of two `U16` values, which wraps around below zero:
the result is `(a + 65536 - b) % 65536`, see `sub16_eq_mod`. -/
def sub16 (a b : Nat) : Nat := if b ≤ a then a - b else a + 65536 - b

/-- The value of a byte read into an `S8`. -/
def toS8 (b : Byte) : Int := if b.val < 128 then (b.val : Int) else (b.val : Int) - 256

/-- Lines 220-228 of `copysprite`: transfer one run and return `reallen`, the
number of decoded bytes the run stands for. -/
def copyrun (src : FILE) (dst : Sink) : Except Fault (Nat × FILE × Sink) :=
  match copy 1 src dst with
  | .error e => .error e
  | .ok (cb, src1, dst1) =>
    let code := toS8 (cb.headD 0)
    if code < 0 then
      match copy 1 src1 dst1 with
      | .error e => .error e
      | .ok (_, src2, dst2) => .ok ((-(code >>> (3 : Nat))).toNat, src2, dst2)
    else
      let reallen := if code ≠ 0 then code.toNat else 128
      match copyblock reallen src1 dst1 with
      | .error e => .error e
      | .ok (src2, dst2) => .ok (reallen, src2, dst2)

/-- The loop `while (size > 0)` of `copysprite` (lines 219-235); the first
argument bounds the number of iterations. -/
def runLoop : Nat → Nat → FILE → Sink → Except Fault (FILE × Sink)
  | 0, size, src, dst => if size > 0 then .error .hang else .ok (src, dst)
  | fuel + 1, size, src, dst =>
    if size > 0 then
      match copyrun src dst with
      | .error e => .error e
      | .ok (reallen, src1, dst1) =>
        if size < reallen then .error .tooManyBytes
        else runLoop fuel (size - reallen) src1 dst1
    else .ok (src, dst)

/-- The function `copysprite` (lines 183-237).  The result is 1 when a sprite
was transferred and 0 at the end of the sprites.  `size -= 8` is a `U16`
subtraction.  Every run lowers `size` by at least one, so `size` iterations of
the loop are enough. -/
def copysprite (src : FILE) (dst : Sink) : Except Fault (Nat × FILE × Sink) :=
  if src.eof then .ok (0, src, dst) else
  match copy 2 src dst with
  | .error e => .error e
  | .ok (sb, src1, dst1) =>
    let size := le16 sb
    if size = 0 then .ok (0, src1, dst1) else
    match copy 1 src1 dst1 with
    | .error e => .error e
    | .ok (ib, src2, dst2) =>
      let info := (ib.headD 0).val
      if info = 0xff then
        match copyblock size src2 dst2 with
        | .error e => .error e
        | .ok (src3, dst3) => .ok (1, src3, dst3)
      else if info &&& 2 ≠ 0 then
        match copyblock (size - 1) src2 dst2 with
        | .error e => .error e
        | .ok (src3, dst3) => .ok (1, src3, dst3)
      else
        match copyblock 7 src2 dst2 with
        | .error e => .error e
        | .ok (src3, dst3) =>
          match runLoop (sub16 size 8) (sub16 size 8) src3 dst3 with
          | .error e => .error e
          | .ok (src4, dst4) => .ok (1, src4, dst4)

/-- The function `skipsprite` (lines 239-242). -/
def skipsprite (f : FILE) : Except Fault (Nat × FILE × Sink) := copysprite f none

/-! ## Strings and the environment of `mergeset`

A C string is the list of its characters, without the terminating NUL. -/

/-- The function `strchr`: the offset of the first occurrence of `c` in `s`. -/
def strchr (s : List Char) (c : Char) : Option Nat :=
  if c ∈ s then some (s.indexOf c) else none

/-- The function `strrchr`: the offset of the last occurrence of `c` in `s`. -/
def strrchr (s : List Char) (c : Char) : Option Nat :=
  if c ∈ s then some (s.length - 1 - s.reverse.indexOf c) else none

/-- The library function `strnicmp`, up to the sign of its result: `true`
when the first `n` characters of the two strings differ, letter case ignored;
the comparison stops where both strings end. -/
def strnicmp : List Char → List Char → Nat → Bool
  | _, _, 0 => false
  | [], [], _ + 1 => false
  | [], _ :: _, _ + 1 => true
  | _ :: _, [], _ + 1 => true
  | a :: s, b :: t, n + 1 => if a.toLower = b.toLower then strnicmp s t n else true

/-- The C string held by a buffer: the characters in front of the first NUL.
A buffer without a NUL is taken to be followed by one. -/
def cstring (bs : List Byte) : List Char :=
  (bs.takeWhile (fun b => b ≠ 0)).map (fun b => Char.ofNat b.val)

/-- Lines 284-289 of `mergeset`: the part of the path after the last backslash,
or else after the first colon. -/
def baseName (grffile : List Char) : List Char :=
  match strrchr grffile (Char.ofNat 92) with
  | some k => grffile.drop (k + 1)
  | none =>
    match strchr grffile ':' with
    | some k => grffile.drop (k + 1)
    | none => grffile

/-- Lines 291-294 of `mergeset`: the `U16` variable `j`, the offset of the
last dot of the base name, or its length when it has no dot. -/
def stemLength (c : List Char) : Nat :=
  match strrchr c '.' with
  | some k => k % 65536
  | none => c.length % 65536

/-- The test of line 296: `strnicmp(c, grfname, j)` is not zero. -/
def nameMismatch (grffile grfname : List Char) : Bool :=
  strnicmp (baseName grffile) grfname (stemLength (baseName grffile))

/-- Lines 323-331 of `mergeset`: the name of the temporary file, which is
`grfmerge.tmp` after the drive of the GRF file, in a buffer of 16 characters. -/
def tempfileName (grffile : List Char) : List Char :=
  let drive : List Char :=
    match strchr grffile ':' with
    | some k => if (k + 1) % 65536 < 16 then (grffile.take 15).take ((k + 1) % 65536)
                else grffile.take 15
    | none => []
  drive ++ "grfmerge.tmp".toList.take (16 - drive.length - 1)

/-- Lines 394-397 of `mergeset`: the name of the backup, the path with what
follows its last dot replaced by `bak`. -/
def backupName (grffile : List Char) : List Char :=
  (match strrchr grffile '.' with
   | some k => grffile.take k
   | none => grffile) ++ ".bak".toList

/-- A call of the C library that changed the file system. -/
inductive FsCall
  /-- A call `rename(old, new)` that succeeded. -/
  | renamed (old new : List Char)
  /-- A call `remove(path)` that succeeded. -/
  | removed (path : List Char)
  deriving DecidableEq, Repr

/-- What the program sees of its environment: the files, the two option
flags, the characters waiting on standard input, the text printed in list
mode, which calls of the C library fail for reasons outside the model, and the
calls that have changed the file system so far. -/
structure World where
  /-- The content of each existing file. -/
  files : List Char → Option (List Byte)
  /-- The flag of option `-y`. -/
  alwaysyes : Bool
  /-- The flag of option `-l`. -/
  onlyshow : Bool
  /-- The characters waiting on standard input. -/
  stdin : List Char
  /-- The text printed by the list mode of `mergeset`. -/
  listing : List Char
  /-- The calls `rename(old, new)` that fail though `old` exists. -/
  renameFails : List Char → List Char → Bool
  /-- The calls `remove(path)` that fail though `path` exists. -/
  removeFails : List Char → Bool
  /-- The paths that `fopen(path, "wb")` cannot open. -/
  createFails : List Char → Bool
  /-- The paths without a file at which `fopen(path, "rb")` fails with an
  `errno` other than `ENOENT`. -/
  openFails : List Char → Bool
  /-- The offsets behind the end of a file that `fseek` refuses. -/
  seekFails : Nat → Bool
  /-- The successful calls of `rename` and `remove`, the first one first. -/
  calls : List FsCall

/-- The function `yesno` (lines 115-134): the answer, and the world with the
two characters read from standard input removed. -/
def yesno (w : World) : Bool × World :=
  if w.alwaysyes then (true, w)
  else
    (decide ((w.stdin.head?).map Char.toLower = some 'y'), { w with stdin := w.stdin.drop 2 })

/-- The library call `rename(old, new)`; `none` when it fails. -/
def rename (w : World) (old new : List Char) : Option World :=
  match w.files old with
  | none => none
  | some content =>
    if w.renameFails old new then none
    else some { w with files := fun p => if p = new then some content
                                         else if p = old then none else w.files p
                       calls := w.calls ++ [.renamed old new] }

/-- The library call `remove(path)`; `none` when it fails. -/
def remove (w : World) (path : List Char) : Option World :=
  match w.files path with
  | none => none
  | some _ =>
    if w.removeFails path then none
    else some { w with files := fun p => if p = path then none else w.files p
                       calls := w.calls ++ [.removed path] }

/-- Lines 415-424 of `mergeset`: delete the GRF file when asked to, then
rename the temporary file to the GRF file. -/
def installFinish (delete : Bool) (w : World) (grffile tempfile : List Char) :
    Except Fault Unit × World :=
  let step : Option World := if delete then remove w grffile else some w
  match step with
  | none => (.error .deleteFailed, w)
  | some w1 =>
    match rename w1 tempfile grffile with
    | none => (.error .renameFailed, w1)
    | some w2 => (.ok (), w2)

/-- Lines 393-426 of `mergeset`, the installation of the finished temporary
file.  The result holds the world at the end, also when the program dies.
Every existing file can be opened for reading.  When there is no backup,
`fopen` fails with `ENOENT`, and the GRF file is renamed to the backup, or it
fails with another `errno`, and the tests of lines 401 and 415 lead to the
removal of the GRF file, as they do when the backup exists. -/
def install (w : World) (grffile tempfile : List Char) : Except Fault Unit × World :=
  let bak := backupName grffile
  match w.files bak with
  | none =>
    if w.openFails bak then installFinish true w grffile tempfile
    else
      match rename w grffile bak with
      | none =>
        let answer := yesno w
        if answer.1 then installFinish true answer.2 grffile tempfile
        else (.error .aborted, answer.2)
      | some w1 => installFinish false w1 grffile tempfile
  | some _ => installFinish true w grffile tempfile

/-! ## The function `mergeset` -/

/-- The decimal text that `printf("%d", n)` prints. -/
def decimal (n : Int) : List Char :=
  if n < 0 then '-' :: Nat.toDigits 10 n.natAbs else Nat.toDigits 10 n.toNat

/-- The function `showpct` (lines 244-253): the new value of `*pct`.  The
progress line it prints is left out. -/
def showpct (now total : Nat) (pct : Int) : Except Fault Int :=
  if total = 0 then .error .divideByZero
  else
    let newpct : Int := ((100 * now / total : Nat) : Int)
    if newpct = pct then .ok pct else .ok newpct

/-- The header of a GRD set after its magic number (lines 268-278): the
version, the number of sprites and the name of the GRF file.  The result is
`numsprites`, the C string in `grfname`, and the stream behind the header.
`char` is taken to be a signed type: a length byte above 127 is a negative
`grflen`, with which either `malloc` or `cfread` fails. -/
def readHeader (grd : FILE) : Except Fault (Nat × List Char × FILE) :=
  match cfread 2 grd with
  | .error e => .error e
  | .ok (vb, grd1) =>
    if le16 vb > 1 then .error .badVersion else
    match cfread 2 grd1 with
    | .error e => .error e
    | .ok (nb, grd2) =>
      match cfread 1 grd2 with
      | .error e => .error e
      | .ok (lb, grd3) =>
        let grflen := (lb.headD 0).val
        if grflen ≥ 252 then .error .shortRead
        else if grflen ≥ 128 then .error .outOfMemory
        else
          match cfread grflen grd3 with
          | .error e => .error e
          | .ok (name, grd4) => .ok (le16 nb, cstring name, grd4)

/-- Lines 300-303 of `mergeset`: read past `n` pairs of a sprite number and a
sprite of the GRD file. -/
def drainLoop : Nat → FILE → Except Fault FILE
  | 0, grd => .ok grd
  | n + 1, grd =>
    match cfread 2 grd with
    | .error e => .error e
    | .ok (_, grd1) =>
      match skipsprite grd1 with
      | .error e => .error e
      | .ok (_, grd2, _) => drainLoop n grd2

/-- The variables of the loop of lines 340-366 when `skipped` is set. -/
structure SkipState where
  /-- The GRD stream. -/
  grd : FILE
  /-- The variable `lastfrom`. -/
  lastfrom : Int
  /-- The variable `lastto`. -/
  lastto : Int
  /-- The text printed so far. -/
  listing : List Char

/-- Lines 344-352: the range bookkeeping and printing of the list mode for one
sprite number. -/
def showRange (spriteno : Nat) (st : SkipState) : SkipState :=
  if (spriteno : Int) ≠ st.lastto + 1 then
    let t1 := if st.lastfrom ≠ st.lastto then st.listing ++ '-' :: decimal st.lastto
              else st.listing
    let t2 := if st.lastfrom ≥ 0 then t1 ++ ", ".toList else t1
    { st with lastfrom := spriteno, lastto := spriteno, listing := t2 ++ decimal spriteno }
  else { st with lastto := spriteno }

/-- The loop of lines 340-366 when `skipped` is set; the first argument is the
number of iterations left, the second one the flag `onlyshow`. -/
def skipLoop : Nat → Bool → SkipState → Except Fault SkipState
  | 0, _, st => .ok st
  | n + 1, onlyshow, st =>
    match cfread 2 st.grd with
    | .error e => .error e
    | .ok (nb, grd1) =>
      let st1 := if onlyshow then showRange (le16 nb) st else st
      match skipsprite grd1 with
      | .error e => .error e
      | .ok (_, grd2, _) => skipLoop n onlyshow { st1 with grd := grd2 }

/-- The variables of the loop of lines 340-366 when `skipped` is clear. -/
structure MergeState where
  /-- The GRD stream. -/
  grd : FILE
  /-- The GRF stream. -/
  grf : FILE
  /-- The temporary file. -/
  tmp : Sink
  /-- The `U16` variable `curno`. -/
  curno : Nat
  /-- The variable `lastpct`. -/
  lastpct : Int

/-- The loop `while (++curno <= spriteno)` of lines 357-360; the first argument
bounds the number of iterations, `grfsize` is the length of the GRF file. -/
def catchUp : Nat → Nat → Nat → MergeState → Except Fault MergeState
  | 0, _, spriteno, st =>
    if (st.curno + 1) % 65536 ≤ spriteno then .error .hang
    else .ok { st with curno := (st.curno + 1) % 65536 }
  | fuel + 1, grfsize, spriteno, st =>
    if (st.curno + 1) % 65536 ≤ spriteno then
      match copysprite st.grf st.tmp with
      | .error e => .error e
      | .ok (_, grf1, tmp1) =>
        match showpct (ftell grf1) grfsize st.lastpct with
        | .error e => .error e
        | .ok pct1 =>
          catchUp fuel grfsize spriteno
            { st with grf := grf1, tmp := tmp1, curno := (st.curno + 1) % 65536, lastpct := pct1 }
    else .ok { st with curno := (st.curno + 1) % 65536 }

/-- Lines 341 and 357-364: one pass of the loop when `skipped` is clear.  The
catching up ends after fewer than 65536 iterations, or else only when reading
the GRF file fails, for which its length in iterations is enough. -/
def mergeEntry (grfsize : Nat) (st : MergeState) : Except Fault MergeState :=
  match cfread 2 st.grd with
  | .error e => .error e
  | .ok (nb, grd1) =>
    match catchUp (st.grf.rest.length + 65536) grfsize (le16 nb) { st with grd := grd1 } with
    | .error e => .error e
    | .ok st1 =>
      match skipsprite st1.grf with
      | .error e => .error e
      | .ok (_, grf2, _) =>
        match copysprite st1.grd st1.tmp with
        | .error e => .error e
        | .ok (_, grd2, tmp2) =>
          match showpct (ftell grf2) grfsize st1.lastpct with
          | .error e => .error e
          | .ok pct2 => .ok { st1 with grd := grd2, grf := grf2, tmp := tmp2, lastpct := pct2 }

/-- The loop of lines 340-366 when `skipped` is clear; the first argument is
the number of iterations left. -/
def mergeLoop : Nat → Nat → MergeState → Except Fault MergeState
  | 0, _, st => .ok st
  | n + 1, grfsize, st =>
    match mergeEntry grfsize st with
    | .error e => .error e
    | .ok st1 => mergeLoop n grfsize st1

/-- The loop of lines 376-377, which copies the remaining sprites; the first
argument bounds the number of iterations. -/
def copyRest : Nat → Nat → MergeState → Except Fault MergeState
  | 0, _, _ => .error .hang
  | fuel + 1, grfsize, st =>
    match copysprite st.grf st.tmp with
    | .error e => .error e
    | .ok (r, grf1, tmp1) =>
      if r ≠ 0 then
        match showpct (ftell grf1) grfsize st.lastpct with
        | .error e => .error e
        | .ok pct1 =>
          copyRest fuel grfsize
            { st with grf := grf1, tmp := tmp1, curno := (st.curno + 1) % 65536, lastpct := pct1 }
      else .ok { st with grf := grf1, tmp := tmp1 }

/-- Lines 339-383 of `mergeset` when `skipped` is clear: the merge of the GRF
stream and the GRD stream into the temporary file, closed by the dummy
checksum.  Every sprite copied by the last loop takes at least three bytes of
the GRF stream, so its length bounds the iterations. -/
def mergeStreams (numsprites grfsize : Nat) (grd grf : FILE) : Except Fault MergeState :=
  match mergeLoop numsprites grfsize ⟨grd, grf, some [], 0, -1⟩ with
  | .error e => .error e
  | .ok st =>
    match copyRest (st.grf.rest.length + 1) grfsize st with
    | .error e => .error e
    | .ok st1 =>
      match showpct grfsize grfsize st1.lastpct with
      | .error e => .error e
      | .ok pct => .ok { st1 with tmp := cfwrite [0, 0, 0, 0] st1.tmp, lastpct := pct }

/-- Lines 312-431 of `mergeset` outside the list mode: open the GRF file, and
either skip the set or merge it and install the result.  The GRF stream reads
the content that the file had when it was opened; the temporary file is put
into the world when it is closed. -/
def mergeInto (w : World) (numsprites : Nat) (grd : FILE) (grffile : List Char) :
    Except Fault (World × FILE) :=
  match w.files grffile with
  | none =>
    match skipLoop numsprites false ⟨grd, -2, -2, w.listing⟩ with
    | .error e => .error e
    | .ok st => .ok (w, st.grd)
  | some content =>
    let tempfile := tempfileName grffile
    if w.createFails tempfile then .error .cantOpenTemp
    else
      match mergeStreams numsprites content.length grd (fopenRead content) with
      | .error e => .error e
      | .ok st =>
        let w1 : World :=
          { w with files := fun p => if p = tempfile then some (st.tmp.getD []) else w.files p }
        match install w1 grffile tempfile with
        | (.error e, _) => .error e
        | (.ok _, w2) => .ok (w2, st.grd)

/-- The function `mergeset` behind the header (lines 280-431). -/
def mergesetBody (w : World) (numsprites : Nat) (grfname : List Char) (grd : FILE)
    (grffile : Option (List Char)) : Except Fault (World × FILE) :=
  if w.onlyshow then
    let text := w.listing ++ "Generated from: ".toList ++ grfname
      ++ ".grf\nSprites in file: ".toList
    match skipLoop numsprites true ⟨grd, -2, -2, text⟩ with
    | .error e => .error e
    | .ok st =>
      let t1 := if st.lastfrom < 0 then st.listing ++ "No sprites.".toList
                else if st.lastfrom ≠ st.lastto then st.listing ++ '-' :: decimal st.lastto
                else st.listing
      .ok ({ w with listing := t1 ++ ['\n'] }, st.grd)
  else
    match grffile with
    | some path =>
      if nameMismatch path grfname then
        let answer := yesno w
        if answer.1 then mergeInto answer.2 numsprites grd path
        else
          match drainLoop numsprites grd with
          | .error e => .error e
          | .ok grd1 => .ok (answer.2, grd1)
      else mergeInto w numsprites grd path
    | none => mergeInto w numsprites grd (grfname ++ ".grf".toList)

/-- The function `mergeset` (lines 255-432): the world and the GRD stream it
leaves behind. -/
def mergeset (w : World) (grd : FILE) (grffile : Option (List Char)) :
    Except Fault (World × FILE) :=
  match readHeader grd with
  | .error e => .error e
  | .ok (numsprites, grfname, grd1) => mergesetBody w numsprites grfname grd1 grffile

/-! ## Notions used in the statements -/

/-- The decoded bytes a run stands for, by its code byte: 128 for code 0, the
code for 1..127, and `-(code >> 3)` for a negative code. -/
def contribution (code : Int) : Nat :=
  if code = 0 then 128 else if 0 < code then code.toNat else (-(code >>> (3 : Nat))).toNat

/-- The number of bytes of a run that follow its code byte: one offset byte
for a negative code, the literal bytes otherwise. -/
def runTail (code : Int) : Nat :=
  if code < 0 then 1 else if code = 0 then 128 else code.toNat

/-- A well-formed sprite: a byte block that `copysprite` reads from its first
byte to its last one and reports as present (so it is not the end marker). -/
def IsRecord (r : List Byte) : Prop :=
  copysprite (fopenRead r) none = .ok (1, ⟨r, [], false⟩, none)

instance instDecidableIsRecord (r : List Byte) : Decidable (IsRecord r) := by
  unfold IsRecord
  infer_instance

/-- The two bytes of a `U16`, low byte first. -/
def bytes16 (n : Nat) : List Byte := [⟨n % 256, by omega⟩, ⟨n / 256 % 256, by omega⟩]

/-- The bytes of one entry of a GRD set: the sprite number and the sprite. -/
def encodeEntry (e : Nat × List Byte) : List Byte := bytes16 e.1 ++ e.2

/-- The bytes of the entries of a GRD set. -/
def encodeEntries (es : List (Nat × List Byte)) : List Byte := (es.map encodeEntry).flatten

/-- The records of a target whose first record has the number `c`, with every
record whose number is the sprite number of an entry replaced by the sprite of
that entry. -/
def mergedRecords : Nat → List (List Byte) → List (Nat × List Byte) → List (List Byte)
  | _, [], _ => []
  | c, r :: rs, es => (es.lookup c).getD r :: mergedRecords (c + 1) rs es

/-- The strictly increasing sprite numbers of the entries of a GRD set. -/
def Increasing (es : List (Nat × List Byte)) : Prop :=
  es.Pairwise (fun a b => a.1 < b.1)

instance instDecidableIncreasing (es : List (Nat × List Byte)) : Decidable (Increasing es) := by
  unfold Increasing
  infer_instance

/-- An environment in which the installation of a merged file cannot fail:
the temporary file can be created, it is neither the GRF file nor its backup,
and no library call fails for an outside reason. -/
def Cooperative (w : World) (path : List Char) : Prop :=
  w.createFails (tempfileName path) = false ∧ (∀ a b, w.renameFails a b = false) ∧
  (∀ a, w.removeFails a = false) ∧ tempfileName path ≠ path ∧
  tempfileName path ≠ backupName path

/-- What a test can observe of the outcome of `mergeset`: the content of the
given files and the GRD stream. -/
def observe (r : Except Fault (World × FILE)) (paths : List (List Char)) :
    Except Fault (List (Option (List Byte)) × FILE) :=
  match r with
  | .error e => .error e
  | .ok (w, grd) => .ok (paths.map w.files, grd)

/-- An environment without failures in which the only file is `path`. -/
def oneFile (path : List Char) (content : List Byte) : World :=
  { files := fun p => if p = path then some content else none
    alwaysyes := false
    onlyshow := false
    stdin := []
    listing := []
    renameFails := fun _ _ => false
    removeFails := fun _ => false
    createFails := fun _ => false
    openFails := fun _ => false
    seekFails := fun _ => false
    calls := [] }

/-! ## Concrete data for closed instances -/

/-- The environment `oneFile` in list mode. -/
def oneFileListed (path : List Char) (content : List Byte) : World :=
  { oneFile path content with onlyshow := true }

/-- A sprite stored verbatim with one byte of data. -/
def demoRecord (k : Byte) : List Byte := [1, 0, 0xff, k]

/-- A target of ten sprites. -/
def demoTarget : List (List Byte) :=
  [demoRecord 1, demoRecord 2, demoRecord 3, demoRecord 4, demoRecord 5, demoRecord 6,
   demoRecord 7, demoRecord 8, demoRecord 9, demoRecord 10]

/-- The entries of a GRD set with the sprite numbers 3 and 7. -/
def demoPatch : List (Nat × List Byte) := [(3, demoRecord 33), (7, demoRecord 77)]

/-- The header of a GRD set behind its magic number: version 0, `n` entries,
and the name `a` with its NUL. -/
def demoHeader (n : Byte) : List Byte := [0, 0, n, 0, 2, 97, 0]

/-- The path of the GRF file in the closed instances. -/
def demoPath : List Char := ['a', '.', 'g', 'r', 'f']

/-- The path `Foo.GRF`. -/
def fooPath : List Char := ['F', 'o', 'o', '.', 'G', 'R', 'F']

/-- The base name of a path without its extension, which `mergeset` compares
with the name in the GRD set. -/
def stem (grffile : List Char) : List Char :=
  (baseName grffile).take (stemLength (baseName grffile))

/-- Two names differ when letter case is ignored. -/
def differNoCase (a b : List Char) : Prop := a.map Char.toLower ≠ b.map Char.toLower

instance instDecidableDifferNoCase (a b : List Char) : Decidable (differNoCase a b) := by
  unfold differNoCase
  infer_instance

/-- The confirmation of a path whose name does not agree with the name in the
GRD set was asked for and declined. -/
def declined (w : World) (grffile : Option (List Char)) (grfname : List Char) : Prop :=
  match grffile with
  | some path => nameMismatch path grfname = true ∧ (yesno w).1 = false
  | none => False

instance instDecidableDeclined (w : World) (grffile : Option (List Char))
    (grfname : List Char) : Decidable (declined w grffile grfname) := by
  unfold declined
  split <;> infer_instance

/-- The path of the GRF file that `mergeset` opens: the path given by the
caller, or else the name in the GRD set with the extension `grf`. -/
def targetPath (grffile : Option (List Char)) (grfname : List Char) : List Char :=
  grffile.getD (grfname ++ ".grf".toList)

/-- A complete run of the compressed data: a code byte followed by the bytes
that its code calls for. -/
def IsRun (bs : List Byte) : Prop :=
  match bs with
  | [] => False
  | b :: t => t.length = runTail (toS8 b)

instance instDecidableIsRun (bs : List Byte) : Decidable (IsRun bs) := by
  unfold IsRun
  split <;> infer_instance

/-- The decoded bytes that a run contributes. -/
def runValue (bs : List Byte) : Nat := contribution (toS8 (bs.headD 0))

/-- The decoded bytes that a sequence of runs contributes. -/
def total (runs : List (List Byte)) : Nat := (runs.map runValue).sum

/-- The bytes start with complete runs that stay below the remaining decoded
length `remaining`, followed by a complete run whose contribution exceeds what
then remains. -/
def Overrun (remaining : Nat) (bytes : List Byte) : Prop :=
  ∃ runs last tl, bytes = runs.flatten ++ last ++ tl ∧ (∀ r ∈ runs, IsRun r) ∧ IsRun last ∧
    total runs < remaining ∧ remaining - total runs < runValue last

/-- The runs of a sprite with the declared size 1: 4095 runs of code -128,
each followed by its offset byte, and one run of code -72. -/
def wrapRuns : List (List Byte) := List.replicate 4095 [0x80, 0] ++ [[0xb8, 0]]

/-- The runs of a sprite with the declared size 7: 4095 runs of code -128,
each followed by its offset byte, and one run of code -120. -/
def lateRuns : List (List Byte) := List.replicate 4095 [0x80, 0] ++ [[0x88, 0]]

/-! ## The summary of the list mode

The functions of this section follow the description of the summary: the
maximal runs of the list, each printed as `a` or `a-b`.  They are compared with
the bookkeeping of `showRange` and `skipLoop`, which follows the source. -/

/-- The maximal runs of a list of sprite numbers, given the run `(f, t)` that
is open in front of it: the next number continues the open run when it is the
previous number plus one, and closes it otherwise. -/
def groupFrom (f t : Nat) : List Nat → List (Nat × Nat)
  | [] => [(f, t)]
  | n :: rest => if n = t + 1 then groupFrom f n rest else (f, t) :: groupFrom n n rest

/-- The maximal runs of a list of sprite numbers, each as its first and its
last number. -/
def maximalRuns : List Nat → List (Nat × Nat)
  | [] => []
  | n :: rest => groupFrom n n rest

/-- The text of a run: `a` for a run of one number, `a-b` for a longer one. -/
def showRun (r : Nat × Nat) : List Char :=
  if r.1 = r.2 then Nat.toDigits 10 r.1 else Nat.toDigits 10 r.1 ++ '-' :: Nat.toDigits 10 r.2

/-- The texts joined by a separator. -/
def joinWith (sep : List Char) : List (List Char) → List Char
  | [] => []
  | [a] => a
  | a :: b :: rest => a ++ sep ++ joinWith sep (b :: rest)

/-- The summary of a list of sprite numbers: its maximal runs joined by a
comma and a blank, or `No sprites.` for the empty list. -/
def summary (l : List Nat) : List Char :=
  if l = [] then "No sprites.".toList else joinWith ", ".toList ((maximalRuns l).map showRun)

/-- The entries of a GRD set with the sprite numbers 5, 6, 7, 12 and 20. -/
def listedPatch : List (Nat × List Byte) :=
  [(5, demoRecord 1), (6, demoRecord 2), (7, demoRecord 3), (12, demoRecord 4),
   (20, demoRecord 5)]

/-! ## Environments for the installation -/

/-- An environment with the listed files, in which every call of `rename`
fails or none does, and with the given characters on standard input. -/
def filesWorld (fs : List (List Char × List Byte)) (renameFails : Bool) (stdin : List Char) :
    World :=
  { files := fun p => fs.lookup p
    alwaysyes := false
    onlyshow := false
    stdin := stdin
    listing := []
    renameFails := fun _ _ => renameFails
    removeFails := fun _ => false
    createFails := fun _ => false
    openFails := fun _ => false
    seekFails := fun _ => false
    calls := [] }

/-- The environment `filesWorld` in which `fseek` refuses every offset from
`limit` on that lies behind the end of the file. -/
def refusingWorld (fs : List (List Char × List Byte)) (limit : Nat) : World :=
  { filesWorld fs false [] with seekFails := fun n => decide (limit ≤ n) }

/-- The name of the temporary file in the closed instances. -/
def demoTemp : List Char := "grfmerge.tmp".toList

/-- The backup of `demoPath`. -/
def demoBackup : List Char := "a.bak".toList

/-! ## The driver: `checkisselfextr`, `domerge` and `main` -/

/-- The constant `GRDmagic`. -/
def GRDmagic : Nat := 0x67fb49ad

/-- A `U32` stored in four bytes, low byte first. -/
def le32 : List Byte → Nat
  | [b0, b1, b2, b3] => b0.val + 256 * b1.val + 65536 * b2.val + 16777216 * b3.val
  | _ => 0

/-- The global variables `grdofs` and `issfx` (lines 38-39). -/
structure Globals where
  /-- The offset of the GRD data in the GRD file. -/
  grdofs : Nat
  /-- Whether the program is a self-extracting executable. -/
  issfx : Bool
  deriving DecidableEq, Repr

/-- The call `fseek(f, offset, SEEK_SET)`, whose result the program ignores.
When it succeeds, the position moves to `offset` and the end-of-file indicator
is cleared; a position behind the end of the file is kept as the end of the
file, the next read fails in both cases.  It succeeds for every offset inside
the file; for an offset behind the end it fails when the environment refuses
the offset, and then the stream is left as it was. -/
def fseek (w : World) (f : FILE) (offset : Nat) : FILE :=
  if (f.done ++ f.rest).length < offset ∧ w.seekFails offset = true then f
  else
    { done := (f.done ++ f.rest).take offset, rest := (f.done ++ f.rest).drop offset,
      eof := false }

/-- The expression `(long) r * (1L << e)` of line 94 for a type `long` of
`longBits` bits; `none` where the shift or the product is undefined. -/
def longProduct (longBits r e : Nat) : Option Nat :=
  if e < longBits - 1 ∧ r * 2 ^ e < 2 ^ (longBits - 1) then some (r * 2 ^ e) else none

/-- Lines 71-79 of `checkisselfextr`: the file `exe`, or when `fopen` fails
with `ENOENT` the file `exe` with `.exe` appended. -/
def openExe (w : World) (exe : List Char) : Option (List Byte) :=
  match w.files exe with
  | some content => some content
  | none => if w.openFails exe then none else w.files (exe ++ ".exe".toList)

/-- The function `checkisselfextr` (lines 63-102): its result and the global
variables after the call.  `longBits` is the width of the type `long`. -/
def checkisselfextr (longBits : Nat) (w : World) (g : Globals) (exe : List Char) :
    Except Fault (Bool × Globals) :=
  match openExe w exe with
  | none => .ok (false, g)
  | some content =>
    match cfread 2 (fopenRead content) with
    | .error e => .error e
    | .ok (c, f1) =>
      if c ≠ [77, 90] then .ok (false, g)
      else
        match cfread 2 (fseek w f1 0x1c) with
        | .error e => .error e
        | .ok (c2, f2) =>
          if c2 = [74, 68] then
            match cfread 1 f2 with
            | .error e => .error e
            | .ok (r, f3) =>
              match cfread 1 f3 with
              | .error e => .error e
              | .ok (e, f4) =>
                match longProduct longBits (r.headD 0).val (e.headD 0).val with
                | none => .error .undefinedOffset
                | some ofs =>
                  match cfread 4 (fseek w f4 ofs) with
                  | .error e => .error e
                  | .ok (magic, _) =>
                    .ok (decide (le32 magic = GRDmagic),
                      { grdofs := ofs, issfx := decide (le32 magic = GRDmagic) })
          else .ok (false, { g with issfx := false })

/-- The loop of `domerge` (lines 447-467); the first argument bounds the
number of iterations, `args` are the arguments `argv[optind]` onwards. -/
def domergeLoop : Nat → World → FILE → Nat → Bool → List (List Char) → Except Fault World
  | 0, _, _, _, _, _ => .error .hang
  | fuel + 1, w, grd, grdofs, first, args =>
    if grd.eof then .ok w
    else
      match cfread 4 (fseek w grd grdofs) with
      | .error e => .error e
      | .ok (magic, grd1) =>
        if le32 magic ≠ GRDmagic then
          if first then .error .notGRD else .ok w
        else
          match mergeset w grd1 args.head? with
          | .error e => .error e
          | .ok (w1, grd2) => domergeLoop fuel w1 grd2 (ftell grd2) false args.tail

/-- The function `domerge` (lines 434-474); the allocation of `block` does not
fail.  Every iteration of the loop but the last reads the magic number and a
header in front of the position it leaves, so that the length of the GRD file
bounds the number of iterations. -/
def domerge (w : World) (g : Globals) (grdfile : List Char) (args : List (List Char)) :
    Except Fault World :=
  match w.files grdfile with
  | none => .error .cantOpenGRD
  | some content => domergeLoop (content.length + 1) w (fopenRead content) g.grdofs true args

/-- The function `main` (lines 476-526) behind the parsing of the options: the
options `-l` and `-y` are the flags of the world, `args` are the arguments
that follow the options, and neither `-h` nor `-v` was given. -/
def main (longBits : Nat) (w : World) (argv0 : List Char) (args : List (List Char)) :
    Except Fault World :=
  match checkisselfextr longBits w ⟨0, false⟩ argv0 with
  | .error e => .error e
  | .ok (_, g1) =>
    match (if g1.issfx then none else args.head?) with
    | some grdfile =>
      match checkisselfextr longBits w g1 grdfile with
      | .error e => .error e
      | .ok (_, g2) => domerge w g2 grdfile args.tail
    | none =>
      if g1.issfx then domerge w g1 argv0 args else .error .noGRDFile

/-- The stream `g1` is the stream `g` after some of its bytes were read. -/
def Advanced (g g1 : FILE) : Prop := ∃ bs, g1.done = g.done ++ bs ∧ g.rest = bs ++ g1.rest

/-- What a test can observe of the outcome of `domerge` and `main`: the
content of the given files. -/
def observeFiles (r : Except Fault World) (paths : List (List Char)) :
    Except Fault (List (Option (List Byte))) :=
  match r with
  | .error e => .error e
  | .ok w => .ok (paths.map w.files)

/-- The four bytes of `GRDmagic` as they stand in a GRD file. -/
def magicBytes : List Byte := [0xad, 0x49, 0xfb, 0x67]

/-- An executable with the marker `JD` at offset `0x1c`, the radix byte `r`
and the exponent byte `e`, followed by `payload`. -/
def stubFile (r e : Byte) (payload : List Byte) : List Byte :=
  [77, 90] ++ List.replicate 26 0 ++ [74, 68, r, e] ++ payload

/-- The name of the program in the closed instances. -/
def stubPath : List Char := "grfmerge".toList

/-- The name of the GRD file in the closed instances. -/
def grdPath : List Char := "p.grd".toList

/-- The files of the closed instance of `main`: a program file with the marker
`JD` and the offset 4 but without GRD data, a GRD file with one set that
replaces sprite 0 of `a.grf`, followed by four zero bytes, and `a.grf` with two
sprites and the end marker. -/
def driverWorld : World :=
  filesWorld [(stubPath, stubFile 4 0 []),
    (grdPath, magicBytes ++ demoHeader 1 ++ encodeEntries [(0, demoRecord 9)] ++ [0, 0, 0, 0]),
    (demoPath, demoRecord 1 ++ demoRecord 2 ++ [0, 0])] false []

/-- The files of the closed instance of `domerge`: a GRD file with two sets
for `a.grf`, followed by four zero bytes, and `a.grf` with two sprites. -/
def twoSetWorld : World :=
  filesWorld [(grdPath, magicBytes ++ demoHeader 1 ++ encodeEntries [(0, demoRecord 9)]
      ++ magicBytes ++ demoHeader 1 ++ encodeEntries [(1, demoRecord 8)] ++ [0, 0, 0, 0]),
    (demoPath, demoRecord 1 ++ demoRecord 2 ++ [0, 0])] false []

/-- The backup path in the words of the specification: the directory part of
the path (what stands in front of the base name of lines 284-289) is kept, and
the file name has its extension, the part from its last dot on, replaced by
`.bak`, or `.bak` appended when it has no dot. -/
def backupNameSpec (grffile : List Char) : List Char :=
  grffile.take (grffile.length - (baseName grffile).length)
    ++ (match strrchr (baseName grffile) '.' with
        | some k => (baseName grffile).take k
        | none => baseName grffile) ++ ".bak".toList

/-- The path `dir.v2\foo`. -/
def dottedDirPath : List Char := "dir.v2".toList ++ Char.ofNat 92 :: "foo".toList

/-- The world `b` has the option `onlyshow` and the failing library calls of
the world `a`. -/
def SameOracles (a b : World) : Prop :=
  b.onlyshow = a.onlyshow ∧ b.createFails = a.createFails ∧ b.renameFails = a.renameFails ∧
    b.removeFails = a.removeFails


/-- The files of the closed instance of a repeated merge: a GRD file that
holds the same set twice, and `a.grf` with ten sprites. -/
def repeatedWorld : World :=
  filesWorld [(grdPath, magicBytes ++ demoHeader 2 ++ encodeEntries demoPatch
      ++ magicBytes ++ demoHeader 2 ++ encodeEntries demoPatch ++ [0, 0, 0, 0]),
    (demoPath, demoTarget.flatten ++ [0, 0])] false []

/-- The sets of a GRD stream merged one after the other, as the
specification describes the driver: `Merges w grd args w1 grd1` says that the
magic number stands at the position of `grd`, that `mergeset` merges the set
behind it with the first of the arguments, and that either this is the last
set merged, or the magic number stands at the position at which `mergeset`
left the stream and the further sets are merged from there, with the arguments
that remain; `w1` and `grd1` are the world and the stream behind the last of
these sets. -/
inductive Merges : World → FILE → List (List Char) → World → FILE → Prop
  /-- One set is merged. -/
  | last (w w1 : World) (grd grd1 : FILE) (args : List (List Char)) (tl : List Byte) :
      grd.eof = false → grd.rest = magicBytes ++ tl →
      mergeset w ⟨grd.done ++ magicBytes, tl, false⟩ args.head? = .ok (w1, grd1) →
      Merges w grd args w1 grd1
  /-- One set is merged, and further sets from where it ends. -/
  | next (w w1 w2 : World) (grd grd1 grd2 : FILE) (args : List (List Char)) (tl : List Byte) :
      grd.eof = false → grd.rest = magicBytes ++ tl →
      mergeset w ⟨grd.done ++ magicBytes, tl, false⟩ args.head? = .ok (w1, grd1) →
      Merges w1 grd1 args.tail w2 grd2 → Merges w grd args w2 grd2

/-- The files of a closed instance of `domerge` with three sets for `a.grf`,
which replace the sprites 0, 1 and again 0, followed by four zero bytes. -/
def threeSetWorld : World :=
  filesWorld [(grdPath, magicBytes ++ demoHeader 1 ++ encodeEntries [(0, demoRecord 9)]
      ++ magicBytes ++ demoHeader 1 ++ encodeEntries [(1, demoRecord 8)]
      ++ magicBytes ++ demoHeader 1 ++ encodeEntries [(0, demoRecord 7)] ++ [0, 0, 0, 0]),
    (demoPath, demoRecord 1 ++ demoRecord 2 ++ [0, 0])] false []

/-! # Properties -/

/-! ## The record codec: basic lemmas -/

theorem sub16_eq_mod (a b : Nat) (ha : a < 65536) (hb : b < 65536) :
    sub16 a b = (a + 65536 - b) % 65536 := by
  unfold sub16
  split <;> omega

theorem cfwrite_nil (dst : Sink) : cfwrite [] dst = dst := by
  cases dst <;> simp [cfwrite]

theorem cfwrite_cfwrite (a b : List Byte) (dst : Sink) :
    cfwrite b (cfwrite a dst) = cfwrite (a ++ b) dst := by
  cases dst <;> simp [cfwrite]

theorem copyblockLoop_eq (fuel : Nat) : ∀ (size : Nat) (src : FILE) (dst : Sink), size ≤ fuel →
    copyblockLoop fuel size src dst =
      if size ≤ src.rest.length then
        .ok (⟨src.done ++ src.rest.take size, src.rest.drop size, src.eof⟩,
          cfwrite (src.rest.take size) dst)
      else .error .shortRead := by
  induction fuel with
  | zero =>
    intro size src dst h
    have h0 : size = 0 := by omega
    subst h0
    cases src
    simp [copyblockLoop, cfwrite_nil]
  | succ fuel ih =>
    intro size src dst h
    unfold copyblockLoop
    by_cases hs : size > 0
    · simp only [hs, if_true]
      by_cases hb : size > BLOCKSIZE
      · simp only [hb, if_true, cfread]
        by_cases hl : BLOCKSIZE ≤ src.rest.length
        · simp only [hl, if_true]
          have hpos : 0 < BLOCKSIZE := by decide
          rw [ih _ _ _ (by omega)]
          simp only [List.length_drop, List.drop_drop, cfwrite_cfwrite, List.append_assoc]
          have e2 : BLOCKSIZE + (size - BLOCKSIZE) = size := by omega
          have e1 : src.rest.take BLOCKSIZE ++ (src.rest.drop BLOCKSIZE).take (size - BLOCKSIZE)
              = src.rest.take size := by
            rw [← List.take_add, e2]
          rw [e1, e2]
          by_cases hl2 : size ≤ src.rest.length
          · have : size - BLOCKSIZE ≤ src.rest.length - BLOCKSIZE := by omega
            simp [hl2, this]
          · have : ¬ (size - BLOCKSIZE ≤ src.rest.length - BLOCKSIZE) := by omega
            simp [hl2, this]
        · have : ¬ (size ≤ src.rest.length) := by omega
          simp [hl, this]
      · simp only [hb, if_false, cfread]
        by_cases hl : size ≤ src.rest.length
        · simp only [hl, if_true, Nat.sub_self]
          rw [ih _ _ _ (by omega)]
          simp [cfwrite_cfwrite]
        · simp [hl]
    · have h0 : size = 0 := by omega
      subst h0
      cases src
      simp [cfwrite_nil]

theorem copyblock_eq (size : Nat) (src : FILE) (dst : Sink) :
    copyblock size src dst =
      if size ≤ src.rest.length then
        .ok (⟨src.done ++ src.rest.take size, src.rest.drop size, src.eof⟩,
          cfwrite (src.rest.take size) dst)
      else .error .shortRead :=
  copyblockLoop_eq size size src dst (Nat.le_refl _)

theorem copy_eq (n : Nat) (src : FILE) (dst : Sink) :
    copy n src dst =
      if n ≤ src.rest.length then
        .ok (src.rest.take n, ⟨src.done ++ src.rest.take n, src.rest.drop n, src.eof⟩,
          cfwrite (src.rest.take n) dst)
      else .error .shortRead := rfl

theorem copyrun_eq (src : FILE) (dst : Sink) :
    copyrun src dst =
      match src.rest with
      | [] => .error .shortRead
      | b :: tl =>
        if runTail (toS8 b) ≤ tl.length then
          .ok (contribution (toS8 b),
            ⟨src.done ++ b :: tl.take (runTail (toS8 b)), tl.drop (runTail (toS8 b)), src.eof⟩,
            cfwrite (b :: tl.take (runTail (toS8 b))) dst)
        else .error .shortRead := by
  unfold copyrun
  rw [copy_eq]
  cases hr : src.rest with
  | nil => simp
  | cons b tl =>
    simp only [List.length_cons, Nat.le_add_left, if_true, List.take_succ_cons, List.take_zero,
      List.headD_cons, List.drop_succ_cons, List.drop_zero]
    by_cases hc : toS8 b < 0
    · have hne : toS8 b ≠ 0 := by omega
      have hnp : ¬ (0 < toS8 b) := by omega
      simp only [hc, if_true, copy_eq, runTail, contribution, hne, hnp, if_false]
      by_cases hl : 1 ≤ tl.length
      · simp [hl, cfwrite_cfwrite]
      · simp [hl]
    · simp only [hc, if_false, copyblock_eq, runTail, contribution]
      by_cases h0 : toS8 b = 0
      · simp only [h0, ne_eq, not_true_eq_false, if_false, if_true]
        by_cases hl : 128 ≤ tl.length
        · simp [hl, cfwrite_cfwrite]
        · simp [hl]
      · have hp : 0 < toS8 b := by omega
        simp only [h0, ne_eq, not_false_eq_true, if_true, if_false, hp]
        by_cases hl : (toS8 b).toNat ≤ tl.length
        · simp [hl, cfwrite_cfwrite]
        · simp [hl]

theorem take_take_append (n : Nat) (l tl2 : List Byte) (h : n ≤ l.length) :
    (l.take n ++ tl2).take n = l.take n :=
  List.take_left' (List.length_take_of_le h)

theorem drop_take_append (n : Nat) (l tl2 : List Byte) (h : n ≤ l.length) :
    (l.take n ++ tl2).drop n = tl2 :=
  List.drop_left' (List.length_take_of_le h)

theorem le_length_take_append (n : Nat) (l tl2 : List Byte) (h : n ≤ l.length) :
    n ≤ (l.take n ++ tl2).length := by
  rw [List.length_append, List.length_take_of_le h]
  omega

/-- The run loop either fails whatever the output stream is, or consumes a
block `bs` of bytes, and then does so on every stream that starts with `bs`,
writing exactly `bs`. -/
theorem runLoop_local (fuel : Nat) : ∀ (size : Nat) (d rest : List Byte) (e : Bool),
    (∃ err, ∀ dst, runLoop fuel size ⟨d, rest, e⟩ dst = .error err) ∨
    (∃ bs tl, rest = bs ++ tl ∧
      ∀ d2 tl2 e2 dst, runLoop fuel size ⟨d2, bs ++ tl2, e2⟩ dst =
        .ok (⟨d2 ++ bs, tl2, e2⟩, cfwrite bs dst)) := by
  induction fuel with
  | zero =>
    intro size d rest e
    by_cases hs : size > 0
    · exact Or.inl ⟨.hang, fun dst => by simp [runLoop, hs]⟩
    · exact Or.inr ⟨[], rest, rfl, fun d2 tl2 e2 dst => by simp [runLoop, hs, cfwrite_nil]⟩
  | succ fuel ih =>
    intro size d rest e
    by_cases hs : size > 0
    · cases rest with
      | nil =>
        exact Or.inl ⟨.shortRead, fun dst => by simp [runLoop, hs, copyrun_eq]⟩
      | cons b tl =>
        by_cases hl : runTail (toS8 b) ≤ tl.length
        · by_cases hc : size < contribution (toS8 b)
          · exact Or.inl ⟨.tooManyBytes, fun dst => by simp [runLoop, hs, copyrun_eq, hl, hc]⟩
          · rcases ih (size - contribution (toS8 b))
              (d ++ b :: tl.take (runTail (toS8 b))) (tl.drop (runTail (toS8 b))) e
              with ⟨err, he⟩ | ⟨bs, tl2, h1, h2⟩
            · exact Or.inl ⟨err, fun dst => by simp [runLoop, hs, copyrun_eq, hl, hc, he]⟩
            · refine Or.inr ⟨b :: tl.take (runTail (toS8 b)) ++ bs, tl2, ?_, fun d2 tl3 e2 dst => ?_⟩
              · simp only [List.cons_append, List.append_assoc, ← h1, List.take_append_drop]
              · have k1 := take_take_append _ tl (bs ++ tl3) hl
                have k2 := drop_take_append _ tl (bs ++ tl3) hl
                have k3 := le_length_take_append _ tl (bs ++ tl3) hl
                simp only [runLoop, hs, if_true, copyrun_eq, List.cons_append, List.append_assoc,
                  k1, k2, k3, hc, if_false, h2, cfwrite_cfwrite]
        · exact Or.inl ⟨.shortRead, fun dst => by simp [runLoop, hs, copyrun_eq, hl]⟩
    · exact Or.inr ⟨[], rest, rfl, fun d2 tl2 e2 dst => by simp [runLoop, hs, cfwrite_nil]⟩

theorem copysprite_eof (done rest : List Byte) (dst : Sink) :
    copysprite ⟨done, rest, true⟩ dst = .ok (0, ⟨done, rest, true⟩, dst) := by
  simp [copysprite]

theorem copysprite_short (done rest : List Byte) (dst : Sink) (h : rest.length < 2) :
    copysprite ⟨done, rest, false⟩ dst = .error .shortRead := by
  have : ¬ (2 ≤ rest.length) := by omega
  simp [copysprite, copy_eq, this]

theorem copysprite_sentinel (done tl : List Byte) (lo hi : Byte) (dst : Sink)
    (hz : lo.val + 256 * hi.val = 0) :
    copysprite ⟨done, lo :: hi :: tl, false⟩ dst =
      .ok (0, ⟨done ++ [lo, hi], tl, false⟩, cfwrite [lo, hi] dst) := by
  simp [copysprite, copy_eq, le16, hz, cfwrite]

theorem copysprite_noinfo (done : List Byte) (lo hi : Byte) (dst : Sink)
    (hz : lo.val + 256 * hi.val ≠ 0) :
    copysprite ⟨done, [lo, hi], false⟩ dst = .error .shortRead := by
  simp [copysprite, copy_eq, le16, hz]

theorem copysprite_cons (done tl : List Byte) (lo hi info : Byte) (dst : Sink)
    (hz : lo.val + 256 * hi.val ≠ 0) :
    copysprite ⟨done, lo :: hi :: info :: tl, false⟩ dst =
      if info.val = 0xff then
        if lo.val + 256 * hi.val ≤ tl.length then
          .ok (1, ⟨done ++ lo :: hi :: info :: tl.take (lo.val + 256 * hi.val),
            tl.drop (lo.val + 256 * hi.val), false⟩,
            cfwrite (lo :: hi :: info :: tl.take (lo.val + 256 * hi.val)) dst)
        else .error .shortRead
      else if info.val &&& 2 ≠ 0 then
        if lo.val + 256 * hi.val - 1 ≤ tl.length then
          .ok (1, ⟨done ++ lo :: hi :: info :: tl.take (lo.val + 256 * hi.val - 1),
            tl.drop (lo.val + 256 * hi.val - 1), false⟩,
            cfwrite (lo :: hi :: info :: tl.take (lo.val + 256 * hi.val - 1)) dst)
        else .error .shortRead
      else if 7 ≤ tl.length then
        match runLoop (sub16 (lo.val + 256 * hi.val) 8) (sub16 (lo.val + 256 * hi.val) 8)
            ⟨done ++ lo :: hi :: info :: tl.take 7, tl.drop 7, false⟩
            (cfwrite (lo :: hi :: info :: tl.take 7) dst) with
        | .error e => .error e
        | .ok (src4, dst4) => .ok (1, src4, dst4)
      else .error .shortRead := by
  simp only [copysprite, Bool.false_eq_true, if_false, copy_eq, List.length_cons,
    Nat.le_add_left, if_true, List.take_succ_cons, List.take_zero, le16, hz,
    List.drop_succ_cons, List.drop_zero, List.headD_cons, copyblock_eq, cfwrite_cfwrite,
    List.append_assoc, List.cons_append, List.nil_append]
  by_cases h1 : info.val = 0xff
  · simp only [h1, if_true]
    by_cases hl : lo.val + 256 * hi.val ≤ tl.length
    · simp [hl]
    · simp [hl]
  · simp only [h1, if_false]
    by_cases h2 : info.val &&& 2 ≠ 0
    · rw [if_pos h2, if_pos h2]
      by_cases hl : lo.val + 256 * hi.val - 1 ≤ tl.length
      · simp [hl]
      · simp [hl]
    · rw [if_neg h2, if_neg h2]
      by_cases hl : 7 ≤ tl.length
      · simp only [hl, if_true]
      · simp only [hl, if_false]

/-- On a stream whose end-of-file indicator is clear, `copysprite` either
fails whatever the output stream is, or consumes a block `bs` of bytes, and
then does so on every stream that starts with `bs`, writing exactly `bs`.  The
result is 0 for a block of two bytes and 1 for a longer block. -/
theorem copysprite_local (d rest : List Byte) :
    (∃ err, ∀ dst, copysprite ⟨d, rest, false⟩ dst = .error err) ∨
    (∃ r bs tl, rest = bs ++ tl ∧ ((r = 0 ∧ bs.length = 2) ∨ (r = 1 ∧ 3 ≤ bs.length)) ∧
      ∀ d2 tl2 dst, copysprite ⟨d2, bs ++ tl2, false⟩ dst =
        .ok (r, ⟨d2 ++ bs, tl2, false⟩, cfwrite bs dst)) := by
  match rest with
  | [] => exact Or.inl ⟨.shortRead, fun dst => copysprite_short _ _ _ (by simp)⟩
  | [_] => exact Or.inl ⟨.shortRead, fun dst => copysprite_short _ _ _ (by simp)⟩
  | lo :: hi :: tl =>
    by_cases hz : lo.val + 256 * hi.val = 0
    · exact Or.inr ⟨0, [lo, hi], tl, rfl, Or.inl ⟨rfl, rfl⟩,
        fun d2 tl2 dst => copysprite_sentinel _ _ _ _ _ hz⟩
    match tl with
    | [] => exact Or.inl ⟨.shortRead, fun dst => copysprite_noinfo _ _ _ _ hz⟩
    | info :: tl =>
      by_cases h1 : info.val = 0xff
      · by_cases hl : lo.val + 256 * hi.val ≤ tl.length
        · refine Or.inr ⟨1, lo :: hi :: info :: tl.take (lo.val + 256 * hi.val),
            tl.drop (lo.val + 256 * hi.val), by simp, Or.inr ⟨rfl, by simp⟩, fun d2 tl2 dst => ?_⟩
          have k1 := take_take_append _ tl tl2 hl
          have k2 := drop_take_append _ tl tl2 hl
          have k3 := le_length_take_append _ tl tl2 hl
          simp only [List.cons_append, copysprite_cons _ _ _ _ _ _ hz, h1, if_true, k1, k2, k3]
        · exact Or.inl ⟨.shortRead, fun dst => by
            simp only [copysprite_cons _ _ _ _ _ _ hz, h1, if_true, hl, if_false]⟩
      by_cases h2 : info.val &&& 2 ≠ 0
      · by_cases hl : lo.val + 256 * hi.val - 1 ≤ tl.length
        · refine Or.inr ⟨1, lo :: hi :: info :: tl.take (lo.val + 256 * hi.val - 1),
            tl.drop (lo.val + 256 * hi.val - 1), by simp, Or.inr ⟨rfl, by simp⟩,
            fun d2 tl2 dst => ?_⟩
          have k1 := take_take_append _ tl tl2 hl
          have k2 := drop_take_append _ tl tl2 hl
          have k3 := le_length_take_append _ tl tl2 hl
          rw [List.cons_append, List.cons_append, List.cons_append,
            copysprite_cons _ _ _ _ _ _ hz, if_neg h1, if_pos h2, if_pos k3, k1, k2]
        · exact Or.inl ⟨.shortRead, fun dst => by
            rw [copysprite_cons _ _ _ _ _ _ hz, if_neg h1, if_pos h2, if_neg hl]⟩
      by_cases hl : 7 ≤ tl.length
      swap
      · exact Or.inl ⟨.shortRead, fun dst => by
          rw [copysprite_cons _ _ _ _ _ _ hz, if_neg h1, if_neg h2, if_neg hl]⟩
      rcases runLoop_local (sub16 (lo.val + 256 * hi.val) 8) (sub16 (lo.val + 256 * hi.val) 8)
        (d ++ lo :: hi :: info :: tl.take 7) (tl.drop 7) false with ⟨e, he⟩ | ⟨bs, tl2, hb, hok⟩
      · exact Or.inl ⟨e, fun dst => by
          rw [copysprite_cons _ _ _ _ _ _ hz, if_neg h1, if_neg h2, if_pos hl, he]⟩
      · refine Or.inr ⟨1, lo :: hi :: info :: tl.take 7 ++ bs, tl2, ?_, Or.inr ⟨rfl, by simp⟩,
          fun d2 tl3 dst => ?_⟩
        · simp only [List.cons_append, List.append_assoc, ← hb, List.take_append_drop]
        · have k1 := take_take_append _ tl (bs ++ tl3) hl
          have k2 := drop_take_append _ tl (bs ++ tl3) hl
          have k3 := le_length_take_append _ tl (bs ++ tl3) hl
          simp only [List.cons_append, List.append_assoc]
          rw [copysprite_cons _ _ _ _ _ _ hz, if_neg h1, if_neg h2, if_pos k3, k1, k2, hok]
          simp [cfwrite_cfwrite]

/-- The behaviour of `copysprite` on its source does not depend on the output
stream, and what it writes is what it consumed. -/
theorem copysprite_uniform (src : FILE) :
    (∃ err, ∀ dst, copysprite src dst = .error err) ∨
    (∃ r bs tl, src.rest = bs ++ tl ∧
      ∀ dst, copysprite src dst = .ok (r, ⟨src.done ++ bs, tl, src.eof⟩, cfwrite bs dst)) := by
  obtain ⟨d, rest, eof⟩ := src
  cases eof with
  | true => exact Or.inr ⟨0, [], rest, rfl, fun dst => by simp [copysprite_eof, cfwrite_nil]⟩
  | false =>
    rcases copysprite_local d rest with ⟨err, he⟩ | ⟨r, bs, tl, h1, _, h2⟩
    · exact Or.inl ⟨err, he⟩
    · exact Or.inr ⟨r, bs, tl, h1, fun dst => by simp only [h1, h2]⟩

/-! ## Copying and skipping -/

/-- C3: `copysprite` into a real output stream and `skipsprite` (which is
`copysprite` into `NULL`) fail on the same sources with the same error, and
otherwise return the same result and leave the source in the same state, so
that they consume the same number of bytes. -/
theorem copysprite_skipsprite_agree (src : FILE) (out : List Byte) :
    (∃ err, copysprite src (some out) = .error err ∧ skipsprite src = .error err) ∨
    (∃ r src1 out1, copysprite src (some out) = .ok (r, src1, some out1) ∧
      skipsprite src = .ok (r, src1, none)) := by
  rcases copysprite_uniform src with ⟨err, he⟩ | ⟨r, bs, tl, _, h2⟩
  · exact Or.inl ⟨err, he _, he _⟩
  · refine Or.inr ⟨r, _, out ++ bs, h2 (some out), ?_⟩
    rw [skipsprite, h2 none]
    rfl

/-- C4: when `copysprite` into a real output stream succeeds, the bytes it
appended to the output are the bytes it consumed from the source, in order:
the source's remaining bytes before the call are the appended bytes followed
by the remaining bytes after it. -/
theorem copysprite_mirrors (src src1 : FILE) (out : List Byte) (r : Nat) (dst1 : Sink)
    (h : copysprite src (some out) = .ok (r, src1, dst1)) :
    ∃ appended, dst1 = some (out ++ appended) ∧ src.rest = appended ++ src1.rest ∧
      src1.done = src.done ++ appended := by
  rcases copysprite_uniform src with ⟨err, he⟩ | ⟨r2, bs, tl, h1, h2⟩
  · rw [he] at h
    cases h
  · rw [h2] at h
    cases h
    exact ⟨bs, rfl, h1, rfl⟩

theorem copysprite_mirrors_witness :
    ∃ appended, (some [7, 1, 0, 0xff, 9] : Sink) = some ([7] ++ appended) ∧
      (fopenRead [1, 0, 0xff, 9, 5]).rest = appended ++ (FILE.mk [1, 0, 0xff, 9] [5] false).rest ∧
      (FILE.mk [1, 0, 0xff, 9] [5] false).done = (fopenRead [1, 0, 0xff, 9, 5]).done ++ appended :=
  copysprite_mirrors (fopenRead [1, 0, 0xff, 9, 5]) ⟨[1, 0, 0xff, 9], [5], false⟩ [7] 1
    (some [7, 1, 0, 0xff, 9]) (by decide)

/-! ## The encoded length of sprites that need no run accounting -/

theorem and_two_ne_zero_iff (n : Nat) : (n &&& 2 ≠ 0) ↔ n.testBit 1 = true := by
  have h2 : ∀ i, (2 : Nat).testBit i = decide (1 = i) := fun i => Nat.testBit_two_pow (n := 1)
  constructor
  · intro h
    by_contra hb
    apply h
    apply Nat.eq_of_testBit_eq
    intro i
    rw [Nat.testBit_and, h2]
    by_cases hi : 1 = i
    · subst hi
      simp [hb]
    · simp [hi]
  · intro h h0
    have := Nat.testBit_and n 2 1
    rw [h0, h, h2] at this
    simp at this

/-- C6: on a source that starts with a 16-bit little-endian size `L ≠ 0` and
an info byte which is `0xFF` or has bit 1 set, and that holds enough bytes,
`copysprite` returns 1 (present) and has consumed exactly `3 + L` bytes when
the info byte is `0xFF`, and exactly `2 + L` bytes otherwise. -/
theorem copysprite_encoded_length (d tl : List Byte) (lo hi info : Byte) (dst : Sink)
    (hL : lo.val + 256 * hi.val ≠ 0)
    (hinfo : info.val = 0xff ∨ info.val.testBit 1 = true)
    (hlen : (if info.val = 0xff then 3 + (lo.val + 256 * hi.val) else 2 + (lo.val + 256 * hi.val))
      ≤ (lo :: hi :: info :: tl).length) :
    ∃ src1 dst1, copysprite ⟨d, lo :: hi :: info :: tl, false⟩ dst = .ok (1, src1, dst1) ∧
      ftell src1 = d.length +
        (if info.val = 0xff then 3 + (lo.val + 256 * hi.val) else 2 + (lo.val + 256 * hi.val)) ∧
      src1.rest = (lo :: hi :: info :: tl).drop
        (if info.val = 0xff then 3 + (lo.val + 256 * hi.val) else 2 + (lo.val + 256 * hi.val)) := by
  by_cases h1 : info.val = 0xff
  · simp only [h1, if_true, List.length_cons] at hlen ⊢
    have hl : lo.val + 256 * hi.val ≤ tl.length := by omega
    refine ⟨_, _, by rw [copysprite_cons _ _ _ _ _ _ hL, if_pos h1, if_pos hl], ?_, ?_⟩
    · simp only [ftell, List.length_append, List.length_cons, List.length_take_of_le hl]
      omega
    · rw [show 3 + (lo.val + 256 * hi.val) = (lo.val + 256 * hi.val) + 1 + 1 + 1 by omega]
      rfl
  · simp only [h1, if_false, List.length_cons] at hlen ⊢
    have h2 : info.val &&& 2 ≠ 0 := by
      rcases hinfo with h | h
      · exact absurd h h1
      · exact (and_two_ne_zero_iff _).mpr h
    have hl : lo.val + 256 * hi.val - 1 ≤ tl.length := by omega
    refine ⟨_, _, by rw [copysprite_cons _ _ _ _ _ _ hL, if_neg h1, if_pos h2, if_pos hl], ?_, ?_⟩
    · simp only [ftell, List.length_append, List.length_cons, List.length_take_of_le hl]
      omega
    · rw [show 2 + (lo.val + 256 * hi.val) = (lo.val + 256 * hi.val - 1) + 1 + 1 + 1 by omega]
      rfl

theorem copysprite_encoded_length_witness :
    (∃ src1 dst1, copysprite ⟨[], 2 :: 0 :: 0xff :: [8, 9, 5], false⟩ none = .ok (1, src1, dst1) ∧
      ftell src1 = ([] : List Byte).length +
        (if (0xff : Byte).val = 0xff then 3 + ((2 : Byte).val + 256 * (0 : Byte).val)
          else 2 + ((2 : Byte).val + 256 * (0 : Byte).val)) ∧
      src1.rest = (2 :: 0 :: 0xff :: [8, 9, 5]).drop
        (if (0xff : Byte).val = 0xff then 3 + ((2 : Byte).val + 256 * (0 : Byte).val)
          else 2 + ((2 : Byte).val + 256 * (0 : Byte).val))) ∧
    (∃ src1 dst1, copysprite ⟨[], 2 :: 0 :: 0x0a :: [8, 9, 5], false⟩ none = .ok (1, src1, dst1) ∧
      ftell src1 = ([] : List Byte).length +
        (if (0x0a : Byte).val = 0xff then 3 + ((2 : Byte).val + 256 * (0 : Byte).val)
          else 2 + ((2 : Byte).val + 256 * (0 : Byte).val)) ∧
      src1.rest = (2 :: 0 :: 0x0a :: [8, 9, 5]).drop
        (if (0x0a : Byte).val = 0xff then 3 + ((2 : Byte).val + 256 * (0 : Byte).val)
          else 2 + ((2 : Byte).val + 256 * (0 : Byte).val))) :=
  ⟨copysprite_encoded_length [] [8, 9, 5] 2 0 0xff none (by decide) (by decide) (by decide),
   copysprite_encoded_length [] [8, 9, 5] 2 0 0x0a none (by decide) (by decide) (by decide)⟩

/-! ## Well-formed sprites -/

theorem record_frame (r : List Byte) (h : IsRecord r) (d tl : List Byte) (dst : Sink) :
    copysprite ⟨d, r ++ tl, false⟩ dst = .ok (1, ⟨d ++ r, tl, false⟩, cfwrite r dst) := by
  rcases copysprite_local [] r with ⟨err, he⟩ | ⟨k, bs, tl2, h1, _, h2⟩
  · unfold IsRecord fopenRead at h
    rw [he] at h
    cases h
  · have h3 := h2 [] tl2 none
    unfold IsRecord fopenRead at h
    rw [← h1, h] at h3
    simp only [Except.ok.injEq, Prod.mk.injEq, FILE.mk.injEq, List.nil_append] at h3
    obtain ⟨hk, ⟨hb, ht, _⟩, _⟩ := h3
    subst hk
    subst hb
    exact h2 d tl dst

theorem record_length (r : List Byte) (h : IsRecord r) : 3 ≤ r.length := by
  rcases copysprite_local [] r with ⟨err, he⟩ | ⟨k, bs, tl2, h1, hk, h2⟩
  · unfold IsRecord fopenRead at h
    rw [he] at h
    cases h
  · have h3 := h2 [] tl2 none
    unfold IsRecord fopenRead at h
    rw [← h1, h] at h3
    simp only [Except.ok.injEq, Prod.mk.injEq, FILE.mk.injEq, List.nil_append] at h3
    obtain ⟨hk1, ⟨hb, ht, _⟩, _⟩ := h3
    subst hb
    rcases hk with ⟨h0, _⟩ | ⟨_, hl⟩
    · omega
    · exact hl

theorem records_length (rs : List (List Byte)) (h : ∀ r ∈ rs, IsRecord r) :
    rs.length ≤ rs.flatten.length := by
  induction rs with
  | nil => simp
  | cons r rs ih =>
    have h1 := record_length r (h r (List.mem_cons_self _ _))
    have h2 := ih (fun x hx => h x (List.mem_cons_of_mem _ hx))
    simp only [List.length_cons, List.flatten_cons, List.length_append]
    omega

/-! ## The loops of `mergeset` on well-formed sprites -/

theorem showpct_ok (now total : Nat) (pct : Int) (h : total ≠ 0) :
    ∃ p, showpct now total pct = .ok p := by
  unfold showpct
  rw [if_neg h]
  dsimp only
  split
  · exact ⟨_, rfl⟩
  · exact ⟨_, rfl⟩

/-- Catching up to a sprite number copies the sprites in front of it. -/
theorem catchUp_records (rs : List (List Byte)) :
    ∀ (fuel grfsize spriteno : Nat) (grd : FILE) (gd gtl : List Byte) (tmp : Sink) (c : Nat)
      (pct : Int), (∀ r ∈ rs, IsRecord r) → c + rs.length = spriteno → spriteno < 65535 →
      rs.length ≤ fuel → grfsize ≠ 0 →
      ∃ pct1, catchUp fuel grfsize spriteno ⟨grd, ⟨gd, rs.flatten ++ gtl, false⟩, tmp, c, pct⟩ =
        .ok ⟨grd, ⟨gd ++ rs.flatten, gtl, false⟩, cfwrite rs.flatten tmp, spriteno + 1, pct1⟩ := by
  induction rs with
  | nil =>
    intro fuel grfsize spriteno grd gd gtl tmp c pct _ hc hs _ _
    simp only [List.length_nil, Nat.add_zero] at hc
    subst hc
    have h1 : (c + 1) % 65536 = c + 1 := Nat.mod_eq_of_lt (by omega)
    have h2 : ¬ (c + 1 ≤ c) := by omega
    refine ⟨pct, ?_⟩
    cases fuel <;> simp [catchUp, h1, h2, cfwrite_nil]
  | cons r rs ih =>
    intro fuel grfsize spriteno grd gd gtl tmp c pct hr hc hs hf hg
    simp only [List.length_cons] at hc hf
    obtain ⟨fuel, rfl⟩ : ∃ f, fuel = f + 1 := ⟨fuel - 1, by omega⟩
    have h1 : (c + 1) % 65536 = c + 1 := Nat.mod_eq_of_lt (by omega)
    have h2 : c + 1 ≤ spriteno := by omega
    have hrec := record_frame r (hr r (List.mem_cons_self _ _)) gd (rs.flatten ++ gtl) tmp
    obtain ⟨p1, hp1⟩ := showpct_ok (ftell ⟨gd ++ r, rs.flatten ++ gtl, false⟩) grfsize pct hg
    obtain ⟨p2, hp2⟩ := ih fuel grfsize spriteno grd (gd ++ r) gtl (cfwrite r tmp) (c + 1) p1
      (fun x hx => hr x (List.mem_cons_of_mem _ hx)) (by omega) hs (by omega) hg
    refine ⟨p2, ?_⟩
    simp only [catchUp, h1, h2, if_true, List.flatten_cons, List.append_assoc, hrec, hp1, hp2,
      cfwrite_cfwrite]

/-! ## The replacement of records, as a function on lists -/

theorem lookup_above (es : List (Nat × List Byte)) (c : Nat) (h : ∀ x ∈ es, c < x.1) :
    es.lookup c = none := by
  induction es with
  | nil => rfl
  | cons x es ih =>
    obtain ⟨k, b⟩ := x
    have hk : c < k := h (k, b) (List.mem_cons_self _ _)
    have hne : (c == k) = false := by simp; omega
    rw [List.lookup_cons, hne]
    exact ih (fun y hy => h y (List.mem_cons_of_mem _ hy))

theorem mergedRecords_skip (B : List (List Byte)) : ∀ (c i : Nat) (p : List Byte)
    (es : List (Nat × List Byte)), i < c →
    mergedRecords c B ((i, p) :: es) = mergedRecords c B es := by
  induction B with
  | nil => intros; rfl
  | cons b B ih =>
    intro c i p es h
    have hne : (c == i) = false := by simp; omega
    simp only [mergedRecords, List.lookup_cons, hne]
    rw [ih (c + 1) i p es (by omega)]

theorem mergedRecords_untouched (rs : List (List Byte)) : ∀ (c : Nat)
    (es : List (Nat × List Byte)), (∀ x ∈ es, c + rs.length ≤ x.1) →
    mergedRecords c rs es = rs := by
  induction rs with
  | nil => intros; rfl
  | cons r rs ih =>
    intro c es h
    simp only [List.length_cons] at h
    have h1 : es.lookup c = none := lookup_above es c (fun x hx => by have := h x hx; omega)
    simp only [mergedRecords, h1, Option.getD_none]
    rw [ih (c + 1) es (fun x hx => by have := h x hx; omega)]

theorem mergedRecords_step (A : List (List Byte)) : ∀ (c i : Nat) (r0 p : List Byte)
    (B : List (List Byte)) (es : List (Nat × List Byte)), c + A.length = i →
    (∀ x ∈ es, i < x.1) →
    mergedRecords c (A ++ r0 :: B) ((i, p) :: es) = A ++ p :: mergedRecords (i + 1) B es := by
  induction A with
  | nil =>
    intro c i r0 p B es hc _
    simp only [List.length_nil, Nat.add_zero] at hc
    subst hc
    simp only [List.nil_append, mergedRecords, List.lookup_cons_self, Option.getD_some]
    rw [mergedRecords_skip B (c + 1) c p es (by omega)]
  | cons a A ih =>
    intro c i r0 p B es hc hes
    simp only [List.length_cons] at hc
    have hne : (c == i) = false := by simp; omega
    have h1 : es.lookup c = none := lookup_above es c (fun x hx => by have := hes x hx; omega)
    simp only [List.cons_append, mergedRecords, List.lookup_cons, hne, h1, Option.getD_none,
      List.append_eq]
    rw [ih (c + 1) i r0 p B es (by omega) hes]

theorem le16_bytes16 (n : Nat) (h : n < 65536) : le16 (bytes16 n) = n := by
  simp only [le16, bytes16]
  omega

theorem cfread_bytes16 (n : Nat) (d tl : List Byte) (e : Bool) :
    cfread 2 ⟨d, bytes16 n ++ tl, e⟩ = .ok (bytes16 n, ⟨d ++ bytes16 n, tl, e⟩) := by
  simp [cfread, bytes16]

/-- One pass of the merge loop copies the sprites in front of the sprite
number read, skips the sprite with that number and writes the GRD sprite. -/
theorem mergeEntry_records (A : List (List Byte)) (r0 p : List Byte) (i c grfsize : Nat)
    (dd dtl gd gtl : List Byte) (tmp : Sink) (pct : Int)
    (hA : ∀ r ∈ A, IsRecord r) (h0 : IsRecord r0) (hp : IsRecord p)
    (hc : c + A.length = i) (hi : i < 65535) (hg : grfsize ≠ 0) :
    ∃ pct1, mergeEntry grfsize
        ⟨⟨dd, encodeEntry (i, p) ++ dtl, false⟩, ⟨gd, A.flatten ++ (r0 ++ gtl), false⟩, tmp, c, pct⟩ =
      .ok ⟨⟨dd ++ encodeEntry (i, p), dtl, false⟩, ⟨gd ++ A.flatten ++ r0, gtl, false⟩,
        cfwrite (A.flatten ++ p) tmp, i + 1, pct1⟩ := by
  obtain ⟨p1, hp1⟩ := catchUp_records A ((A.flatten ++ (r0 ++ gtl)).length + 65536) grfsize i
    ⟨dd ++ bytes16 i, p ++ dtl, false⟩ gd (r0 ++ gtl) tmp c pct hA hc hi (by omega) hg
  obtain ⟨p2, hp2⟩ := showpct_ok (ftell ⟨gd ++ A.flatten ++ r0, gtl, false⟩) grfsize p1 hg
  refine ⟨p2, ?_⟩
  have e1 : encodeEntry (i, p) ++ dtl = bytes16 i ++ (p ++ dtl) := by
    simp [encodeEntry]
  have e2 : dd ++ encodeEntry (i, p) = dd ++ bytes16 i ++ p := by
    simp [encodeEntry]
  simp only [mergeEntry, e1, cfread_bytes16, le16_bytes16 i (by omega), hp1, skipsprite,
    record_frame r0 h0, record_frame p hp, hp2, cfwrite_cfwrite, e2]

/-- The merge loop on a target of well-formed sprites and a GRD set with
increasing sprite numbers: what has been written and what is left of the
target make up the target with the named sprites replaced. -/
theorem mergeLoop_records (es : List (Nat × List Byte)) :
    ∀ (c : Nat) (rs : List (List Byte)) (grfsize : Nat) (dd dtl gd gtl : List Byte) (tmp : Sink)
      (pct : Int), (∀ r ∈ rs, IsRecord r) → (∀ x ∈ es, IsRecord x.2) → Increasing es →
      (∀ x ∈ es, c ≤ x.1 ∧ x.1 < c + rs.length) → (∀ x ∈ es, x.1 < 65535) → grfsize ≠ 0 →
      ∃ out left gd1 c1 pct1,
        mergeLoop es.length grfsize
            ⟨⟨dd, encodeEntries es ++ dtl, false⟩, ⟨gd, rs.flatten ++ gtl, false⟩, tmp, c, pct⟩ =
          .ok ⟨⟨dd ++ encodeEntries es, dtl, false⟩, ⟨gd1, left.flatten ++ gtl, false⟩,
            cfwrite out.flatten tmp, c1, pct1⟩ ∧
        mergedRecords c rs es = out ++ left ∧ (∀ r ∈ left, IsRecord r) := by
  induction es with
  | nil =>
    intro c rs grfsize dd dtl gd gtl tmp pct hrs _ _ _ _ _
    refine ⟨[], rs, gd, c, pct, ?_, ?_, hrs⟩
    · simp [mergeLoop, encodeEntries, cfwrite_nil]
    · simp [mergedRecords_untouched]
  | cons x es ih =>
    intro c rs grfsize dd dtl gd gtl tmp pct hrs hes hinc hrange hmax hg
    obtain ⟨i, p⟩ := x
    obtain ⟨hci, hin⟩ := hrange (i, p) (List.mem_cons_self _ _)
    have hi : i < 65535 := hmax (i, p) (List.mem_cons_self _ _)
    simp only at hci hin
    have hk : i - c < rs.length := by omega
    obtain ⟨r0, B, hdrop⟩ : ∃ r0 B, rs.drop (i - c) = r0 :: B := by
      cases hd : rs.drop (i - c) with
      | nil =>
        have := congrArg List.length hd
        simp only [List.length_drop, List.length_nil] at this
        omega
      | cons r0 B => exact ⟨r0, B, rfl⟩
    have hsplit : rs = rs.take (i - c) ++ r0 :: B := by
      rw [← hdrop, List.take_append_drop]
    have hlenA : (rs.take (i - c)).length = i - c := List.length_take_of_le (by omega)
    have hlen : rs.length = (i - c) + (B.length + 1) := by
      have := congrArg List.length hsplit
      simp only [List.length_append, List.length_cons, hlenA] at this
      exact this
    have hA : ∀ r ∈ rs.take (i - c), IsRecord r := fun r hr => hrs r (List.mem_of_mem_take hr)
    have hmem : ∀ r, r ∈ r0 :: B → r ∈ rs := fun r hr => by
      rw [hsplit]
      exact List.mem_append_right _ hr
    have h0 : IsRecord r0 := hrs r0 (hmem r0 (List.mem_cons_self _ _))
    have hB : ∀ r ∈ B, IsRecord r := fun r hr => hrs r (hmem r (List.mem_cons_of_mem _ hr))
    have hp : IsRecord p := hes (i, p) (List.mem_cons_self _ _)
    obtain ⟨hgt, hinc2⟩ := List.pairwise_cons.mp hinc
    simp only at hgt
    obtain ⟨p1, hentry⟩ := mergeEntry_records (rs.take (i - c)) r0 p i c grfsize dd
      (encodeEntries es ++ dtl) gd (B.flatten ++ gtl) tmp pct hA h0 hp (by omega) (by omega) hg
    obtain ⟨out, left, gd1, c1, pct1, hloop, hmerged, hleft⟩ :=
      ih (i + 1) B grfsize (dd ++ encodeEntry (i, p)) dtl (gd ++ (rs.take (i - c)).flatten ++ r0)
        gtl (cfwrite ((rs.take (i - c)).flatten ++ p) tmp) p1 hB
        (fun x hx => hes x (List.mem_cons_of_mem _ hx)) hinc2
        (fun x hx => by
          have h1 := hgt x hx
          have h2 := (hrange x (List.mem_cons_of_mem _ hx)).2
          omega)
        (fun x hx => hmax x (List.mem_cons_of_mem _ hx)) hg
    refine ⟨rs.take (i - c) ++ p :: out, left, gd1, c1, pct1, ?_, ?_, hleft⟩
    · have e1 : encodeEntries ((i, p) :: es) ++ dtl = encodeEntry (i, p) ++ (encodeEntries es ++ dtl) := by
        simp [encodeEntries]
      have e2 : rs.flatten ++ gtl = (rs.take (i - c)).flatten ++ (r0 ++ (B.flatten ++ gtl)) := by
        conv_lhs => rw [hsplit]
        simp
      have e3 : dd ++ encodeEntries ((i, p) :: es) = dd ++ encodeEntry (i, p) ++ encodeEntries es := by
        simp [encodeEntries]
      simp only [List.length_cons, mergeLoop, e1, e2, hentry, hloop, cfwrite_cfwrite, e3]
      simp
    · conv_lhs => rw [hsplit]
      rw [mergedRecords_step _ c i r0 p B es (by omega) hgt, hmerged]
      simp

/-- The last loop copies the sprites that are left and the end marker. -/
theorem copyRest_records (rs : List (List Byte)) :
    ∀ (fuel grfsize : Nat) (grd : FILE) (gd gtl : List Byte) (tmp : Sink) (c : Nat) (pct : Int),
      (∀ r ∈ rs, IsRecord r) → rs.length < fuel → grfsize ≠ 0 →
      ∃ c1 pct1, copyRest fuel grfsize ⟨grd, ⟨gd, rs.flatten ++ 0 :: 0 :: gtl, false⟩, tmp, c, pct⟩ =
        .ok ⟨grd, ⟨gd ++ rs.flatten ++ [0, 0], gtl, false⟩, cfwrite (rs.flatten ++ [0, 0]) tmp,
          c1, pct1⟩ := by
  induction rs with
  | nil =>
    intro fuel grfsize grd gd gtl tmp c pct _ hf _
    obtain ⟨fuel, rfl⟩ : ∃ f, fuel = f + 1 := ⟨fuel - 1, by simp at hf; omega⟩
    refine ⟨c, pct, ?_⟩
    simp [copyRest, copysprite_sentinel]
  | cons r rs ih =>
    intro fuel grfsize grd gd gtl tmp c pct hr hf hg
    simp only [List.length_cons] at hf
    obtain ⟨fuel, rfl⟩ : ∃ f, fuel = f + 1 := ⟨fuel - 1, by omega⟩
    have hrec := record_frame r (hr r (List.mem_cons_self _ _)) gd (rs.flatten ++ 0 :: 0 :: gtl) tmp
    obtain ⟨p1, hp1⟩ := showpct_ok (ftell ⟨gd ++ r, rs.flatten ++ 0 :: 0 :: gtl, false⟩) grfsize pct hg
    obtain ⟨c2, p2, h2⟩ := ih fuel grfsize grd (gd ++ r) gtl (cfwrite r tmp) ((c + 1) % 65536) p1
      (fun x hx => hr x (List.mem_cons_of_mem _ hx)) (by omega) hg
    refine ⟨c2, p2, ?_⟩
    simp only [copyRest, List.flatten_cons, List.append_assoc, hrec, hp1, h2, cfwrite_cfwrite]
    simp

/-- The merge of a target of well-formed sprites, closed by the end marker,
with a GRD set of increasing sprite numbers that count the target's sprites
from 0. -/
theorem mergeStreams_records (es : List (Nat × List Byte)) (rs : List (List Byte))
    (trailing dd dtl : List Byte) (grfsize : Nat)
    (hrs : ∀ r ∈ rs, IsRecord r) (hes : ∀ x ∈ es, IsRecord x.2) (hinc : Increasing es)
    (hrange : ∀ x ∈ es, x.1 < rs.length) (hmax : ∀ x ∈ es, x.1 < 65535) (hg : grfsize ≠ 0) :
    ∃ st, mergeStreams es.length grfsize ⟨dd, encodeEntries es ++ dtl, false⟩
        (fopenRead (rs.flatten ++ 0 :: 0 :: trailing)) = .ok st ∧
      st.grd = ⟨dd ++ encodeEntries es, dtl, false⟩ ∧
      st.tmp = some ((mergedRecords 0 rs es).flatten ++ [0, 0] ++ [0, 0, 0, 0]) := by
  obtain ⟨out, left, gd1, c1, pct1, hloop, hmerged, hleft⟩ :=
    mergeLoop_records es 0 rs grfsize dd dtl [] (0 :: 0 :: trailing) (some []) (-1) hrs hes hinc
      (fun x hx => ⟨Nat.zero_le _, by have := hrange x hx; omega⟩) hmax hg
  obtain ⟨c2, pct2, hrest⟩ := copyRest_records left ((left.flatten ++ 0 :: 0 :: trailing).length + 1)
    grfsize ⟨dd ++ encodeEntries es, dtl, false⟩ gd1 trailing (cfwrite out.flatten (some []))
    c1 pct1 hleft
    (by have := records_length left hleft
        simp only [List.length_append]
        omega) hg
  obtain ⟨p3, hp3⟩ := showpct_ok grfsize grfsize pct2 hg
  refine ⟨⟨⟨dd ++ encodeEntries es, dtl, false⟩, ⟨gd1 ++ left.flatten ++ [0, 0], trailing, false⟩,
    cfwrite [0, 0, 0, 0] (cfwrite (left.flatten ++ [0, 0]) (cfwrite out.flatten (some []))),
    c2, p3⟩, by simp only [mergeStreams, fopenRead, hloop, hrest, hp3], rfl, ?_⟩
  simp [hmerged, cfwrite]

/-! ## The installation and `mergeset` as a whole -/

/-- In an environment where no library call fails, the installation puts the
content of the temporary file at the path of the GRF file. -/
theorem install_ok (w : World) (path temp : List Char) (target out : List Byte)
    (hren : ∀ a b, w.renameFails a b = false) (hrem : ∀ a, w.removeFails a = false)
    (h1 : temp ≠ path) (h2 : temp ≠ backupName path)
    (ht : w.files path = some target) (ho : w.files temp = some out) :
    ∃ w2, install w path temp = (.ok (), w2) ∧ w2.files path = some out := by
  cases hb : w.files (backupName path) with
  | none =>
    cases hopen : w.openFails (backupName path) with
    | false =>
      simp only [install, hb, hopen, rename, ht, hren, Bool.false_eq_true, if_false,
        installFinish, h1, h2, ho]
      exact ⟨_, rfl, by simp⟩
    | true =>
      simp only [install, hb, hopen, installFinish, if_true, remove, ht, hrem,
        Bool.false_eq_true, if_false, rename, h1, ho, hren]
      exact ⟨_, rfl, by simp⟩
  | some b =>
    simp only [install, hb, installFinish, if_true, remove, ht, hrem, Bool.false_eq_true,
      if_false, rename, h1, ho, hren]
    exact ⟨_, rfl, by simp⟩

/-- Outside the list mode, with a path whose name agrees with the name in the
GRD set, `mergeset` is `mergeInto` behind the header. -/
theorem mergeset_eq_mergeInto (w : World) (grd grd1 : FILE) (path name : List Char) (n : Nat)
    (hshow : w.onlyshow = false) (hname : nameMismatch path name = false)
    (hhdr : readHeader grd = .ok (n, name, grd1)) :
    mergeset w grd (some path) = mergeInto w n grd1 path := by
  simp [mergeset, hhdr, mergesetBody, hshow, hname]

/-- The merge of a well-formed target in a cooperative environment. -/
theorem mergeInto_records (w : World) (path : List Char) (es : List (Nat × List Byte))
    (rs : List (List Byte)) (trailing dd dtl : List Byte) (hcoop : Cooperative w path)
    (htarget : w.files path = some (rs.flatten ++ 0 :: 0 :: trailing))
    (hrs : ∀ r ∈ rs, IsRecord r) (hes : ∀ x ∈ es, IsRecord x.2) (hinc : Increasing es)
    (hrange : ∀ x ∈ es, x.1 < rs.length) (hmax : ∀ x ∈ es, x.1 < 65535) :
    ∃ w2, mergeInto w es.length ⟨dd, encodeEntries es ++ dtl, false⟩ path =
        .ok (w2, ⟨dd ++ encodeEntries es, dtl, false⟩) ∧
      w2.files path = some ((mergedRecords 0 rs es).flatten ++ [0, 0] ++ [0, 0, 0, 0]) := by
  obtain ⟨hc, hren, hrem, h1, h2⟩ := hcoop
  obtain ⟨st, hst, hgrd, htmp⟩ := mergeStreams_records es rs trailing dd dtl
    (rs.flatten ++ 0 :: 0 :: trailing).length hrs hes hinc hrange hmax (by simp)
  obtain ⟨w2, hw2, hfile⟩ := install_ok
    { w with files := fun p => if p = tempfileName path then some (st.tmp.getD []) else w.files p }
    path (tempfileName path) (rs.flatten ++ 0 :: 0 :: trailing)
    ((mergedRecords 0 rs es).flatten ++ [0, 0] ++ [0, 0, 0, 0]) hren hrem h1 h2
    (by simp only [if_neg (Ne.symm h1), htarget]) (by simp [htmp])
  refine ⟨w2, ?_, hfile⟩
  simp only [mergeInto, htarget, hc, Bool.false_eq_true, if_false, hst, hw2, hgrd]

theorem yesno_oracles (w : World) : SameOracles w (yesno w).2 := by
  unfold yesno
  split <;> exact ⟨rfl, rfl, rfl, rfl⟩

theorem sameOracles_cooperative {a b : World} (h : SameOracles a b) (path : List Char)
    (hc : Cooperative a path) : Cooperative b path := by
  obtain ⟨-, h2, h3, h4⟩ := h
  obtain ⟨c1, c2, c3, c4, c5⟩ := hc
  exact ⟨by rw [h2]; exact c1, fun x y => by rw [h3]; exact c2 x y,
    fun x => by rw [h4]; exact c3 x, c4, c5⟩

theorem yesno_files (w : World) : (yesno w).2.files = w.files := by
  unfold yesno
  split <;> rfl

theorem yesno_calls (w : World) : (yesno w).2.calls = w.calls := by
  unfold yesno
  split <;> rfl

/-- Outside the list mode, unless the confirmation of a differing name is
declined, `mergeset` is `mergeInto` behind the header, for the path that the
caller gave or else the name in the GRD set with the extension `grf`, in a
world that differs from the given one at most by the answer read from
standard input. -/
theorem mergeset_accepted (w : World) (grd grd1 : FILE) (grffile : Option (List Char))
    (name : List Char) (n : Nat) (hshow : w.onlyshow = false)
    (haccept : ¬ declined w grffile name) (hhdr : readHeader grd = .ok (n, name, grd1)) :
    ∃ w0, mergeset w grd grffile = mergeInto w0 n grd1 (targetPath grffile name) ∧
      w0.files = w.files ∧ SameOracles w w0 ∧ w0.calls = w.calls := by
  cases grffile with
  | none =>
    exact ⟨w, by simp [mergeset, hhdr, mergesetBody, hshow, targetPath], rfl,
      ⟨rfl, rfl, rfl, rfl⟩, rfl⟩
  | some path =>
    cases hname : nameMismatch path name with
    | false =>
      exact ⟨w, by simp [mergeset, hhdr, mergesetBody, hshow, hname, targetPath], rfl,
        ⟨rfl, rfl, rfl, rfl⟩, rfl⟩
    | true =>
      have hyes : (yesno w).1 = true := by
        cases hy : (yesno w).1 with
        | true => rfl
        | false => exact absurd ⟨hname, hy⟩ haccept
      exact ⟨(yesno w).2, by simp [mergeset, hhdr, mergesetBody, hshow, hname, hyes, targetPath],
        yesno_files w, yesno_oracles w, yesno_calls w⟩

/-! ## The merge replaces the named records -/

/-- C1 (as stated, refuted): with the target's records counted from 1, the
entry with sprite number 1 would replace the first of two records; `mergeset`
replaces the second one. -/
theorem mergeset_counts_from_one_counterexample :
    observe (mergeset (oneFile demoPath (demoRecord 1 ++ demoRecord 2 ++ [0, 0]))
        (fopenRead (demoHeader 1 ++ encodeEntries [(1, demoRecord 9)])) (some demoPath)) [demoPath]
      ≠ .ok ([some ((mergedRecords 1 [demoRecord 1, demoRecord 2] [(1, demoRecord 9)]).flatten
            ++ [0, 0] ++ [0, 0, 0, 0])],
          ⟨demoHeader 1 ++ encodeEntries [(1, demoRecord 9)], [], false⟩) ∧
    observe (mergeset (oneFile demoPath (demoRecord 1 ++ demoRecord 2 ++ [0, 0]))
        (fopenRead (demoHeader 1 ++ encodeEntries [(1, demoRecord 9)])) (some demoPath)) [demoPath]
      = .ok ([some (demoRecord 1 ++ demoRecord 9 ++ [0, 0] ++ [0, 0, 0, 0])],
          ⟨demoHeader 1 ++ encodeEntries [(1, demoRecord 9)], [], false⟩) := by
  decide

/-- C1 (amended): the sprite numbers of a GRD set count the target's records
from 0.  For a target made of well-formed records followed by the end marker
(and whatever follows it), and a GRD set whose entries have strictly
increasing sprite numbers below the number of records (and below 65535) and
well-formed sprites, `mergeset` in merge mode, in an environment where no
library call fails, leaves the GRD stream behind the last entry and installs
at the path of the GRF file the records of the target, the record with number
`i` replaced by the sprite of the entry with sprite number `i` and every other
record unchanged, followed by the end marker and four zero bytes.  The merge
mode is every call outside the list mode in which the confirmation of a
differing name is not declined: the path of the GRF file is the path given by
the caller, whether its name agrees with the name in the set or the
confirmation is given, or else the name in the set with the extension
`grf`. -/
theorem mergeset_replaces_records (w : World) (grd : FILE) (grffile : Option (List Char))
    (name : List Char) (recs : List (List Byte)) (es : List (Nat × List Byte))
    (trailing dd dtl : List Byte)
    (hshow : w.onlyshow = false) (haccept : ¬ declined w grffile name)
    (hcoop : Cooperative w (targetPath grffile name))
    (hhdr : readHeader grd = .ok (es.length, name, ⟨dd, encodeEntries es ++ dtl, false⟩))
    (htarget : w.files (targetPath grffile name) = some (recs.flatten ++ 0 :: 0 :: trailing))
    (hrecs : ∀ r ∈ recs, IsRecord r) (hes : ∀ x ∈ es, IsRecord x.2) (hinc : Increasing es)
    (hrange : ∀ x ∈ es, x.1 < recs.length) (hmax : ∀ x ∈ es, x.1 < 65535) :
    ∃ w2, mergeset w grd grffile = .ok (w2, ⟨dd ++ encodeEntries es, dtl, false⟩) ∧
      w2.files (targetPath grffile name)
        = some ((mergedRecords 0 recs es).flatten ++ [0, 0] ++ [0, 0, 0, 0]) := by
  obtain ⟨w0, h0, hfiles, hor, -⟩ := mergeset_accepted w grd _ grffile name es.length hshow
    haccept hhdr
  rw [h0]
  exact mergeInto_records w0 (targetPath grffile name) es recs trailing dd dtl
    (sameOracles_cooperative hor _ hcoop) (by rw [hfiles]; exact htarget) hrecs hes hinc hrange
    hmax

theorem mergeset_replaces_records_witness :
    ∃ w2, mergeset (oneFile demoPath (demoTarget.flatten ++ 0 :: 0 :: []))
        (fopenRead (demoHeader 2 ++ (encodeEntries demoPatch ++ []))) none =
        .ok (w2, ⟨demoHeader 2 ++ encodeEntries demoPatch, [], false⟩) ∧
      w2.files (targetPath none ['a']) = some ((mergedRecords 0 demoTarget demoPatch).flatten
        ++ [0, 0] ++ [0, 0, 0, 0]) :=
  mergeset_replaces_records (oneFile demoPath (demoTarget.flatten ++ 0 :: 0 :: []))
    (fopenRead (demoHeader 2 ++ (encodeEntries demoPatch ++ []))) none ['a'] demoTarget
    demoPatch [] (demoHeader 2) [] rfl (fun h => h)
    ⟨rfl, fun _ _ => rfl, fun _ => rfl, by decide, by decide⟩ (by decide) (by decide)
    (by decide) (by decide) (by decide) (by decide) (by decide)

/-- The three ways into the merge on closed instances: the path given with a
name that agrees with the name `a` of the set; no path given, where `a.grf` is
merged; and the path `b.grf` given, whose name differs, with the answer `y`
waiting on standard input.  With the answer `n` the set is skipped and
`b.grf` left as it was. -/
theorem mergeset_modes_demo :
    observe (mergeset (oneFile demoPath (demoTarget.flatten ++ [0, 0]))
        (fopenRead (demoHeader 2 ++ encodeEntries demoPatch)) (some demoPath)) [demoPath]
      = .ok ([some ((mergedRecords 0 demoTarget demoPatch).flatten ++ [0, 0] ++ [0, 0, 0, 0])],
          ⟨demoHeader 2 ++ encodeEntries demoPatch, [], false⟩) ∧
    observe (mergeset (oneFile demoPath (demoTarget.flatten ++ [0, 0]))
        (fopenRead (demoHeader 2 ++ encodeEntries demoPatch)) none) [demoPath]
      = .ok ([some ((mergedRecords 0 demoTarget demoPatch).flatten ++ [0, 0] ++ [0, 0, 0, 0])],
          ⟨demoHeader 2 ++ encodeEntries demoPatch, [], false⟩) ∧
    observe (mergeset (filesWorld [("b.grf".toList, demoTarget.flatten ++ [0, 0])] false
          ['y', '\n'])
        (fopenRead (demoHeader 2 ++ encodeEntries demoPatch)) (some "b.grf".toList))
        ["b.grf".toList]
      = .ok ([some ((mergedRecords 0 demoTarget demoPatch).flatten ++ [0, 0] ++ [0, 0, 0, 0])],
          ⟨demoHeader 2 ++ encodeEntries demoPatch, [], false⟩) ∧
    observe (mergeset (filesWorld [("b.grf".toList, demoTarget.flatten ++ [0, 0])] false
          ['n', '\n'])
        (fopenRead (demoHeader 2 ++ encodeEntries demoPatch)) (some "b.grf".toList))
        ["b.grf".toList]
      = .ok ([some (demoTarget.flatten ++ [0, 0])],
          ⟨demoHeader 2 ++ encodeEntries demoPatch, [], false⟩) := by
  exact ⟨by decide, by decide, by decide, by decide⟩

theorem mergedRecords_demo :
    mergedRecords 0 demoTarget demoPatch =
      [demoRecord 1, demoRecord 2, demoRecord 3, demoRecord 33, demoRecord 5, demoRecord 6,
       demoRecord 7, demoRecord 77, demoRecord 9, demoRecord 10] := by
  decide

/-! ## The merge of an empty GRD set -/

/-- C2 (as stated, refuted): a target that is the end marker followed by a
checksum of four bytes is read up to its end marker; the output of the merge
of an empty set is not the target followed by four zero bytes, it is the end
marker followed by four zero bytes. -/
theorem mergeset_empty_set_counterexample :
    observe (mergeset (oneFile demoPath [0, 0, 1, 2, 3, 4]) (fopenRead (demoHeader 0))
        (some demoPath)) [demoPath]
      ≠ .ok ([some ([0, 0, 1, 2, 3, 4] ++ [0, 0, 0, 0])], ⟨demoHeader 0, [], false⟩) ∧
    observe (mergeset (oneFile demoPath [0, 0, 1, 2, 3, 4]) (fopenRead (demoHeader 0))
        (some demoPath)) [demoPath]
      = .ok ([some ([0, 0] ++ [0, 0, 0, 0])], ⟨demoHeader 0, [], false⟩) := by
  decide

/-- C2 (amended): for a target made of well-formed records followed by the
end marker and by whatever else, `mergeset` in merge mode with an empty GRD
set, in an environment where no library call fails, installs the target up to
and including its end marker followed by four zero bytes; what follows the end
marker in the target is dropped.  For a target that ends with its end marker
this is the target followed by four zero bytes.  The merge mode is every call
outside the list mode in which the confirmation of a differing name is not
declined, with the path given by the caller or, without one, the name in the
set with the extension `grf`. -/
theorem mergeset_empty_set (w : World) (grd grd1 : FILE) (grffile : Option (List Char))
    (name : List Char) (recs : List (List Byte)) (trailing : List Byte)
    (hshow : w.onlyshow = false) (haccept : ¬ declined w grffile name)
    (hcoop : Cooperative w (targetPath grffile name))
    (hhdr : readHeader grd = .ok (0, name, grd1)) (hclear : grd1.eof = false)
    (htarget : w.files (targetPath grffile name) = some (recs.flatten ++ 0 :: 0 :: trailing))
    (hrecs : ∀ r ∈ recs, IsRecord r) :
    ∃ w2, mergeset w grd grffile = .ok (w2, grd1) ∧
      w2.files (targetPath grffile name) = some (recs.flatten ++ [0, 0] ++ [0, 0, 0, 0]) := by
  obtain ⟨d1, r1, e1⟩ := grd1
  simp only at hclear
  subst hclear
  obtain ⟨w0, h0, hfiles, hor, -⟩ := mergeset_accepted w grd _ grffile name 0 hshow haccept hhdr
  rw [h0]
  obtain ⟨w2, h1, h2⟩ := mergeInto_records w0 (targetPath grffile name) [] recs trailing d1 r1
    (sameOracles_cooperative hor _ hcoop) (by rw [hfiles]; exact htarget) hrecs
    (by simp) List.Pairwise.nil (by simp) (by simp)
  refine ⟨w2, by simpa [encodeEntries] using h1, ?_⟩
  simpa [mergedRecords_untouched] using h2

theorem mergeset_empty_set_witness :
    ∃ w2, mergeset (filesWorld [("b.grf".toList, demoTarget.flatten ++ 0 :: 0 :: [5, 6, 7, 8])]
          false ['Y', '\n'])
        (fopenRead (demoHeader 0)) (some "b.grf".toList) = .ok (w2, ⟨demoHeader 0, [], false⟩) ∧
      w2.files (targetPath (some "b.grf".toList) ['a'])
        = some (demoTarget.flatten ++ [0, 0] ++ [0, 0, 0, 0]) :=
  mergeset_empty_set (filesWorld [("b.grf".toList, demoTarget.flatten ++ 0 :: 0 :: [5, 6, 7, 8])]
      false ['Y', '\n'])
    (fopenRead (demoHeader 0)) ⟨demoHeader 0, [], false⟩ (some "b.grf".toList) ['a'] demoTarget
    [5, 6, 7, 8] rfl (by decide) ⟨rfl, fun _ _ => rfl, fun _ => rfl, by decide, by decide⟩
    (by decide) rfl (by decide) (by decide)

/-- The merge of an empty set on closed instances of the three ways into the
merge: the checksum `5 6 7 8` of the target is replaced by four zero bytes. -/
theorem mergeset_empty_set_demo :
    observe (mergeset (oneFile demoPath (demoTarget.flatten ++ 0 :: 0 :: [5, 6, 7, 8]))
        (fopenRead (demoHeader 0)) (some demoPath)) [demoPath]
      = .ok ([some (demoTarget.flatten ++ [0, 0] ++ [0, 0, 0, 0])], ⟨demoHeader 0, [], false⟩) ∧
    observe (mergeset (oneFile demoPath (demoTarget.flatten ++ 0 :: 0 :: [5, 6, 7, 8]))
        (fopenRead (demoHeader 0)) none) [demoPath]
      = .ok ([some (demoTarget.flatten ++ [0, 0] ++ [0, 0, 0, 0])], ⟨demoHeader 0, [], false⟩) ∧
    observe (mergeset (filesWorld [("b.grf".toList, demoTarget.flatten ++ 0 :: 0 :: [5, 6, 7, 8])]
          false ['Y', '\n'])
        (fopenRead (demoHeader 0)) (some "b.grf".toList)) ["b.grf".toList]
      = .ok ([some (demoTarget.flatten ++ [0, 0] ++ [0, 0, 0, 0])],
          ⟨demoHeader 0, [], false⟩) := by
  exact ⟨by decide, by decide, by decide⟩

/-! ## A sprite number past the end of the target -/

/-- C7 (the code at the failing input): a target of two sprites, the end
marker and four checksum bytes, and a GRD set whose only entry has the sprite
number 3.  `mergeset` does not die: it installs a file in which the sprite of
the entry stands behind the end marker, and keeps the target as the backup. -/
theorem mergeset_index_past_end_installs :
    observe (mergeset
        (oneFile demoPath (demoRecord 1 ++ demoRecord 2 ++ [0, 0] ++ [0, 0, 0, 0]))
        (fopenRead (demoHeader 1 ++ encodeEntries [(3, demoRecord 9)])) (some demoPath))
        [demoPath, backupName demoPath, tempfileName demoPath]
      = .ok ([some (demoRecord 1 ++ demoRecord 2 ++ [0, 0] ++ demoRecord 9 ++ [0, 0]
                ++ [0, 0, 0, 0]),
              some (demoRecord 1 ++ demoRecord 2 ++ [0, 0] ++ [0, 0, 0, 0]), none],
          ⟨demoHeader 1 ++ encodeEntries [(3, demoRecord 9)], [], false⟩) := by
  decide

/-! ## The comparison of the names -/

/-- What `strnicmp` decides: the first `n` characters of the two strings
agree when letter case is ignored. -/
theorem strnicmp_eq_false_iff (a : List Char) : ∀ (b : List Char) (n : Nat),
    strnicmp a b n = false ↔ (a.take n).map Char.toLower = (b.take n).map Char.toLower := by
  induction a with
  | nil =>
    intro b n
    cases n with
    | zero => simp [strnicmp]
    | succ n => cases b <;> simp [strnicmp]
  | cons x a ih =>
    intro b n
    cases n with
    | zero => simp [strnicmp]
    | succ n =>
      cases b with
      | nil => simp [strnicmp]
      | cons y b =>
        by_cases hxy : x.toLower = y.toLower
        · simp [strnicmp, hxy, ih b n]
        · simp [strnicmp, hxy]

/-- The test of `mergeset`: no confirmation is asked for exactly when the base
name without its extension agrees, letter case ignored, with the first
characters of the name in the GRD set, as many as the base name has. -/
theorem nameMismatch_eq_false_iff (grffile grfname : List Char) :
    nameMismatch grffile grfname = false ↔
      (stem grffile).map Char.toLower
        = (grfname.take (stemLength (baseName grffile))).map Char.toLower := by
  unfold nameMismatch stem
  exact strnicmp_eq_false_iff _ _ _

/-- C10 (the code at the failing input): for the path `Foo.GRF` and the name
`foobar` in the GRD set the names differ, but `strnicmp` compares the first
three characters only and `mergeset` does not ask: with nothing to read on
standard input, which answers no, the empty set is merged and installed.  It
asks for the name `bar`, where the target stays as it is, and does not ask for
the name `foo`. -/
theorem nameMismatch_on_longer_name :
    differNoCase (stem fooPath) ['f', 'o', 'o', 'b', 'a', 'r'] ∧
    nameMismatch fooPath ['f', 'o', 'o', 'b', 'a', 'r'] = false ∧
    nameMismatch fooPath ['b', 'a', 'r'] = true ∧
    nameMismatch fooPath ['f', 'o', 'o'] = false ∧
    observe (mergeset (oneFile fooPath [0, 0])
        (fopenRead [0, 0, 0, 0, 7, 102, 111, 111, 98, 97, 114, 0]) (some fooPath)) [fooPath]
      = .ok ([some [0, 0, 0, 0, 0, 0]],
          ⟨[0, 0, 0, 0, 7, 102, 111, 111, 98, 97, 114, 0], [], false⟩) ∧
    observe (mergeset (oneFile fooPath [0, 0])
        (fopenRead [0, 0, 0, 0, 4, 98, 97, 114, 0]) (some fooPath)) [fooPath]
      = .ok ([some [0, 0]], ⟨[0, 0, 0, 0, 4, 98, 97, 114, 0], [], false⟩) := by
  exact ⟨by decide, by decide, by decide, by decide, by decide, by decide⟩

/-! ## The position of the GRD stream behind a set -/

theorem catchUp_grd (fuel : Nat) : ∀ (grfsize spriteno : Nat) (st st1 : MergeState),
    catchUp fuel grfsize spriteno st = .ok st1 → st1.grd = st.grd := by
  induction fuel with
  | zero =>
    intro grfsize spriteno st st1 h
    unfold catchUp at h
    split at h
    · cases h
    · cases h
      rfl
  | succ fuel ih =>
    intro grfsize spriteno st st1 h
    unfold catchUp at h
    split at h
    · split at h
      · cases h
      · split at h
        · cases h
        · exact (ih _ _ _ _ h).trans rfl
    · cases h
      rfl

theorem copyRest_grd (fuel : Nat) : ∀ (grfsize : Nat) (st st1 : MergeState),
    copyRest fuel grfsize st = .ok st1 → st1.grd = st.grd := by
  induction fuel with
  | zero =>
    intro grfsize st st1 h
    cases h
  | succ fuel ih =>
    intro grfsize st st1 h
    unfold copyRest at h
    split at h
    · cases h
    · split at h
      · split at h
        · cases h
        · exact (ih _ _ _ h).trans rfl
      · cases h
        rfl

theorem mergeEntry_grd (grfsize i : Nat) (p dd dtl : List Byte) (st st1 : MergeState)
    (hp : IsRecord p) (hgrd : st.grd = ⟨dd, encodeEntry (i, p) ++ dtl, false⟩)
    (h : mergeEntry grfsize st = .ok st1) :
    st1.grd = ⟨dd ++ encodeEntry (i, p), dtl, false⟩ := by
  have e1 : encodeEntry (i, p) ++ dtl = bytes16 i ++ (p ++ dtl) := by
    simp [encodeEntry]
  have e2 : dd ++ encodeEntry (i, p) = dd ++ bytes16 i ++ p := by
    simp [encodeEntry]
  unfold mergeEntry at h
  rw [hgrd, e1, cfread_bytes16] at h
  simp only at h
  split at h
  · cases h
  · rename_i st2 hcatch
    have hg2 := catchUp_grd _ _ _ _ _ hcatch
    simp only at hg2
    split at h
    · cases h
    · rw [hg2, record_frame p hp] at h
      simp only at h
      split at h
      · cases h
      · cases h
        rw [e2]

theorem mergeLoop_grd (es : List (Nat × List Byte)) : ∀ (grfsize : Nat) (dd dtl : List Byte)
    (st st1 : MergeState), (∀ x ∈ es, IsRecord x.2) →
    st.grd = ⟨dd, encodeEntries es ++ dtl, false⟩ →
    mergeLoop es.length grfsize st = .ok st1 →
    st1.grd = ⟨dd ++ encodeEntries es, dtl, false⟩ := by
  induction es with
  | nil =>
    intro grfsize dd dtl st st1 _ hgrd h
    simp only [List.length_nil, mergeLoop, Except.ok.injEq] at h
    subst h
    simpa [encodeEntries] using hgrd
  | cons x es ih =>
    intro grfsize dd dtl st st1 hes hgrd h
    obtain ⟨i, p⟩ := x
    simp only [List.length_cons, mergeLoop] at h
    split at h
    · cases h
    · rename_i st2 hentry
      have e1 : encodeEntries ((i, p) :: es) ++ dtl
          = encodeEntry (i, p) ++ (encodeEntries es ++ dtl) := by
        simp [encodeEntries]
      have e3 : dd ++ encodeEntries ((i, p) :: es)
          = dd ++ encodeEntry (i, p) ++ encodeEntries es := by
        simp [encodeEntries]
      rw [e1] at hgrd
      have hg2 := mergeEntry_grd grfsize i p dd _ st st2 (hes (i, p) (List.mem_cons_self _ _))
        hgrd hentry
      rw [e3]
      exact ih grfsize _ dtl st2 st1 (fun x hx => hes x (List.mem_cons_of_mem _ hx)) hg2 h

theorem mergeStreams_grd (es : List (Nat × List Byte)) (grfsize : Nat) (dd dtl : List Byte)
    (grf : FILE) (st : MergeState) (hes : ∀ x ∈ es, IsRecord x.2)
    (h : mergeStreams es.length grfsize ⟨dd, encodeEntries es ++ dtl, false⟩ grf = .ok st) :
    st.grd = ⟨dd ++ encodeEntries es, dtl, false⟩ := by
  unfold mergeStreams at h
  split at h
  · cases h
  · rename_i st1 hloop
    have h1 := mergeLoop_grd es grfsize dd dtl _ st1 hes rfl hloop
    split at h
    · cases h
    · rename_i st2 hrest
      have h2 := copyRest_grd _ _ _ _ hrest
      split at h
      · cases h
      · cases h
        simp only [h2, h1]

theorem skipLoop_entries (es : List (Nat × List Byte)) : ∀ (onlyshow : Bool) (dd dtl : List Byte)
    (st : SkipState), (∀ x ∈ es, IsRecord x.2) →
    st.grd = ⟨dd, encodeEntries es ++ dtl, false⟩ →
    ∃ st1, skipLoop es.length onlyshow st = .ok st1 ∧
      st1.grd = ⟨dd ++ encodeEntries es, dtl, false⟩ := by
  induction es with
  | nil =>
    intro onlyshow dd dtl st _ hgrd
    exact ⟨st, rfl, by simpa [encodeEntries] using hgrd⟩
  | cons x es ih =>
    intro onlyshow dd dtl st hes hgrd
    obtain ⟨i, p⟩ := x
    have e1 : encodeEntries ((i, p) :: es) ++ dtl
        = bytes16 i ++ (p ++ (encodeEntries es ++ dtl)) := by
      simp [encodeEntries, encodeEntry]
    have e3 : dd ++ encodeEntries ((i, p) :: es) = dd ++ bytes16 i ++ p ++ encodeEntries es := by
      simp [encodeEntries, encodeEntry]
    rw [e1] at hgrd
    simp only [List.length_cons, skipLoop, hgrd, cfread_bytes16, skipsprite,
      record_frame p (hes (i, p) (List.mem_cons_self _ _)), e3]
    exact ih onlyshow _ dtl _ (fun x hx => hes x (List.mem_cons_of_mem _ hx)) rfl

theorem drainLoop_entries (es : List (Nat × List Byte)) : ∀ (dd dtl : List Byte),
    (∀ x ∈ es, IsRecord x.2) →
    drainLoop es.length ⟨dd, encodeEntries es ++ dtl, false⟩ =
      .ok ⟨dd ++ encodeEntries es, dtl, false⟩ := by
  induction es with
  | nil =>
    intro dd dtl _
    simp [drainLoop, encodeEntries]
  | cons x es ih =>
    intro dd dtl hes
    obtain ⟨i, p⟩ := x
    have e1 : encodeEntries ((i, p) :: es) ++ dtl
        = bytes16 i ++ (p ++ (encodeEntries es ++ dtl)) := by
      simp [encodeEntries, encodeEntry]
    have e3 : dd ++ encodeEntries ((i, p) :: es) = dd ++ bytes16 i ++ p ++ encodeEntries es := by
      simp [encodeEntries, encodeEntry]
    simp only [List.length_cons, drainLoop, e1, cfread_bytes16, skipsprite,
      record_frame p (hes (i, p) (List.mem_cons_self _ _)), e3]
    exact ih _ dtl (fun x hx => hes x (List.mem_cons_of_mem _ hx))

theorem mergeInto_grd (w w2 : World) (path : List Char) (es : List (Nat × List Byte))
    (dd dtl : List Byte) (g : FILE) (hes : ∀ x ∈ es, IsRecord x.2)
    (h : mergeInto w es.length ⟨dd, encodeEntries es ++ dtl, false⟩ path = .ok (w2, g)) :
    g = ⟨dd ++ encodeEntries es, dtl, false⟩ := by
  unfold mergeInto at h
  split at h
  · obtain ⟨st1, h1, h2⟩ := skipLoop_entries es false dd dtl
      ⟨⟨dd, encodeEntries es ++ dtl, false⟩, -2, -2, w.listing⟩ hes rfl
    rw [h1] at h
    cases h
    exact h2
  · simp only at h
    split at h
    · cases h
    · split at h
      · cases h
      · rename_i st hst
        have h1 := mergeStreams_grd es _ dd dtl _ st hes hst
        split at h
        · cases h
        · cases h
          exact h1

theorem mergeInto_skip (w : World) (path : List Char) (es : List (Nat × List Byte))
    (dd dtl : List Byte) (hes : ∀ x ∈ es, IsRecord x.2) (hfile : w.files path = none) :
    mergeInto w es.length ⟨dd, encodeEntries es ++ dtl, false⟩ path =
      .ok (w, ⟨dd ++ encodeEntries es, dtl, false⟩) := by
  obtain ⟨st1, h1, h2⟩ := skipLoop_entries es false dd dtl
    ⟨⟨dd, encodeEntries es ++ dtl, false⟩, -2, -2, w.listing⟩ hes rfl
  simp only [mergeInto, hfile, h1, h2]

/-- C9: for a GRD set whose header is followed by entries with well-formed
sprites, every return of `mergeset` leaves the GRD stream just behind the last
entry, which covers the successful merge; and `mergeset` does return, with the
stream at that position, in the list mode, when the confirmation of a path
with another name is declined, and when the GRF file cannot be opened. -/
theorem mergeset_patch_position (w : World) (grd : FILE) (grffile : Option (List Char))
    (name : List Char) (es : List (Nat × List Byte)) (dd dtl : List Byte)
    (hhdr : readHeader grd = .ok (es.length, name, ⟨dd, encodeEntries es ++ dtl, false⟩))
    (hes : ∀ x ∈ es, IsRecord x.2) :
    (∀ w2 g, mergeset w grd grffile = .ok (w2, g) → g = ⟨dd ++ encodeEntries es, dtl, false⟩) ∧
    (w.onlyshow = true ∨ declined w grffile name ∨ w.files (targetPath grffile name) = none →
      ∃ w2, mergeset w grd grffile = .ok (w2, ⟨dd ++ encodeEntries es, dtl, false⟩)) := by
  simp only [mergeset, hhdr, mergesetBody]
  cases hshow : w.onlyshow with
  | true =>
    obtain ⟨st1, h1, h2⟩ := skipLoop_entries es true dd dtl
      ⟨⟨dd, encodeEntries es ++ dtl, false⟩, -2, -2,
        w.listing ++ "Generated from: ".toList ++ name ++ ".grf\nSprites in file: ".toList⟩ hes rfl
    simp only [if_true, h1, h2]
    exact ⟨fun w2 g h => by cases h; rfl, fun _ => ⟨_, rfl⟩⟩
  | false =>
    simp only [Bool.false_eq_true, if_false, false_or]
    cases grffile with
    | none =>
      simp only [declined, targetPath, Option.getD_none, false_or]
      exact ⟨fun w2 g h => mergeInto_grd _ _ _ es dd dtl g hes h,
        fun hf => ⟨w, mergeInto_skip w _ es dd dtl hes hf⟩⟩
    | some path =>
      simp only [declined, targetPath, Option.getD_some]
      cases hm : nameMismatch path name with
      | false =>
        simp only [Bool.false_eq_true, if_false, false_and, false_or]
        exact ⟨fun w2 g h => mergeInto_grd _ _ _ es dd dtl g hes h,
          fun hf => ⟨w, mergeInto_skip w _ es dd dtl hes hf⟩⟩
      | true =>
        simp only [if_true, true_and]
        cases hy : (yesno w).1 with
        | false =>
          simp only [Bool.false_eq_true, if_false, drainLoop_entries es dd dtl hes, true_or,
            forall_const]
          exact ⟨fun w2 g h => by cases h; rfl, ⟨_, rfl⟩⟩
        | true =>
          simp only [if_true, Bool.true_eq_false, false_or]
          exact ⟨fun w2 g h => mergeInto_grd _ _ _ es dd dtl g hes h,
            fun hf => ⟨_, mergeInto_skip _ _ es dd dtl hes (by rw [yesno_files]; exact hf)⟩⟩

theorem mergeset_patch_position_witness :
    (∀ w2 g, mergeset (oneFile demoPath (demoTarget.flatten ++ [0, 0]))
        (fopenRead (demoHeader 2 ++ (encodeEntries demoPatch ++ [1, 2, 3]))) (some demoPath) =
        .ok (w2, g) → g = ⟨demoHeader 2 ++ encodeEntries demoPatch, [1, 2, 3], false⟩) ∧
    ((oneFile demoPath (demoTarget.flatten ++ [0, 0])).onlyshow = true ∨
      declined (oneFile demoPath (demoTarget.flatten ++ [0, 0])) (some demoPath) ['a'] ∨
      (oneFile demoPath (demoTarget.flatten ++ [0, 0])).files (targetPath (some demoPath) ['a'])
        = none →
      ∃ w2, mergeset (oneFile demoPath (demoTarget.flatten ++ [0, 0]))
        (fopenRead (demoHeader 2 ++ (encodeEntries demoPatch ++ [1, 2, 3]))) (some demoPath) =
        .ok (w2, ⟨demoHeader 2 ++ encodeEntries demoPatch, [1, 2, 3], false⟩)) :=
  mergeset_patch_position (oneFile demoPath (demoTarget.flatten ++ [0, 0]))
    (fopenRead (demoHeader 2 ++ (encodeEntries demoPatch ++ [1, 2, 3]))) (some demoPath) ['a']
    demoPatch (demoHeader 2) [1, 2, 3] (by decide) (by decide)

/-- The four cases of C9 on one GRD set: a successful merge, the list mode, a
declined confirmation (the path `b.grf` for the name `a`, nothing on standard
input) and a GRF file that does not exist (no path given, and no file `a.grf`)
leave the GRD stream at the same position, behind the second entry. -/
theorem mergeset_patch_position_cases :
    observe (mergeset (oneFile demoPath (demoTarget.flatten ++ [0, 0]))
        (fopenRead (demoHeader 2 ++ (encodeEntries demoPatch ++ [1, 2, 3]))) (some demoPath)) []
      = .ok ([], ⟨demoHeader 2 ++ encodeEntries demoPatch, [1, 2, 3], false⟩) ∧
    observe (mergeset (oneFileListed demoPath (demoTarget.flatten ++ [0, 0]))
        (fopenRead (demoHeader 2 ++ (encodeEntries demoPatch ++ [1, 2, 3]))) (some demoPath)) []
      = .ok ([], ⟨demoHeader 2 ++ encodeEntries demoPatch, [1, 2, 3], false⟩) ∧
    observe (mergeset (oneFile ['b', '.', 'g', 'r', 'f'] (demoTarget.flatten ++ [0, 0]))
        (fopenRead (demoHeader 2 ++ (encodeEntries demoPatch ++ [1, 2, 3])))
        (some ['b', '.', 'g', 'r', 'f'])) []
      = .ok ([], ⟨demoHeader 2 ++ encodeEntries demoPatch, [1, 2, 3], false⟩) ∧
    observe (mergeset (oneFile ['b', '.', 'g', 'r', 'f'] (demoTarget.flatten ++ [0, 0]))
        (fopenRead (demoHeader 2 ++ (encodeEntries demoPatch ++ [1, 2, 3]))) none) []
      = .ok ([], ⟨demoHeader 2 ++ encodeEntries demoPatch, [1, 2, 3], false⟩) := by
  exact ⟨by decide, by decide, by decide, by decide⟩

/-! ## The run accounting -/

theorem toS8_range (b : Byte) : -128 ≤ toS8 b ∧ toS8 b ≤ 127 := by
  unfold toS8
  have := b.isLt
  split <;> omega

theorem contribution_pos (b : Byte) : 1 ≤ contribution (toS8 b) := by
  have h := toS8_range b
  unfold contribution
  split
  · omega
  · split
    · omega
    · rw [Int.shiftRight_eq_div_pow]
      norm_num
      omega

theorem copyrun_run (r : List Byte) (hr : IsRun r) (d tl : List Byte) (e : Bool) (dst : Sink) :
    copyrun ⟨d, r ++ tl, e⟩ dst = .ok (runValue r, ⟨d ++ r, tl, e⟩, cfwrite r dst) := by
  cases r with
  | nil => exact absurd hr (by simp [IsRun])
  | cons b t =>
    simp only [IsRun] at hr
    have h1 : runTail (toS8 b) ≤ (t ++ tl).length := by
      rw [List.length_append]
      omega
    rw [copyrun_eq]
    simp only [List.cons_append, h1, if_true, List.take_left' hr, List.drop_left' hr, runValue,
      List.headD_cons]

/-- Complete runs whose contributions add up to the remaining decoded length
are consumed by the run loop, which then stops. -/
theorem runLoop_runs (runs : List (List Byte)) : ∀ (fuel size : Nat) (d tl : List Byte) (e : Bool)
    (dst : Sink), (∀ r ∈ runs, IsRun r) → total runs = size → size ≤ fuel →
    runLoop fuel size ⟨d, runs.flatten ++ tl, e⟩ dst =
      .ok (⟨d ++ runs.flatten, tl, e⟩, cfwrite runs.flatten dst) := by
  induction runs with
  | nil =>
    intro fuel size d tl e dst _ ht _
    simp only [total, List.map_nil, List.sum_nil] at ht
    subst ht
    cases fuel <;> simp [runLoop, cfwrite_nil]
  | cons r runs ih =>
    intro fuel size d tl e dst hr ht hf
    have hrun : IsRun r := hr r (List.mem_cons_self _ _)
    have hpos : 1 ≤ runValue r := contribution_pos _
    simp only [total, List.map_cons, List.sum_cons] at ht
    obtain ⟨fuel, rfl⟩ : ∃ f, fuel = f + 1 := ⟨fuel - 1, by omega⟩
    have hs : size > 0 := by omega
    have hlt : ¬ size < runValue r := by omega
    simp only [runLoop, hs, if_true, List.flatten_cons, List.append_assoc, copyrun_run r hrun, hlt,
      if_false]
    rw [ih fuel (size - runValue r) (d ++ r) tl e (cfwrite r dst)
      (fun x hx => hr x (List.mem_cons_of_mem _ hx)) (by simp only [total]; omega) (by omega)]
    simp [cfwrite_cfwrite]

/-- Complete runs that stay below the remaining decoded length, followed by a
complete run that exceeds what remains, make the run loop die. -/
theorem runLoop_overrun (runs : List (List Byte)) : ∀ (fuel size : Nat) (d last tl : List Byte)
    (e : Bool) (dst : Sink), (∀ r ∈ runs, IsRun r) → IsRun last → total runs < size →
    size - total runs < runValue last → size ≤ fuel →
    runLoop fuel size ⟨d, runs.flatten ++ last ++ tl, e⟩ dst = .error .tooManyBytes := by
  induction runs with
  | nil =>
    intro fuel size d last tl e dst _ hl ht hv hf
    simp only [total, List.map_nil, List.sum_nil, Nat.sub_zero] at ht hv
    obtain ⟨fuel, rfl⟩ : ∃ f, fuel = f + 1 := ⟨fuel - 1, by omega⟩
    simp only [runLoop, ht, if_true, List.flatten_nil, List.nil_append, copyrun_run last hl, hv,
      gt_iff_lt]
  | cons r runs ih =>
    intro fuel size d last tl e dst hr hl ht hv hf
    have hrun : IsRun r := hr r (List.mem_cons_self _ _)
    have hpos : 1 ≤ runValue r := contribution_pos _
    simp only [total, List.map_cons, List.sum_cons] at ht hv
    obtain ⟨fuel, rfl⟩ : ∃ f, fuel = f + 1 := ⟨fuel - 1, by omega⟩
    have hs : size > 0 := by omega
    have hlt : ¬ size < runValue r := by omega
    simp only [runLoop, hs, if_true, List.flatten_cons, List.append_assoc, copyrun_run r hrun, hlt,
      if_false]
    have := ih fuel (size - runValue r) (d ++ r) last tl e (cfwrite r dst)
      (fun x hx => hr x (List.mem_cons_of_mem _ hx)) hl (by simp only [total]; omega)
      (by simp only [total]; omega) (by omega)
    simpa [List.append_assoc] using this

/-- The three ways in which the run loop ends: a short read, an overrun, or
complete runs whose contributions add up to the remaining decoded length. -/
theorem runLoop_cases (fuel : Nat) : ∀ (size : Nat) (d rest : List Byte) (e : Bool) (dst : Sink),
    size ≤ fuel →
    runLoop fuel size ⟨d, rest, e⟩ dst = .error .shortRead ∨
    (runLoop fuel size ⟨d, rest, e⟩ dst = .error .tooManyBytes ∧ Overrun size rest) ∨
    (∃ runs tl, rest = runs.flatten ++ tl ∧ (∀ r ∈ runs, IsRun r) ∧ total runs = size ∧
      runLoop fuel size ⟨d, rest, e⟩ dst =
        .ok (⟨d ++ runs.flatten, tl, e⟩, cfwrite runs.flatten dst)) := by
  induction fuel with
  | zero =>
    intro size d rest e dst hf
    have h0 : size = 0 := by omega
    subst h0
    exact Or.inr (Or.inr ⟨[], rest, rfl, by simp, rfl, by simp [runLoop, cfwrite_nil]⟩)
  | succ fuel ih =>
    intro size d rest e dst hf
    by_cases hs : size > 0
    swap
    · have h0 : size = 0 := by omega
      subst h0
      exact Or.inr (Or.inr ⟨[], rest, rfl, by simp, rfl, by simp [runLoop, cfwrite_nil]⟩)
    cases rest with
    | nil => exact Or.inl (by simp [runLoop, hs, copyrun_eq])
    | cons b tl =>
      by_cases hl : runTail (toS8 b) ≤ tl.length
      swap
      · exact Or.inl (by simp [runLoop, hs, copyrun_eq, hl])
      have hrun : IsRun (b :: tl.take (runTail (toS8 b))) := by
        simp only [IsRun]
        exact List.length_take_of_le hl
      have hsplit : b :: tl = (b :: tl.take (runTail (toS8 b))) ++ tl.drop (runTail (toS8 b)) := by
        simp
      have hval : runValue (b :: tl.take (runTail (toS8 b))) = contribution (toS8 b) := rfl
      have hpos : 1 ≤ contribution (toS8 b) := contribution_pos b
      have hstep : runLoop (fuel + 1) size ⟨d, b :: tl, e⟩ dst =
          if size < contribution (toS8 b) then .error .tooManyBytes
          else runLoop fuel (size - contribution (toS8 b))
            ⟨d ++ (b :: tl.take (runTail (toS8 b))), tl.drop (runTail (toS8 b)), e⟩
            (cfwrite (b :: tl.take (runTail (toS8 b))) dst) := by
        conv_lhs => rw [hsplit]
        simp only [runLoop, hs, if_true, copyrun_run _ hrun, hval]
      by_cases hc : size < contribution (toS8 b)
      · refine Or.inr (Or.inl ⟨by rw [hstep, if_pos hc], [], b :: tl.take (runTail (toS8 b)),
          tl.drop (runTail (toS8 b)), by simp, by simp, hrun, by simp [total]; omega, ?_⟩)
        simp only [total, List.map_nil, List.sum_nil, Nat.sub_zero, hval]
        exact hc
      · rw [hstep, if_neg hc]
        rcases ih (size - contribution (toS8 b)) (d ++ (b :: tl.take (runTail (toS8 b))))
          (tl.drop (runTail (toS8 b))) e (cfwrite (b :: tl.take (runTail (toS8 b))) dst)
          (by omega) with h | ⟨h, runs, last, tl2, h1, h2, h3, h4, h5⟩ | ⟨runs, tl2, h1, h2, h3, h4⟩
        · exact Or.inl h
        · refine Or.inr (Or.inl ⟨h, (b :: tl.take (runTail (toS8 b))) :: runs, last, tl2, ?_, ?_, h3,
            ?_, ?_⟩)
          · conv_lhs => rw [hsplit, h1]
            simp
          · intro r hr
            rcases List.mem_cons.mp hr with rfl | hr
            · exact hrun
            · exact h2 r hr
          · simp only [total, List.map_cons, List.sum_cons, hval]
            simp only [total] at h4
            omega
          · simp only [total, List.map_cons, List.sum_cons, hval]
            simp only [total] at h4 h5
            omega
        · refine Or.inr (Or.inr ⟨(b :: tl.take (runTail (toS8 b))) :: runs, tl2, ?_, ?_, ?_, ?_⟩)
          · conv_lhs => rw [hsplit, h1]
            simp
          · intro r hr
            rcases List.mem_cons.mp hr with rfl | hr
            · exact hrun
            · exact h2 r hr
          · simp only [total, List.map_cons, List.sum_cons, hval]
            simp only [total] at h3
            omega
          · rw [h4]
            simp [cfwrite_cfwrite]

theorem overrun_dies (size : Nat) (d rest : List Byte) (e : Bool) (dst : Sink)
    (h : Overrun size rest) : runLoop size size ⟨d, rest, e⟩ dst = .error .tooManyBytes := by
  obtain ⟨runs, last, tl, h1, h2, h3, h4, h5⟩ := h
  rw [h1]
  exact runLoop_overrun runs size size d last tl e dst h2 h3 h4 h5 (Nat.le_refl _)

/-- The overrun as the code counts it.  For a sprite on the path of the run
accounting (size not 0, info byte not `0xFF` and with bit 1 clear) whose
source satisfies every read, that is, `copysprite` does not die of a short
read: `copysprite` dies if and only if, after complete runs that stay below
the counter of the code, a run contributes more than what the counter then
holds, and then it dies with "too many bytes"; otherwise it returns 1
(present).  The counter starts as the 16-bit difference of the declared size
and 8, which is the remaining decoded length only for a declared size of at
least 8. -/
theorem copysprite_fails_iff_counter_overrun (d tl : List Byte) (lo hi info : Byte) (dst : Sink)
    (hL : lo.val + 256 * hi.val ≠ 0) (h1 : info.val ≠ 0xff) (h2 : info.val.testBit 1 = false)
    (hread : copysprite ⟨d, lo :: hi :: info :: tl, false⟩ dst ≠ .error .shortRead) :
    ((∃ err, copysprite ⟨d, lo :: hi :: info :: tl, false⟩ dst = .error err) ↔
      Overrun (sub16 (lo.val + 256 * hi.val) 8) (tl.drop 7)) ∧
    (∀ err, copysprite ⟨d, lo :: hi :: info :: tl, false⟩ dst = .error err →
      err = .tooManyBytes) ∧
    (¬ Overrun (sub16 (lo.val + 256 * hi.val) 8) (tl.drop 7) →
      ∃ src1 dst1, copysprite ⟨d, lo :: hi :: info :: tl, false⟩ dst = .ok (1, src1, dst1)) := by
  have h2a : ¬ (info.val &&& 2 ≠ 0) := by
    intro h
    rw [(and_two_ne_zero_iff _).mp h] at h2
    cases h2
  have heq := copysprite_cons d tl lo hi info dst hL
  rw [if_neg h1, if_neg h2a] at heq
  by_cases hl : 7 ≤ tl.length
  swap
  · rw [if_neg hl] at heq
    exact absurd heq hread
  rw [if_pos hl] at heq
  rcases runLoop_cases (sub16 (lo.val + 256 * hi.val) 8) (sub16 (lo.val + 256 * hi.val) 8)
    (d ++ lo :: hi :: info :: tl.take 7) (tl.drop 7) false (cfwrite (lo :: hi :: info :: tl.take 7) dst)
    (Nat.le_refl _) with h | ⟨h, hov⟩ | ⟨runs, tl2, _, _, _, h⟩
  · rw [h] at heq
    exact absurd heq hread
  · rw [h] at heq
    refine ⟨⟨fun _ => hov, fun _ => ⟨_, heq⟩⟩, fun err he => ?_, fun hn => absurd hov hn⟩
    rw [heq] at he
    cases he
    rfl
  · have hok := heq
    rw [h] at hok
    refine ⟨⟨fun ⟨err, he⟩ => ?_, fun hov => ?_⟩, fun err he => ?_, fun _ => ⟨_, _, hok⟩⟩
    · rw [hok] at he
      cases he
    · rw [overrun_dies _ _ _ _ _ hov] at h
      cases h
    · rw [hok] at he
      cases he

theorem copysprite_fails_iff_counter_overrun_instance :
    ((∃ err, copysprite ⟨[], 9 :: 0 :: 0 :: [1, 2, 3, 4, 5, 6, 7, 2, 5, 5], false⟩ none = .error err) ↔
      Overrun (sub16 ((9 : Byte).val + 256 * (0 : Byte).val) 8)
        ([1, 2, 3, 4, 5, 6, 7, 2, 5, 5].drop 7)) ∧
    (∀ err, copysprite ⟨[], 9 :: 0 :: 0 :: [1, 2, 3, 4, 5, 6, 7, 2, 5, 5], false⟩ none = .error err →
      err = .tooManyBytes) ∧
    (¬ Overrun (sub16 ((9 : Byte).val + 256 * (0 : Byte).val) 8)
        ([1, 2, 3, 4, 5, 6, 7, 2, 5, 5].drop 7) →
      ∃ src1 dst1, copysprite ⟨[], 9 :: 0 :: 0 :: [1, 2, 3, 4, 5, 6, 7, 2, 5, 5], false⟩ none =
        .ok (1, src1, dst1)) :=
  copysprite_fails_iff_counter_overrun [] [1, 2, 3, 4, 5, 6, 7, 2, 5, 5] 9 0 0 none (by decide)
    (by decide) (by decide) (by decide)

/-- For a declared size of at least 8, the overrun of the remaining decoded
length `size - 8` is an error, and the only one besides short reads: on the
path of the run accounting, with a source that satisfies every read,
`copysprite` dies if and only if some run contributes more than the decoded
length that remains at that point, and then with "too many bytes"; otherwise
it returns 1 (present). -/
theorem copysprite_overrun_from_size_eight (d tl : List Byte) (lo hi info : Byte) (dst : Sink)
    (hL : 8 ≤ lo.val + 256 * hi.val) (h1 : info.val ≠ 0xff) (h2 : info.val.testBit 1 = false)
    (hread : copysprite ⟨d, lo :: hi :: info :: tl, false⟩ dst ≠ .error .shortRead) :
    ((∃ err, copysprite ⟨d, lo :: hi :: info :: tl, false⟩ dst = .error err) ↔
      Overrun (lo.val + 256 * hi.val - 8) (tl.drop 7)) ∧
    (∀ err, copysprite ⟨d, lo :: hi :: info :: tl, false⟩ dst = .error err →
      err = .tooManyBytes) ∧
    (¬ Overrun (lo.val + 256 * hi.val - 8) (tl.drop 7) →
      ∃ src1 dst1, copysprite ⟨d, lo :: hi :: info :: tl, false⟩ dst = .ok (1, src1, dst1)) := by
  have hs : sub16 (lo.val + 256 * hi.val) 8 = lo.val + 256 * hi.val - 8 := by
    unfold sub16
    rw [if_pos hL]
  rw [← hs]
  exact copysprite_fails_iff_counter_overrun d tl lo hi info dst (by omega) h1 h2 hread

/-- The two outcomes of the run accounting on closed instances of the
declared size 9: with one decoded byte remaining, a literal run of two bytes
makes `copysprite` die, and a literal run of one byte makes it return 1. -/
theorem copysprite_overrun_instances :
    copysprite (fopenRead [9, 0, 0, 1, 2, 3, 4, 5, 6, 7, 2, 5, 5]) none = .error .tooManyBytes ∧
    copysprite (fopenRead [9, 0, 0, 1, 2, 3, 4, 5, 6, 7, 1, 5, 5]) none =
      .ok (1, ⟨[9, 0, 0, 1, 2, 3, 4, 5, 6, 7, 1, 5], [5], false⟩, none) := by
  exact ⟨by decide, by decide⟩

/-- For a declared size of at least 8 the run accounting is exact: when
`copysprite` returns on the path of the run accounting, it returns 1 and has
consumed, behind the ten bytes of the header, complete runs whose
contributions sum to the declared size minus 8. -/
theorem copysprite_run_accounting_exact (d tl : List Byte) (lo hi info : Byte) (dst : Sink)
    (r : Nat) (src1 : FILE) (dst1 : Sink)
    (hL : 8 ≤ lo.val + 256 * hi.val) (h1 : info.val ≠ 0xff) (h2 : info.val.testBit 1 = false)
    (h : copysprite ⟨d, lo :: hi :: info :: tl, false⟩ dst = .ok (r, src1, dst1)) :
    r = 1 ∧ ∃ runs, tl.drop 7 = runs.flatten ++ src1.rest ∧ (∀ x ∈ runs, IsRun x) ∧
      total runs = lo.val + 256 * hi.val - 8 := by
  have h2a : ¬ (info.val &&& 2 ≠ 0) := by
    intro hx
    rw [(and_two_ne_zero_iff _).mp hx] at h2
    cases h2
  have hs : sub16 (lo.val + 256 * hi.val) 8 = lo.val + 256 * hi.val - 8 := by
    unfold sub16
    rw [if_pos hL]
  rw [copysprite_cons d tl lo hi info dst (by omega), if_neg h1, if_neg h2a] at h
  by_cases hl : 7 ≤ tl.length
  swap
  · rw [if_neg hl] at h
    cases h
  rw [if_pos hl] at h
  rcases runLoop_cases (sub16 (lo.val + 256 * hi.val) 8) (sub16 (lo.val + 256 * hi.val) 8)
    (d ++ lo :: hi :: info :: tl.take 7) (tl.drop 7) false (cfwrite (lo :: hi :: info :: tl.take 7) dst)
    (Nat.le_refl _) with h3 | ⟨h3, _⟩ | ⟨runs, tl2, h4, h5, h6, h3⟩
  · rw [h3] at h
    cases h
  · rw [h3] at h
    cases h
  · rw [h3] at h
    cases h
    exact ⟨rfl, runs, h4, h5, h6.trans hs⟩

/-! ## A declared size below 8 -/

theorem wrapRuns_run : ∀ r ∈ wrapRuns, IsRun r := by
  intro r hr
  simp only [wrapRuns, List.mem_append, List.mem_replicate, List.mem_singleton] at hr
  rcases hr with ⟨_, rfl⟩ | rfl <;> decide

theorem total_replicate (n : Nat) (r : List Byte) (rs : List (List Byte)) :
    total (List.replicate n r ++ rs) = n * runValue r + total rs := by
  induction n with
  | zero => simp [total]
  | succ n ih =>
    simp only [total] at ih
    simp only [total, List.replicate_succ, List.cons_append, List.map_cons, List.sum_cons, ih]
    rw [Nat.succ_mul]
    omega

theorem wrapRuns_total : total wrapRuns = 65529 := by
  have h1 : runValue [0x80, 0] = 16 := by decide
  have h2 : total [[0xb8, 0]] = 9 := by decide
  unfold wrapRuns
  rw [total_replicate, h1, h2]

/-- A sprite on the path of the run accounting whose runs add up to the
16-bit difference of its declared size and 8 is read as present. -/
theorem copysprite_runs (d hdr tl : List Byte) (lo hi info : Byte) (runs : List (List Byte))
    (dst : Sink) (hL : lo.val + 256 * hi.val ≠ 0) (h1 : info.val ≠ 0xff)
    (h2 : ¬ (info.val &&& 2 ≠ 0)) (h7 : hdr.length = 7) (hruns : ∀ r ∈ runs, IsRun r)
    (htotal : total runs = sub16 (lo.val + 256 * hi.val) 8) :
    copysprite ⟨d, lo :: hi :: info :: (hdr ++ (runs.flatten ++ tl)), false⟩ dst =
      .ok (1, ⟨d ++ lo :: hi :: info :: hdr ++ runs.flatten, tl, false⟩,
        cfwrite (lo :: hi :: info :: hdr ++ runs.flatten) dst) := by
  have hl : 7 ≤ (hdr ++ (runs.flatten ++ tl)).length := by
    rw [List.length_append]
    omega
  rw [copysprite_cons _ _ _ _ _ _ hL, if_neg h1, if_neg h2, if_pos hl, List.take_left' h7,
    List.drop_left' h7,
    runLoop_runs runs _ _ _ tl false _ hruns htotal (Nat.le_refl _)]
  simp [cfwrite_cfwrite]

/-- C5 (the code at the failing input): for the declared size 1 the
subtraction `size -= 8` wraps around to 65529, and `copysprite` returns 1
(present) after it has consumed runs whose contributions sum to 65529, which
is not `size - 8`. -/
theorem copysprite_size_below_eight_wraps :
    copysprite ⟨[], 1 :: 0 :: 0 :: ([0, 0, 0, 0, 0, 0, 0] ++ (wrapRuns.flatten ++ [])), false⟩ none =
      .ok (1, ⟨[] ++ 1 :: 0 :: 0 :: [0, 0, 0, 0, 0, 0, 0] ++ wrapRuns.flatten, [], false⟩,
        cfwrite (1 :: 0 :: 0 :: [0, 0, 0, 0, 0, 0, 0] ++ wrapRuns.flatten) none) ∧
    (∀ r ∈ wrapRuns, IsRun r) ∧ total wrapRuns = 65529 ∧ ((65529 : Int) ≠ 1 - 8) :=
  ⟨copysprite_runs [] [0, 0, 0, 0, 0, 0, 0] [] 1 0 0 wrapRuns none (by decide) (by decide)
      (by decide) rfl wrapRuns_run (wrapRuns_total.trans (by decide)),
    wrapRuns_run, wrapRuns_total, by decide⟩

theorem lateRuns_run : ∀ r ∈ lateRuns, IsRun r := by
  intro r hr
  simp only [lateRuns, List.mem_append, List.mem_replicate, List.mem_singleton] at hr
  rcases hr with ⟨_, rfl⟩ | rfl <;> decide

theorem lateRuns_total : total lateRuns = 65535 := by
  have h1 : runValue [0x80, 0] = 16 := by decide
  have h2 : total [[0x88, 0]] = 15 := by decide
  unfold lateRuns
  rw [total_replicate, h1, h2]

/-- C8 (the code at the failing input): a sprite on the path of the run
accounting with the declared size 7, and a source that satisfies every read.
No decoded byte remains behind the eight bytes of the header, so the first
run, which contributes 16, exceeds the remaining decoded length `7 - 8`; but
the counter of the code starts at 65535, and `copysprite` does not die: it
returns 1 (present) after 4096 runs. -/
theorem copysprite_overrun_below_eight_undetected :
    copysprite ⟨[], 7 :: 0 :: 0 :: ([0, 0, 0, 0, 0, 0, 0] ++ (lateRuns.flatten ++ [])), false⟩ none =
      .ok (1, ⟨[] ++ 7 :: 0 :: 0 :: [0, 0, 0, 0, 0, 0, 0] ++ lateRuns.flatten, [], false⟩,
        cfwrite (7 :: 0 :: 0 :: [0, 0, 0, 0, 0, 0, 0] ++ lateRuns.flatten) none) ∧
    (∀ r ∈ lateRuns, IsRun r) ∧ lateRuns.head? = some [0x80, 0] ∧
    ((7 : Int) - 8 < (runValue [0x80, 0] : Int)) ∧ sub16 7 8 = 65535 :=
  ⟨copysprite_runs [] [0, 0, 0, 0, 0, 0, 0] [] 7 0 0 lateRuns none (by decide) (by decide)
      (by decide) rfl lateRuns_run (lateRuns_total.trans (by decide)),
    lateRuns_run, rfl, by decide, by decide⟩

/-! ## The bounds of the loops are never reached -/

theorem copysprite_fault (src : FILE) (dst : Sink) (err : Fault)
    (h : copysprite src dst = .error err) : err = .shortRead ∨ err = .tooManyBytes := by
  obtain ⟨d, rest, eof⟩ := src
  cases eof with
  | true =>
    rw [copysprite_eof] at h
    cases h
  | false =>
    match rest with
    | [] =>
      rw [copysprite_short _ _ _ (by simp)] at h
      cases h
      exact Or.inl rfl
    | [_] =>
      rw [copysprite_short _ _ _ (by simp)] at h
      cases h
      exact Or.inl rfl
    | lo :: hi :: tl =>
      by_cases hz : lo.val + 256 * hi.val = 0
      · rw [copysprite_sentinel _ _ _ _ _ hz] at h
        cases h
      match tl with
      | [] =>
        rw [copysprite_noinfo _ _ _ _ hz] at h
        cases h
        exact Or.inl rfl
      | info :: tl =>
        rw [copysprite_cons _ _ _ _ _ _ hz] at h
        split at h
        · split at h
          · cases h
          · cases h
            exact Or.inl rfl
        · split at h
          · split at h
            · cases h
            · cases h
              exact Or.inl rfl
          · split at h
            · rcases runLoop_cases (sub16 (lo.val + 256 * hi.val) 8)
                (sub16 (lo.val + 256 * hi.val) 8) (d ++ lo :: hi :: info :: tl.take 7) (tl.drop 7)
                false (cfwrite (lo :: hi :: info :: tl.take 7) dst) (Nat.le_refl _)
                with h3 | ⟨h3, _⟩ | ⟨runs, tl2, _, _, _, h3⟩
              · rw [h3] at h
                cases h
                exact Or.inl rfl
              · rw [h3] at h
                cases h
                exact Or.inr rfl
              · rw [h3] at h
                cases h
            · cases h
              exact Or.inl rfl

theorem copysprite_progress (src src1 : FILE) (dst dst1 : Sink) (r : Nat)
    (hclear : src.eof = false) (h : copysprite src dst = .ok (r, src1, dst1)) :
    src1.eof = false ∧ src1.rest.length + 2 ≤ src.rest.length ∧
      (r ≠ 0 → src1.rest.length + 3 ≤ src.rest.length) := by
  obtain ⟨d, rest, eof⟩ := src
  simp only at hclear
  subst hclear
  rcases copysprite_local d rest with ⟨err, he⟩ | ⟨k, bs, tl, h1, hk, h2⟩
  · rw [he] at h
    cases h
  · rw [h1, h2] at h
    cases h
    subst h1
    simp only [List.length_append]
    rcases hk with ⟨rfl, hlen⟩ | ⟨rfl, hlen⟩
    · exact ⟨trivial, by omega, fun hne => absurd rfl hne⟩
    · exact ⟨trivial, by omega, fun _ => by omega⟩

theorem showpct_fault (now total : Nat) (pct : Int) (err : Fault)
    (h : showpct now total pct = .error err) : err = .divideByZero := by
  unfold showpct at h
  split at h
  · cases h
    rfl
  · dsimp only at h
    split at h <;> cases h

theorem cfread_fault (n : Nat) (f : FILE) (err : Fault) (h : cfread n f = .error err) :
    err = .shortRead := by
  unfold cfread at h
  split at h
  · cases h
  · cases h
    rfl

theorem copyRest_no_hang (fuel : Nat) : ∀ (grfsize : Nat) (st : MergeState),
    st.grf.eof = false → st.grf.rest.length < fuel →
    copyRest fuel grfsize st ≠ .error .hang := by
  induction fuel with
  | zero =>
    intro grfsize st _ hf
    omega
  | succ fuel ih =>
    intro grfsize st hclear hf
    unfold copyRest
    cases hcs : copysprite st.grf st.tmp with
    | error err =>
      rcases copysprite_fault _ _ _ hcs with rfl | rfl <;> simp
    | ok res =>
      obtain ⟨r, grf1, tmp1⟩ := res
      obtain ⟨h1, _, h3⟩ := copysprite_progress _ _ _ _ _ hclear hcs
      simp only
      by_cases hr : r ≠ 0
      · rw [if_pos hr]
        cases hp : showpct (ftell grf1) grfsize st.lastpct with
        | error err =>
          rw [showpct_fault _ _ _ _ hp]
          simp
        | ok p =>
          simp only
          exact ih grfsize _ h1 (by have := h3 hr; simp only; omega)
      · rw [if_neg hr]
        simp

theorem catchUp_no_hang (fuel : Nat) : ∀ (grfsize spriteno : Nat) (st : MergeState),
    st.grf.eof = false →
    (if 65535 ≤ spriteno then st.grf.rest.length + 1
      else if (st.curno + 1) % 65536 ≤ spriteno then spriteno - (st.curno + 1) % 65536 + 1
      else 0) ≤ fuel →
    catchUp fuel grfsize spriteno st ≠ .error .hang := by
  induction fuel with
  | zero =>
    intro grfsize spriteno st _ hf
    unfold catchUp
    by_cases hc : (st.curno + 1) % 65536 ≤ spriteno
    · exfalso
      rw [if_pos hc] at hf
      split at hf <;> omega
    · rw [if_neg hc]
      simp
  | succ fuel ih =>
    intro grfsize spriteno st hclear hf
    unfold catchUp
    by_cases hc : (st.curno + 1) % 65536 ≤ spriteno
    · rw [if_pos hc]
      cases hcs : copysprite st.grf st.tmp with
      | error err =>
        rcases copysprite_fault _ _ _ hcs with rfl | rfl <;> simp
      | ok res =>
        obtain ⟨r, grf1, tmp1⟩ := res
        obtain ⟨h1, h2, _⟩ := copysprite_progress _ _ _ _ _ hclear hcs
        simp only
        cases hp : showpct (ftell grf1) grfsize st.lastpct with
        | error err =>
          rw [showpct_fault _ _ _ _ hp]
          simp
        | ok p =>
          simp only
          refine ih grfsize spriteno _ h1 ?_
          simp only
          rw [if_pos hc] at hf
          by_cases hs : 65535 ≤ spriteno
          · rw [if_pos hs] at hf ⊢
            omega
          · rw [if_neg hs] at hf ⊢
            split <;> omega
    · rw [if_neg hc]
      simp

theorem catchUp_clear (fuel : Nat) : ∀ (grfsize spriteno : Nat) (st st1 : MergeState),
    st.grf.eof = false → catchUp fuel grfsize spriteno st = .ok st1 → st1.grf.eof = false := by
  induction fuel with
  | zero =>
    intro grfsize spriteno st st1 hclear h
    unfold catchUp at h
    split at h
    · cases h
    · cases h
      exact hclear
  | succ fuel ih =>
    intro grfsize spriteno st st1 hclear h
    unfold catchUp at h
    split at h
    · split at h
      · cases h
      · rename_i r grf1 tmp1 hcs
        split at h
        · cases h
        · exact ih _ _ _ _ (copysprite_progress _ _ _ _ _ hclear hcs).1 h
    · cases h
      exact hclear

theorem mergeEntry_clear (grfsize : Nat) (st st1 : MergeState) (hclear : st.grf.eof = false)
    (h : mergeEntry grfsize st = .ok st1) : st1.grf.eof = false := by
  unfold mergeEntry at h
  split at h
  · cases h
  · split at h
    · cases h
    · rename_i st2 hcatch
      have h2 : st2.grf.eof = false := by
        refine catchUp_clear _ _ _ _ _ ?_ hcatch
        exact hclear
      split at h
      · cases h
      · rename_i r grf2 tmp2 hskip
        have h3 := (copysprite_progress _ _ _ _ _ h2 hskip).1
        split at h
        · cases h
        · split at h
          · cases h
          · cases h
            exact h3

theorem mergeEntry_no_hang (grfsize : Nat) (st : MergeState) (hclear : st.grf.eof = false) :
    mergeEntry grfsize st ≠ .error .hang := by
  unfold mergeEntry
  cases hr : cfread 2 st.grd with
  | error err =>
    rw [cfread_fault _ _ _ hr]
    simp
  | ok res =>
    obtain ⟨nb, grd1⟩ := res
    simp only
    cases hcatch : catchUp (st.grf.rest.length + 65536) grfsize (le16 nb) { st with grd := grd1 } with
    | error err =>
      have hno := catchUp_no_hang (st.grf.rest.length + 65536) grfsize (le16 nb)
        { st with grd := grd1 } hclear (by simp only; split <;> [omega; (split <;> omega)])
      rw [hcatch] at hno
      simpa using hno
    | ok st1 =>
      have h2 : st1.grf.eof = false := by
        refine catchUp_clear _ _ _ _ _ ?_ hcatch
        exact hclear
      simp only
      cases hskip : skipsprite st1.grf with
      | error err =>
        rcases copysprite_fault _ _ _ hskip with rfl | rfl <;> simp
      | ok res2 =>
        obtain ⟨r, grf2, tmp2⟩ := res2
        simp only
        cases hcopy : copysprite st1.grd st1.tmp with
        | error err =>
          rcases copysprite_fault _ _ _ hcopy with rfl | rfl <;> simp
        | ok res3 =>
          obtain ⟨r3, grd2, tmp3⟩ := res3
          simp only
          cases hp : showpct (ftell grf2) grfsize st1.lastpct with
          | error err =>
            rw [showpct_fault _ _ _ _ hp]
            simp
          | ok p => simp

theorem mergeLoop_no_hang (n : Nat) : ∀ (grfsize : Nat) (st : MergeState),
    st.grf.eof = false →
    mergeLoop n grfsize st ≠ .error .hang ∧
      ∀ st1, mergeLoop n grfsize st = .ok st1 → st1.grf.eof = false := by
  induction n with
  | zero =>
    intro grfsize st hclear
    refine ⟨by simp [mergeLoop], fun st1 h => ?_⟩
    simp only [mergeLoop, Except.ok.injEq] at h
    subst h
    exact hclear
  | succ n ih =>
    intro grfsize st hclear
    unfold mergeLoop
    cases he : mergeEntry grfsize st with
    | error err =>
      have hno := mergeEntry_no_hang grfsize st hclear
      rw [he] at hno
      exact ⟨by simpa using hno, fun st1 h => by cases h⟩
    | ok st2 => exact ih grfsize st2 (mergeEntry_clear _ _ _ hclear he)

theorem mergeStreams_no_hang (n grfsize : Nat) (grd grf : FILE) (hclear : grf.eof = false) :
    mergeStreams n grfsize grd grf ≠ .error .hang := by
  unfold mergeStreams
  obtain ⟨h1, h2⟩ := mergeLoop_no_hang n grfsize ⟨grd, grf, some [], 0, -1⟩ hclear
  cases hl : mergeLoop n grfsize ⟨grd, grf, some [], 0, -1⟩ with
  | error err =>
    rw [hl] at h1
    simpa using h1
  | ok st =>
    simp only
    have h3 := copyRest_no_hang (st.grf.rest.length + 1) grfsize st (h2 st hl) (by omega)
    cases hr : copyRest (st.grf.rest.length + 1) grfsize st with
    | error err =>
      rw [hr] at h3
      simpa using h3
    | ok st1 =>
      simp only
      cases hp : showpct grfsize grfsize st1.lastpct with
      | error err =>
        rw [showpct_fault _ _ _ _ hp]
        simp
      | ok p => simp

theorem skipLoop_no_hang (n : Nat) : ∀ (onlyshow : Bool) (st : SkipState),
    skipLoop n onlyshow st ≠ .error .hang := by
  induction n with
  | zero =>
    intro onlyshow st
    simp [skipLoop]
  | succ n ih =>
    intro onlyshow st
    unfold skipLoop
    cases hr : cfread 2 st.grd with
    | error err =>
      rw [cfread_fault _ _ _ hr]
      simp
    | ok res =>
      obtain ⟨nb, grd1⟩ := res
      simp only
      cases hs : skipsprite grd1 with
      | error err =>
        rcases copysprite_fault _ _ _ hs with rfl | rfl <;> simp
      | ok res2 =>
        obtain ⟨r, grd2, tmp2⟩ := res2
        exact ih _ _

theorem drainLoop_no_hang (n : Nat) : ∀ (grd : FILE), drainLoop n grd ≠ .error .hang := by
  induction n with
  | zero =>
    intro grd
    simp [drainLoop]
  | succ n ih =>
    intro grd
    unfold drainLoop
    cases hr : cfread 2 grd with
    | error err =>
      rw [cfread_fault _ _ _ hr]
      simp
    | ok res =>
      obtain ⟨nb, grd1⟩ := res
      simp only
      cases hs : skipsprite grd1 with
      | error err =>
        rcases copysprite_fault _ _ _ hs with rfl | rfl <;> simp
      | ok res2 =>
        obtain ⟨r, grd2, tmp2⟩ := res2
        exact ih _

theorem installFinish_no_hang (delete : Bool) (w : World) (grffile tempfile : List Char) :
    (installFinish delete w grffile tempfile).1 ≠ .error .hang := by
  unfold installFinish
  dsimp only
  split
  · simp
  · split <;> simp

theorem install_no_hang (w : World) (grffile tempfile : List Char) :
    (install w grffile tempfile).1 ≠ .error .hang := by
  unfold install
  dsimp only
  split
  · split
    · exact installFinish_no_hang _ _ _ _
    · split
      · split
        · exact installFinish_no_hang _ _ _ _
        · simp
      · exact installFinish_no_hang _ _ _ _
  · exact installFinish_no_hang _ _ _ _

theorem mergeInto_no_hang (w : World) (n : Nat) (grd : FILE) (path : List Char) :
    mergeInto w n grd path ≠ .error .hang := by
  unfold mergeInto
  split
  · have h := skipLoop_no_hang n false ⟨grd, -2, -2, w.listing⟩
    cases hs : skipLoop n false ⟨grd, -2, -2, w.listing⟩ with
    | error err =>
      rw [hs] at h
      simpa using h
    | ok st => simp
  · rename_i content _
    dsimp only
    split
    · simp
    · have h := mergeStreams_no_hang n content.length grd (fopenRead content) rfl
      cases hs : mergeStreams n content.length grd (fopenRead content) with
      | error err =>
        rw [hs] at h
        simpa using h
      | ok st =>
        simp only
        have hi := install_no_hang
          { w with files := fun p => if p = tempfileName path then some (st.tmp.getD []) else w.files p }
          path (tempfileName path)
        split
        · rename_i e w3 heq
          rw [heq] at hi
          simpa using hi
        · simp

theorem readHeader_no_hang (grd : FILE) : readHeader grd ≠ .error .hang := by
  unfold readHeader
  cases h1 : cfread 2 grd with
  | error err =>
    rw [cfread_fault _ _ _ h1]
    simp
  | ok r1 =>
    obtain ⟨vb, grd1⟩ := r1
    simp only
    split
    · simp
    · cases h2 : cfread 2 grd1 with
      | error err =>
        rw [cfread_fault _ _ _ h2]
        simp
      | ok r2 =>
        obtain ⟨nb, grd2⟩ := r2
        simp only
        cases h3 : cfread 1 grd2 with
        | error err =>
          rw [cfread_fault _ _ _ h3]
          simp
        | ok r3 =>
          obtain ⟨lb, grd3⟩ := r3
          simp only
          split
          · simp
          · split
            · simp
            · cases h4 : cfread (lb.headD 0).val grd3 with
              | error err =>
                rw [cfread_fault _ _ _ h4]
                simp
              | ok r4 => simp

/-- No loop of the embedding of `mergeset` reaches the bound of its
iterations: every outcome of the function `mergeset` below is an outcome of
the program. -/
theorem mergeset_no_hang (w : World) (grd : FILE) (grffile : Option (List Char)) :
    mergeset w grd grffile ≠ .error .hang := by
  unfold mergeset
  have hh := readHeader_no_hang grd
  cases hr : readHeader grd with
  | error err =>
    rw [hr] at hh
    simpa using hh
  | ok res =>
    obtain ⟨n, name, grd1⟩ := res
    simp only
    unfold mergesetBody
    split
    · dsimp only
      have h := skipLoop_no_hang n true ⟨grd1, -2, -2,
        w.listing ++ "Generated from: ".toList ++ name ++ ".grf\nSprites in file: ".toList⟩
      split
      · rename_i e heq
        rw [heq] at h
        simpa using h
      · simp
    · split
      · dsimp only
        split
        · split
          · exact mergeInto_no_hang _ _ _ _
          · have h := drainLoop_no_hang n grd1
            split
            · rename_i e heq
              rw [heq] at h
              simpa using h
            · simp
        · exact mergeInto_no_hang _ _ _ _
      · exact mergeInto_no_hang _ _ _ _

/-! ## The summary of the list mode -/

theorem decimal_natCast (n : Nat) : decimal (n : Int) = Nat.toDigits 10 n := by
  unfold decimal
  rw [if_neg (by omega)]
  simp

theorem groupFrom_ne_nil (l : List Nat) : ∀ f t, ∃ x xs, groupFrom f t l = x :: xs := by
  induction l with
  | nil => exact fun f t => ⟨_, _, rfl⟩
  | cons n l ih =>
    intro f t
    unfold groupFrom
    split
    · exact ih f n
    · exact ⟨_, _, rfl⟩

theorem showRange_continue (g : FILE) (f : Int) (t i : Nat) (txt : List Char) (h : i = t + 1) :
    showRange i ⟨g, f, (t : Int), txt⟩ = ⟨g, f, (i : Int), txt⟩ := by
  have h2 : ¬ ((i : Int) ≠ (t : Int) + 1) := by omega
  simp [showRange, h2]

theorem showRange_break (g : FILE) (f t i : Nat) (txt : List Char) (h : i ≠ t + 1) :
    showRange i ⟨g, (f : Int), (t : Int), txt ++ Nat.toDigits 10 f⟩ =
      ⟨g, (i : Int), (i : Int), txt ++ showRun (f, t) ++ ", ".toList ++ Nat.toDigits 10 i⟩ := by
  have h2 : (i : Int) ≠ (t : Int) + 1 := by omega
  have h0 : (f : Int) ≥ 0 := by omega
  by_cases hft : f = t
  · subst hft
    simp [showRange, h2, decimal_natCast, showRun]
  · have hft2 : (f : Int) ≠ (t : Int) := by omega
    simp [showRange, h2, h0, decimal_natCast, showRun, hft, hft2]

theorem showRange_first (g : FILE) (i : Nat) (txt : List Char) :
    showRange i ⟨g, -2, -2, txt⟩ = ⟨g, (i : Int), (i : Int), txt ++ Nat.toDigits 10 i⟩ := by
  have h2 : (i : Int) ≠ -2 + 1 := by omega
  simp [showRange, h2, decimal_natCast]

/-- The list mode with a run `(f, t)` open, of which `f` has been printed:
behind the remaining entries, and with the closing text of lines 368-373, the
printed text is the joined text of the maximal runs. -/
theorem skipLoop_open_run (es : List (Nat × List Byte)) :
    ∀ (f t : Nat) (txt : List Char) (d r : List Byte),
      (∀ x ∈ es, IsRecord x.2) → (∀ x ∈ es, x.1 < 65536) →
      ∃ st1, skipLoop es.length true
          ⟨⟨d, encodeEntries es ++ r, false⟩, (f : Int), (t : Int), txt ++ Nat.toDigits 10 f⟩ = .ok st1 ∧
        st1.grd = ⟨d ++ encodeEntries es, r, false⟩ ∧ 0 ≤ st1.lastfrom ∧
        (if st1.lastfrom ≠ st1.lastto then st1.listing ++ '-' :: decimal st1.lastto
          else st1.listing) =
          txt ++ joinWith ", ".toList ((groupFrom f t (es.map Prod.fst)).map showRun) := by
  induction es with
  | nil =>
    intro f t txt d r _ _
    refine ⟨_, rfl, by simp [encodeEntries], by simp, ?_⟩
    simp only [List.map_nil, groupFrom, List.map_cons, joinWith, showRun, decimal_natCast]
    by_cases h : f = t
    · simp [h]
    · have h2 : (f : Int) ≠ (t : Int) := by omega
      simp [h, h2]
  | cons x es ih =>
    intro f t txt d r hes hidx
    obtain ⟨i, p⟩ := x
    have hi : i < 65536 := hidx (i, p) (List.mem_cons_self _ _)
    have hp : IsRecord p := hes (i, p) (List.mem_cons_self _ _)
    have e1 : encodeEntries ((i, p) :: es) ++ r = bytes16 i ++ (p ++ (encodeEntries es ++ r)) := by
      simp [encodeEntries, encodeEntry]
    have e3 : d ++ encodeEntries ((i, p) :: es) = d ++ bytes16 i ++ p ++ encodeEntries es := by
      simp [encodeEntries, encodeEntry]
    simp only [List.length_cons, skipLoop, e1, cfread_bytes16, le16_bytes16 i hi, if_true, skipsprite,
      record_frame p hp, e3, List.map_cons]
    by_cases h : i = t + 1
    · obtain ⟨st1, h3, h4, h5, h6⟩ := ih f i txt (d ++ bytes16 i ++ p) r
        (fun x hx => hes x (List.mem_cons_of_mem _ hx))
        (fun x hx => hidx x (List.mem_cons_of_mem _ hx))
      refine ⟨st1, ?_, h4, h5, ?_⟩
      · rw [showRange_continue _ _ _ _ _ h]
        exact h3
      · simpa [groupFrom, h] using h6
    · obtain ⟨st1, h3, h4, h5, h6⟩ := ih i i (txt ++ showRun (f, t) ++ ", ".toList)
        (d ++ bytes16 i ++ p) r
        (fun x hx => hes x (List.mem_cons_of_mem _ hx))
        (fun x hx => hidx x (List.mem_cons_of_mem _ hx))
      obtain ⟨y, ys, hy⟩ := groupFrom_ne_nil (es.map Prod.fst) i i
      refine ⟨st1, ?_, h4, h5, ?_⟩
      · rw [showRange_break _ _ _ _ _ h]
        exact h3
      · rw [h6]
        simp only [groupFrom, h, if_false, List.map_cons, hy, joinWith, List.append_assoc]

/-- C11: in list mode, for a GRD set whose entries have 16-bit sprite numbers
and well-formed sprites, `mergeset` prints, behind the two heading lines and in
front of the final newline, the summary of the sprite numbers: their maximal
runs, a run being closed exactly when the next number is not the previous
number plus one, a run of one number `a` as `a`, a longer run from `a` to `b`
as `a-b`, joined by a comma and a blank, and `No sprites.` for no entry.  It
changes no file and leaves the GRD stream behind the last entry. -/
theorem mergeset_list_summary (w : World) (grd : FILE) (grffile : Option (List Char))
    (name : List Char) (es : List (Nat × List Byte)) (dd dtl : List Byte)
    (hshow : w.onlyshow = true)
    (hhdr : readHeader grd = .ok (es.length, name, ⟨dd, encodeEntries es ++ dtl, false⟩))
    (hes : ∀ x ∈ es, IsRecord x.2) (hidx : ∀ x ∈ es, x.1 < 65536) :
    ∃ w2, mergeset w grd grffile = .ok (w2, ⟨dd ++ encodeEntries es, dtl, false⟩) ∧
      w2.listing = w.listing ++ "Generated from: ".toList ++ name
        ++ ".grf\nSprites in file: ".toList ++ summary (es.map Prod.fst) ++ ['\n'] ∧
      w2.files = w.files ∧ w2.calls = w.calls := by
  simp only [mergeset, hhdr, mergesetBody, hshow, if_true]
  cases es with
  | nil =>
    have e0 : encodeEntries ([] : List (Nat × List Byte)) = [] := rfl
    simp only [List.length_nil, skipLoop, e0, List.nil_append, List.append_nil]
    exact ⟨_, rfl, by simp [summary], rfl, rfl⟩
  | cons x es =>
    obtain ⟨i, p⟩ := x
    have hi : i < 65536 := hidx (i, p) (List.mem_cons_self _ _)
    have hp : IsRecord p := hes (i, p) (List.mem_cons_self _ _)
    have e1 : encodeEntries ((i, p) :: es) ++ dtl
        = bytes16 i ++ (p ++ (encodeEntries es ++ dtl)) := by
      simp [encodeEntries, encodeEntry]
    have e3 : dd ++ encodeEntries ((i, p) :: es) = dd ++ bytes16 i ++ p ++ encodeEntries es := by
      simp [encodeEntries, encodeEntry]
    obtain ⟨st1, h3, h4, h5, h6⟩ := skipLoop_open_run es i i
      (w.listing ++ "Generated from: ".toList ++ name ++ ".grf\nSprites in file: ".toList)
      (dd ++ bytes16 i ++ p) dtl
      (fun x hx => hes x (List.mem_cons_of_mem _ hx))
      (fun x hx => hidx x (List.mem_cons_of_mem _ hx))
    have h7 : ¬ (st1.lastfrom < 0) := by omega
    simp only [List.length_cons, skipLoop, e1, cfread_bytes16, le16_bytes16 i hi, if_true,
      skipsprite, record_frame p hp, showRange_first, h3, h7, if_false, h6, h4, e3]
    exact ⟨_, rfl, by simp [summary, maximalRuns], rfl, rfl⟩

theorem mergeset_list_summary_witness :
    ∃ w2, mergeset (oneFileListed demoPath []) (fopenRead (demoHeader 5 ++ (encodeEntries listedPatch ++ [])))
        none = .ok (w2, ⟨demoHeader 5 ++ encodeEntries listedPatch, [], false⟩) ∧
      w2.listing = (oneFileListed demoPath []).listing ++ "Generated from: ".toList ++ ['a']
        ++ ".grf\nSprites in file: ".toList ++ summary (listedPatch.map Prod.fst) ++ ['\n'] ∧
      w2.files = (oneFileListed demoPath []).files ∧ w2.calls = (oneFileListed demoPath []).calls :=
  mergeset_list_summary (oneFileListed demoPath [])
    (fopenRead (demoHeader 5 ++ (encodeEntries listedPatch ++ []))) none ['a'] listedPatch
    (demoHeader 5) [] rfl (by decide) (by decide) (by decide)

/-- The summary of the sprite numbers 5, 6, 7, 12, 20 is `5-7, 12, 20`. -/
theorem summary_demo :
    summary (listedPatch.map Prod.fst) = "5-7, 12, 20".toList ∧
    summary [] = "No sprites.".toList ∧ summary [4] = "4".toList ∧
    summary [3, 4, 4, 5, 9, 8] = "3-4, 4-5, 9, 8".toList := by
  exact ⟨by decide, by decide, by decide, by decide⟩

/-! ## The installation -/

theorem rename_some (w w1 : World) (old new : List Char) (h : rename w old new = some w1) :
    ∃ content, w.files old = some content ∧
      (∀ p, w1.files p = if p = new then some content
                          else if p = old then none else w.files p) ∧
      w1.calls = w.calls ++ [.renamed old new] := by
  unfold rename at h
  split at h
  · cases h
  · rename_i content hc
    split at h
    · cases h
    · cases h
      exact ⟨content, hc, fun _ => rfl, rfl⟩

theorem remove_some (w w1 : World) (path : List Char) (h : remove w path = some w1) :
    ∃ content, w.files path = some content ∧
      (∀ p, w1.files p = if p = path then none else w.files p) ∧
      w1.calls = w.calls ++ [.removed path] := by
  unfold remove at h
  split at h
  · cases h
  · rename_i content hc
    split at h
    · cases h
    · cases h
      exact ⟨content, hc, fun _ => rfl, rfl⟩

/-- The installation of the closed instance without a backup: the original
becomes the backup, the merged output the target. -/
theorem install_without_backup_demo :
    (install (filesWorld [(demoPath, [1]), (demoTemp, [2])] false []) demoPath demoTemp).1
        = .ok () ∧
      [demoPath, backupName demoPath, demoTemp].map
        (install (filesWorld [(demoPath, [1]), (demoTemp, [2])] false []) demoPath
          demoTemp).2.files = [some [2], some [1], none] ∧
      (install (filesWorld [(demoPath, [1]), (demoTemp, [2])] false []) demoPath
        demoTemp).2.calls
        = [.renamed demoPath (backupName demoPath), .renamed demoTemp demoPath] := by
  exact ⟨by decide, by decide, by decide⟩

/-- C13 (counterexample): the target is named `a.bak`, so that the backup
path computed by the code is the target path itself and exists.  The
installation removes that file and renames the temporary file to it: the
content of the backup path changes from `[1]` to the merged output `[2]`. -/
theorem install_backup_overwritten_counterexample :
    backupName demoBackup = demoBackup ∧
      (filesWorld [(demoBackup, [1]), (demoTemp, [2])] false []).files (backupName demoBackup)
        = some [1] ∧
      (install (filesWorld [(demoBackup, [1]), (demoTemp, [2])] false []) demoBackup demoTemp).1
        = .ok () ∧
      (install (filesWorld [(demoBackup, [1]), (demoTemp, [2])] false []) demoBackup
        demoTemp).2.files (backupName demoBackup) = some [2] := by
  exact ⟨by decide, by decide, by decide, by decide⟩

/-- C13 (amended): when the backup path exists and is neither the target path
nor the temporary file, the installation leaves the content of the backup
unchanged, whether it ends normally or dies; and when the calls of `remove`
and `rename` succeed, it ends normally, the target path holds the merged
output, the temporary file is gone, and the calls that changed the file
system are one `remove` of the target followed by one `rename` of the
temporary file to the target: the prior target is deleted, not renamed. -/
theorem install_with_backup (w : World) (path temp : List Char) (backup out : List Byte)
    (hb : w.files (backupName path) = some backup) (hbp : backupName path ≠ path)
    (hbt : backupName path ≠ temp) (ho : w.files temp = some out) :
    (install w path temp).2.files (backupName path) = some backup ∧
      ∀ w1 w2, remove w path = some w1 → rename w1 temp path = some w2 →
        install w path temp = (.ok (), w2) ∧ w2.files path = some out ∧
          w2.files temp = none ∧
          w2.calls = w.calls ++ [.removed path, .renamed temp path] := by
  have hi : install w path temp = installFinish true w path temp := by
    simp only [install, hb]
  rw [hi]
  constructor
  · simp only [installFinish, if_true]
    cases h1 : remove w path with
    | none => exact hb
    | some w1 =>
      obtain ⟨c1, -, hf1, -⟩ := remove_some _ _ _ h1
      cases h2 : rename w1 temp path with
      | none =>
        simp only [h2]
        rw [hf1, if_neg hbp, hb]
      | some w2 =>
        obtain ⟨c2, -, hf2, -⟩ := rename_some _ _ _ _ h2
        simp only [h2]
        rw [hf2, if_neg hbp, if_neg hbt, hf1, if_neg hbp, hb]
  · intro w1 w2 h1 h2
    obtain ⟨c1, -, hf1, hcalls1⟩ := remove_some _ _ _ h1
    obtain ⟨c2, hc2, hf2, hcalls2⟩ := rename_some _ _ _ _ h2
    have htp : temp ≠ path := by
      intro h
      rw [hf1, if_pos h] at hc2
      cases hc2
    rw [hf1, if_neg htp, ho] at hc2
    cases hc2
    refine ⟨?_, ?_, ?_, ?_⟩
    · simp only [installFinish, if_true, h1, h2]
    · rw [hf2, if_pos rfl]
    · rw [hf2, if_neg htp, if_pos rfl]
    · rw [hcalls2, hcalls1, List.append_assoc]
      rfl

theorem install_with_backup_witness :
    (install (filesWorld [(demoPath, [1]), (demoBackup, [3]), (demoTemp, [2])] false [])
        demoPath demoTemp).2.files (backupName demoPath) = some [3] ∧
      ∀ w1 w2,
        remove (filesWorld [(demoPath, [1]), (demoBackup, [3]), (demoTemp, [2])] false [])
          demoPath = some w1 →
        rename w1 demoTemp demoPath = some w2 →
        install (filesWorld [(demoPath, [1]), (demoBackup, [3]), (demoTemp, [2])] false [])
            demoPath demoTemp = (.ok (), w2) ∧
          w2.files demoPath = some [2] ∧ w2.files demoTemp = none ∧
          w2.calls = (filesWorld [(demoPath, [1]), (demoBackup, [3]), (demoTemp, [2])] false
            []).calls ++ [.removed demoPath, .renamed demoTemp demoPath] :=
  install_with_backup (filesWorld [(demoPath, [1]), (demoBackup, [3]), (demoTemp, [2])] false [])
    demoPath demoTemp [3] [2] (by decide) (by decide) (by decide) (by decide)

/-- The installation of the closed instance with a backup present: the backup
keeps its content, the target is removed and the merged output installed. -/
theorem install_with_backup_demo :
    (install (filesWorld [(demoPath, [1]), (demoBackup, [3]), (demoTemp, [2])] false [])
        demoPath demoTemp).1 = .ok () ∧
      [demoPath, demoBackup, demoTemp].map (install (filesWorld
        [(demoPath, [1]), (demoBackup, [3]), (demoTemp, [2])] false []) demoPath
        demoTemp).2.files = [some [2], some [3], none] ∧
      (install (filesWorld [(demoPath, [1]), (demoBackup, [3]), (demoTemp, [2])] false [])
        demoPath demoTemp).2.calls = [.removed demoPath, .renamed demoTemp demoPath] := by
  exact ⟨by decide, by decide, by decide⟩

/-- The declined installation of the closed instance, and the same
installation with the answer `y`: the first aborts and leaves the target and
the temporary file, the second removes the target and installs the output. -/
theorem install_declined_demo :
    (install (filesWorld [(demoPath, [1]), (demoTemp, [2])] true ['n', '\n']) demoPath
        demoTemp).1 = .error .aborted ∧
      [demoPath, demoBackup, demoTemp].map (install (filesWorld
        [(demoPath, [1]), (demoTemp, [2])] true ['n', '\n']) demoPath demoTemp).2.files
        = [some [1], none, some [2]] ∧
      (install (filesWorld [(demoPath, [1]), (demoTemp, [2])] true ['n', '\n']) demoPath
        demoTemp).2.calls = [] ∧
      (install (filesWorld [(demoPath, [1]), (demoTemp, [2])] true ['Y', '\n']) demoPath
        demoTemp).1 = .error .renameFailed ∧
      (install (filesWorld [(demoPath, [1]), (demoTemp, [2])] true ['Y', '\n']) demoPath
        demoTemp).2.calls = [.removed demoPath] := by
  exact ⟨by decide, by decide, by decide, by decide, by decide⟩

/-! ## The detection of a self-extracting executable -/

theorem cfread_append (bs tl d : List Byte) (eof : Bool) :
    cfread bs.length ⟨d, bs ++ tl, eof⟩ = .ok (bs, ⟨d ++ bs, tl, eof⟩) := by
  simp [cfread]

/-- A seek to an offset inside the file succeeds. -/
theorem fseek_inside (w : World) (f : FILE) (offset : Nat)
    (h : offset ≤ (f.done ++ f.rest).length) :
    fseek w f offset
      = ⟨(f.done ++ f.rest).take offset, (f.done ++ f.rest).drop offset, false⟩ := by
  unfold fseek
  rw [if_neg (fun hc => by omega)]

theorem fseek_append (w : World) (d rest a b : List Byte) (eof : Bool)
    (h : d ++ rest = a ++ b) : fseek w ⟨d, rest, eof⟩ a.length = ⟨a, b, false⟩ := by
  rw [fseek_inside w _ _ (by simp [h])]
  simp [h]

/-- A seek that the environment does not refuse succeeds. -/
theorem fseek_allowed (w : World) (f : FILE) (offset : Nat) (h : w.seekFails offset = false) :
    fseek w f offset
      = ⟨(f.done ++ f.rest).take offset, (f.done ++ f.rest).drop offset, false⟩ := by
  unfold fseek
  rw [if_neg (fun hc => by rw [h] at hc; exact Bool.false_ne_true hc.2)]

/-- The offset has a value as soon as the product is in the range of `long`,
but for the radix 0, where the shift alone has to be defined. -/
theorem longProduct_some (longBits r e : Nat) (hshift : r = 0 → e < longBits - 1)
    (hrep : r * 2 ^ e < 2 ^ (longBits - 1)) : longProduct longBits r e = some (r * 2 ^ e) := by
  have he : e < longBits - 1 := by
    by_cases hr : r = 0
    · exact hshift hr
    · have h1 : 2 ^ e ≤ r * 2 ^ e := Nat.le_mul_of_pos_left _ (Nat.pos_of_ne_zero hr)
      exact (Nat.pow_lt_pow_iff_right (by norm_num : 1 < 2)).mp (lt_of_le_of_lt h1 hrep)
  simp [longProduct, he, hrep]

/-- C15 (counterexample): two files that start with `MZ` and have the marker
`JD` at offset `0x1c`, with an offset in the range of a `long` of 64 bits.
The first has the radix 1 and the exponent 5 and ends three bytes behind the
offset 32: `checkisselfextr` reports nothing, the program dies of the short
read.  The second has the exponent 62 and the magic number behind the
exponent byte, and `fseek` refuses the offset `2^62`: the four bytes at the
position 32 are read, and the file of 36 bytes is reported as
self-extracting, with no byte at the offset. -/
theorem checkisselfextr_wrapper_counterexample :
    checkisselfextr 64 (filesWorld [(stubPath, stubFile 1 5 [1, 2, 3])] false []) ⟨0, false⟩
        stubPath = .error .shortRead ∧
      checkisselfextr 64 (refusingWorld [(stubPath, stubFile 1 62 magicBytes)] (2 ^ 40))
        ⟨0, false⟩ stubPath = .ok (true, ⟨2 ^ 62, true⟩) ∧
      (stubFile 1 62 magicBytes).length = 36 := by
  exact ⟨by decide, by decide, by decide⟩

/-- C15 (amended): for a file that starts with `MZ`, has the marker `JD` at
offset `0x1c` followed by the radix byte `r` and the exponent byte `e`, with
`r * 2^e` in the range of a `long` (and the shift by `e` defined when `r` is
0).  When the file holds four bytes at the offset `r * 2^e`,
`checkisselfextr` sets `grdofs` to exactly `r * 2^e`, and both its result and
`issfx` say whether the four bytes at that offset, read low byte first, are
the magic number `0x67FB49AD`.  When it holds fewer than four bytes there, and
`fseek` does not refuse the offset, the program dies of the short read. -/
theorem checkisselfextr_wrapper (longBits : Nat) (w : World) (g : Globals) (exe : List Char)
    (content mid tl : List Byte) (r e : Byte)
    (hopen : openExe w exe = some content)
    (hcontent : content = 77 :: 90 :: mid ++ 74 :: 68 :: r :: e :: tl) (hmid : mid.length = 26)
    (hshift : r.val = 0 → e.val < longBits - 1)
    (hrep : r.val * 2 ^ e.val < 2 ^ (longBits - 1)) :
    (r.val * 2 ^ e.val + 4 ≤ content.length →
      checkisselfextr longBits w g exe =
        .ok (decide (le32 ((content.drop (r.val * 2 ^ e.val)).take 4) = GRDmagic),
          { grdofs := r.val * 2 ^ e.val,
            issfx := decide (le32 ((content.drop (r.val * 2 ^ e.val)).take 4) = GRDmagic) })) ∧
      (content.length < r.val * 2 ^ e.val + 4 → w.seekFails (r.val * 2 ^ e.val) = false →
        checkisselfextr longBits w g exe = .error .shortRead) := by
  have h1 : cfread 2 (fopenRead content)
      = .ok ([77, 90], ⟨[77, 90], mid ++ 74 :: 68 :: r :: e :: tl, false⟩) := by
    rw [hcontent]
    exact cfread_append [77, 90] _ [] false
  have h2 : fseek w ⟨[77, 90], mid ++ 74 :: 68 :: r :: e :: tl, false⟩ 0x1c
      = ⟨77 :: 90 :: mid, 74 :: 68 :: r :: e :: tl, false⟩ := by
    have := fseek_append w [77, 90] (mid ++ 74 :: 68 :: r :: e :: tl) (77 :: 90 :: mid)
      (74 :: 68 :: r :: e :: tl) false (by simp)
    simpa [hmid] using this
  have h3 : cfread 2 ⟨77 :: 90 :: mid, 74 :: 68 :: r :: e :: tl, false⟩
      = .ok ([74, 68], ⟨77 :: 90 :: mid ++ [74, 68], r :: e :: tl, false⟩) :=
    cfread_append [74, 68] _ _ false
  have h4 : cfread 1 ⟨77 :: 90 :: mid ++ [74, 68], r :: e :: tl, false⟩
      = .ok ([r], ⟨77 :: 90 :: mid ++ [74, 68] ++ [r], e :: tl, false⟩) :=
    cfread_append [r] _ _ false
  have h5 : cfread 1 ⟨77 :: 90 :: mid ++ [74, 68] ++ [r], e :: tl, false⟩
      = .ok ([e], ⟨77 :: 90 :: mid ++ [74, 68] ++ [r] ++ [e], tl, false⟩) :=
    cfread_append [e] _ _ false
  have hall : (77 :: 90 :: mid ++ [74, 68] ++ [r] ++ [e]) ++ tl = content := by
    simp [hcontent]
  have hstep : ∀ f6, fseek w ⟨77 :: 90 :: mid ++ [74, 68] ++ [r] ++ [e], tl, false⟩
      (r.val * 2 ^ e.val) = f6 →
      checkisselfextr longBits w g exe =
        match cfread 4 f6 with
        | .error e => .error e
        | .ok (magic, _) =>
          .ok (decide (le32 magic = GRDmagic),
            { grdofs := r.val * 2 ^ e.val, issfx := decide (le32 magic = GRDmagic) }) := by
    intro f6 h6
    simp only [checkisselfextr, hopen, h1, ne_eq, not_true_eq_false, if_false, h2, h3, if_true,
      h4, h5, List.headD_cons, longProduct_some _ _ _ hshift hrep, h6]
  constructor
  · intro hlen
    have h6 := fseek_inside w ⟨77 :: 90 :: mid ++ [74, 68] ++ [r] ++ [e], tl, false⟩
      (r.val * 2 ^ e.val) (by simp only [hall]; omega)
    simp only [hall] at h6
    rw [hstep _ h6]
    have h7 : cfread 4 ⟨content.take (r.val * 2 ^ e.val), content.drop (r.val * 2 ^ e.val), false⟩
        = .ok ((content.drop (r.val * 2 ^ e.val)).take 4,
            ⟨content.take (r.val * 2 ^ e.val) ++ (content.drop (r.val * 2 ^ e.val)).take 4,
              (content.drop (r.val * 2 ^ e.val)).drop 4, false⟩) := by
      unfold cfread
      rw [if_pos (by simp only [List.length_drop]; omega)]
    rw [h7]
  · intro hlen hseek
    have h6 := fseek_allowed w ⟨77 :: 90 :: mid ++ [74, 68] ++ [r] ++ [e], tl, false⟩
      (r.val * 2 ^ e.val) hseek
    simp only [hall] at h6
    rw [hstep _ h6]
    have h7 : cfread 4 ⟨content.take (r.val * 2 ^ e.val), content.drop (r.val * 2 ^ e.val), false⟩
        = .error .shortRead := by
      unfold cfread
      rw [if_neg (by simp only [List.length_drop]; omega)]
    rw [h7]

theorem checkisselfextr_wrapper_witness :
    checkisselfextr 64 (filesWorld [(stubPath, stubFile 1 5 magicBytes)] false []) ⟨0, false⟩
      stubPath = .ok (true, ⟨32, true⟩) :=
  (checkisselfextr_wrapper 64 (filesWorld [(stubPath, stubFile 1 5 magicBytes)] false [])
    ⟨0, false⟩ stubPath (stubFile 1 5 magicBytes) (List.replicate 26 0) magicBytes 1 5 rfl rfl rfl
    (by decide) (by decide)).1 (by decide)

/-- Closed instances of `checkisselfextr`: GRD data at offset 32; other bytes
at offset 32; the file found with `.exe` appended, the offset being 3 * 2^4; a
file that ends before the four bytes; and an exponent that a `long` of 32 bits
cannot hold. -/
theorem checkisselfextr_demo :
    checkisselfextr 64 (filesWorld [(stubPath, stubFile 1 5 magicBytes)] false []) ⟨0, false⟩
      stubPath = .ok (true, ⟨32, true⟩) ∧
    checkisselfextr 32 (filesWorld [(stubPath, stubFile 1 5 [1, 2, 3, 4])] false []) ⟨0, false⟩
      stubPath = .ok (false, ⟨32, false⟩) ∧
    checkisselfextr 64 (filesWorld [(stubPath ++ ".exe".toList, stubFile 3 4 (List.replicate 16 9
      ++ magicBytes))] false []) ⟨0, false⟩ stubPath = .ok (true, ⟨48, true⟩) ∧
    checkisselfextr 64 (filesWorld [(stubPath, stubFile 1 5 [1, 2, 3])] false []) ⟨0, false⟩
      stubPath = .error .shortRead ∧
    checkisselfextr 32 (filesWorld [(stubPath, stubFile 1 31 magicBytes)] false []) ⟨0, false⟩
      stubPath = .error .undefinedOffset := by
  exact ⟨by decide, by decide, by decide, by decide, by decide⟩

/-- A file of at least two bytes that does not start with `MZ` is reported as
not self-extracting, and the global variables are left as they were: `grdofs`
is 0 afterwards only if it was 0 before. -/
theorem checkisselfextr_without_signature (longBits : Nat) (w : World) (g : Globals)
    (exe : List Char) (content : List Byte) (hopen : openExe w exe = some content)
    (hlen : 2 ≤ content.length) (hsig : content.take 2 ≠ [77, 90]) :
    checkisselfextr longBits w g exe = .ok (false, g) := by
  have h1 : cfread 2 (fopenRead content)
      = .ok (content.take 2, ⟨content.take 2, content.drop 2, false⟩) := by
    simp [cfread, fopenRead, hlen]
  simp only [checkisselfextr, hopen, h1, ne_eq, hsig, not_false_eq_true, if_true]

/-- C17 (the code at the failing input): the program file has the marker `JD`
with offset 4 and no GRD data, so the first call of `checkisselfextr` leaves
`grdofs` at 4.  The second call, on a GRD file that does not start with `MZ`,
reports no self-extracting executable and leaves `grdofs` at 4, not 0; `main`
then dies with "This is not a GRD file.", while `domerge` with the offset 0
merges the set into `a.grf`. -/
theorem checkisselfextr_keeps_offset :
    checkisselfextr 64 driverWorld ⟨0, false⟩ stubPath = .ok (false, ⟨4, false⟩) ∧
    checkisselfextr 64 driverWorld ⟨4, false⟩ grdPath = .ok (false, ⟨4, false⟩) ∧
    observeFiles (main 64 driverWorld stubPath [grdPath, demoPath]) [demoPath]
      = .error .notGRD ∧
    observeFiles (domerge driverWorld ⟨0, false⟩ grdPath [demoPath]) [demoPath]
      = .ok [some (demoRecord 9 ++ demoRecord 2 ++ [0, 0] ++ [0, 0, 0, 0])] := by
  exact ⟨by decide, by decide, by decide, by decide⟩

/-! ## The loop of `domerge` -/

theorem advanced_refl (g : FILE) : Advanced g g := ⟨[], by simp, by simp⟩

theorem advanced_trans {a b c : FILE} (h1 : Advanced a b) (h2 : Advanced b c) : Advanced a c := by
  obtain ⟨x, hx1, hx2⟩ := h1
  obtain ⟨y, hy1, hy2⟩ := h2
  exact ⟨x ++ y, by rw [hy1, hx1, List.append_assoc], by rw [hx2, hy2, List.append_assoc]⟩

theorem advanced_total {a b : FILE} (h : Advanced a b) :
    b.done ++ b.rest = a.done ++ a.rest ∧ a.done.length ≤ b.done.length := by
  obtain ⟨x, hx1, hx2⟩ := h
  rw [hx1, hx2]
  simp

theorem cfread_advanced (n : Nat) (f f1 : FILE) (bs : List Byte) (h : cfread n f = .ok (bs, f1)) :
    Advanced f f1 ∧ f1.done.length = f.done.length + n := by
  unfold cfread at h
  split at h
  · rename_i hn
    cases h
    exact ⟨⟨f.rest.take n, rfl, by simp⟩, by simp [hn]⟩
  · cases h

theorem copysprite_advanced (src src1 : FILE) (dst dst1 : Sink) (r : Nat)
    (h : copysprite src dst = .ok (r, src1, dst1)) : Advanced src src1 := by
  rcases copysprite_uniform src with ⟨err, he⟩ | ⟨k, bs, tl, h1, h2⟩
  · rw [he] at h
    cases h
  · rw [h2] at h
    cases h
    exact ⟨bs, rfl, h1⟩

theorem drainLoop_advanced (n : Nat) : ∀ (grd grd1 : FILE),
    drainLoop n grd = .ok grd1 → Advanced grd grd1 := by
  induction n with
  | zero =>
    intro grd grd1 h
    cases h
    exact advanced_refl _
  | succ n ih =>
    intro grd grd1 h
    unfold drainLoop at h
    split at h
    · cases h
    · rename_i nb g1 hr
      split at h
      · cases h
      · rename_i r g2 t2 hs
        exact advanced_trans (advanced_trans (cfread_advanced _ _ _ _ hr).1
          (copysprite_advanced _ _ _ _ _ hs)) (ih _ _ h)

theorem skipLoop_advanced (n : Nat) : ∀ (onlyshow : Bool) (st st1 : SkipState),
    skipLoop n onlyshow st = .ok st1 → Advanced st.grd st1.grd := by
  induction n with
  | zero =>
    intro onlyshow st st1 h
    cases h
    exact advanced_refl _
  | succ n ih =>
    intro onlyshow st st1 h
    unfold skipLoop at h
    split at h
    · cases h
    · rename_i nb g1 hr
      dsimp only at h
      split at h
      · cases h
      · rename_i r g2 t2 hs
        exact advanced_trans (advanced_trans (cfread_advanced _ _ _ _ hr).1
          (copysprite_advanced _ _ _ _ _ hs)) (ih _ _ _ h)

theorem mergeEntry_advanced (grfsize : Nat) (st st1 : MergeState)
    (h : mergeEntry grfsize st = .ok st1) : Advanced st.grd st1.grd := by
  unfold mergeEntry at h
  split at h
  · cases h
  · rename_i nb g1 hr
    split at h
    · cases h
    · rename_i st2 hcatch
      have hg2 : st2.grd = g1 := catchUp_grd _ _ _ _ _ hcatch
      split at h
      · cases h
      · split at h
        · cases h
        · rename_i r3 g3 t3 hcopy
          split at h
          · cases h
          · cases h
            rw [hg2] at hcopy
            exact advanced_trans (cfread_advanced _ _ _ _ hr).1
              (copysprite_advanced _ _ _ _ _ hcopy)

theorem mergeLoop_advanced (n : Nat) : ∀ (grfsize : Nat) (st st1 : MergeState),
    mergeLoop n grfsize st = .ok st1 → Advanced st.grd st1.grd := by
  induction n with
  | zero =>
    intro grfsize st st1 h
    cases h
    exact advanced_refl _
  | succ n ih =>
    intro grfsize st st1 h
    unfold mergeLoop at h
    split at h
    · cases h
    · rename_i st2 he
      exact advanced_trans (mergeEntry_advanced _ _ _ he) (ih _ _ _ h)

theorem mergeStreams_advanced (n grfsize : Nat) (grd grf : FILE) (st : MergeState)
    (h : mergeStreams n grfsize grd grf = .ok st) : Advanced grd st.grd := by
  unfold mergeStreams at h
  split at h
  · cases h
  · rename_i st1 hloop
    have h1 := mergeLoop_advanced _ _ _ _ hloop
    split at h
    · cases h
    · rename_i st2 hrest
      have h2 := copyRest_grd _ _ _ _ hrest
      split at h
      · cases h
      · cases h
        show Advanced grd st2.grd
        rw [h2]
        exact h1

theorem mergeInto_advanced (w w1 : World) (n : Nat) (grd grd1 : FILE) (path : List Char)
    (h : mergeInto w n grd path = .ok (w1, grd1)) : Advanced grd grd1 := by
  unfold mergeInto at h
  split at h
  · split at h
    · cases h
    · rename_i st hs
      cases h
      exact skipLoop_advanced _ _ _ _ hs
  · dsimp only at h
    split at h
    · cases h
    · split at h
      · cases h
      · rename_i st hs
        split at h
        · cases h
        · cases h
          exact mergeStreams_advanced _ _ _ _ _ hs

theorem readHeader_advanced (grd grd1 : FILE) (n : Nat) (name : List Char)
    (h : readHeader grd = .ok (n, name, grd1)) :
    Advanced grd grd1 := by
  unfold readHeader at h
  split at h
  · cases h
  · rename_i vb g1 h1
    split at h
    · cases h
    · split at h
      · cases h
      · rename_i nb g2 h2
        split at h
        · cases h
        · rename_i lb g3 h3
          dsimp only at h
          split at h
          · cases h
          · split at h
            · cases h
            · split at h
              · cases h
              · rename_i nm g4 h4
                cases h
                exact advanced_trans (advanced_trans (advanced_trans
                  (cfread_advanced _ _ _ _ h1).1 (cfread_advanced _ _ _ _ h2).1)
                  (cfread_advanced _ _ _ _ h3).1) (cfread_advanced _ _ _ _ h4).1

theorem mergesetBody_advanced (w w1 : World) (n : Nat) (name : List Char) (grd grd1 : FILE)
    (grffile : Option (List Char)) (h : mergesetBody w n name grd grffile = .ok (w1, grd1)) :
    Advanced grd grd1 := by
  unfold mergesetBody at h
  split at h
  · dsimp only at h
    split at h
    · cases h
    · rename_i st hs
      cases h
      exact skipLoop_advanced _ _ _ _ hs
  · split at h
    · split at h
      · dsimp only at h
        split at h
        · exact mergeInto_advanced _ _ _ _ _ _ h
        · split at h
          · cases h
          · rename_i g1 hd
            cases h
            exact drainLoop_advanced _ _ _ hd
      · exact mergeInto_advanced _ _ _ _ _ _ h
    · exact mergeInto_advanced _ _ _ _ _ _ h

/-- Every return of `mergeset` leaves the GRD stream at a later position of
the same file. -/
theorem mergeset_advanced (w w1 : World) (grd grd1 : FILE) (grffile : Option (List Char))
    (h : mergeset w grd grffile = .ok (w1, grd1)) : Advanced grd grd1 := by
  unfold mergeset at h
  split at h
  · cases h
  · rename_i n name g1 hh
    exact advanced_trans (readHeader_advanced _ _ _ _ hh) (mergesetBody_advanced _ _ _ _ _ _ _ h)

theorem fseek_total (w : World) (f : FILE) (offset : Nat) :
    (fseek w f offset).done ++ (fseek w f offset).rest = f.done ++ f.rest := by
  unfold fseek
  split
  · rfl
  · simp

theorem fseek_ftell (w : World) (g : FILE) : fseek w g (ftell g) = ⟨g.done, g.rest, false⟩ := by
  rw [fseek_inside w g (ftell g) (by simp [ftell])]
  simp [ftell]

theorem domergeLoop_no_hang (fuel : Nat) : ∀ (w : World) (grd : FILE) (grdofs : Nat)
    (first : Bool) (args : List (List Char)), grdofs ≤ (grd.done ++ grd.rest).length →
    (grd.done ++ grd.rest).length < fuel + grdofs →
    domergeLoop fuel w grd grdofs first args ≠ .error .hang := by
  induction fuel with
  | zero =>
    intro w grd grdofs first args h1 h2
    omega
  | succ fuel ih =>
    intro w grd grdofs first args hin h
    unfold domergeLoop
    split
    · simp
    · cases hr : cfread 4 (fseek w grd grdofs) with
      | error err =>
        rw [cfread_fault _ _ _ hr]
        simp
      | ok res =>
        obtain ⟨magic, grd1⟩ := res
        obtain ⟨ha, hl⟩ := cfread_advanced _ _ _ _ hr
        dsimp only
        split
        · split <;> simp
        · cases hm : mergeset w grd1 args.head? with
          | error err =>
            have := mergeset_no_hang w grd1 args.head?
            rw [hm] at this
            simpa using this
          | ok res2 =>
            obtain ⟨w1, grd2⟩ := res2
            dsimp only
            obtain ⟨ht1, hl1⟩ := advanced_total (mergeset_advanced _ _ _ _ _ hm)
            obtain ⟨ht0, -⟩ := advanced_total ha
            have e1 := fseek_total w grd grdofs
            have e2 : (fseek w grd grdofs).done.length = grdofs := by
              rw [fseek_inside w grd grdofs hin]
              simp only [List.length_take]
              omega
            have e3 : (grd2.done ++ grd2.rest).length = (grd.done ++ grd.rest).length := by
              rw [ht1, ht0, e1]
            have e4 : grd2.done.length ≤ (grd2.done ++ grd2.rest).length := by simp
            apply ih
            · exact e4
            · rw [e3]
              unfold ftell
              omega

theorem domerge_no_hang (w : World) (g : Globals) (grdfile : List Char)
    (args : List (List Char)) : domerge w g grdfile args ≠ .error .hang := by
  unfold domerge
  split
  · simp
  · rename_i content _
    unfold domergeLoop
    rw [if_neg (by simp [fopenRead])]
    cases hr : cfread 4 (fseek w (fopenRead content) g.grdofs) with
    | error err =>
      rw [cfread_fault _ _ _ hr]
      simp
    | ok res =>
      obtain ⟨magic, grd1⟩ := res
      obtain ⟨ha, hl⟩ := cfread_advanced _ _ _ _ hr
      dsimp only
      split
      · split <;> simp
      · cases hm : mergeset w grd1 args.head? with
        | error err =>
          have := mergeset_no_hang w grd1 args.head?
          rw [hm] at this
          simpa using this
        | ok res2 =>
          obtain ⟨w1, grd2⟩ := res2
          dsimp only
          obtain ⟨ht1, hl1⟩ := advanced_total (mergeset_advanced _ _ _ _ _ hm)
          obtain ⟨ht0, -⟩ := advanced_total ha
          have e1 := fseek_total w (fopenRead content) g.grdofs
          have e3 : (grd2.done ++ grd2.rest).length = content.length := by
            rw [ht1, ht0, e1]
            simp [fopenRead]
          have e4 : grd2.done.length ≤ (grd2.done ++ grd2.rest).length := by simp
          apply domergeLoop_no_hang
          · exact e4
          · rw [e3]
            unfold ftell
            omega

/-- One pass of the loop of `domerge` that finds the magic number at the
position of the stream: the set is merged, and the next pass starts at the
position at which `mergeset` left the stream. -/
theorem domergeLoop_resume (fuel : Nat) (w w1 : World) (grd grd2 : FILE) (first : Bool)
    (args : List (List Char)) (tl : List Byte) (heof : grd.eof = false)
    (hrest : grd.rest = magicBytes ++ tl)
    (hm : mergeset w ⟨grd.done ++ magicBytes, tl, false⟩ args.head? = .ok (w1, grd2)) :
    domergeLoop (fuel + 1) w grd (ftell grd) first args
      = domergeLoop fuel w1 grd2 (ftell grd2) false args.tail := by
  have h1 : cfread 4 ⟨grd.done, magicBytes ++ tl, false⟩
      = .ok (magicBytes, ⟨grd.done ++ magicBytes, tl, false⟩) := cfread_append magicBytes _ _ _
  have h2 : le32 magicBytes = GRDmagic := by decide
  simp only [domergeLoop, heof, Bool.false_eq_true, if_false, fseek_ftell, hrest, h1, h2, ne_eq,
    not_true_eq_false, hm]

/-- One pass of the loop of `domerge` that reads four other bytes than the
magic number: the program dies in the first pass, and the loop ends in a
later one. -/
theorem domergeLoop_mismatch (fuel : Nat) (w : World) (grd : FILE) (grdofs : Nat) (first : Bool)
    (args : List (List Char)) (heof : grd.eof = false)
    (hlen : grdofs + 4 ≤ (grd.done ++ grd.rest).length)
    (hne : le32 (((grd.done ++ grd.rest).drop grdofs).take 4) ≠ GRDmagic) :
    domergeLoop (fuel + 1) w grd grdofs first args
      = if first then .error .notGRD else .ok w := by
  have h1 : cfread 4 (fseek w grd grdofs) = .ok (((grd.done ++ grd.rest).drop grdofs).take 4,
      ⟨(grd.done ++ grd.rest).take grdofs ++ ((grd.done ++ grd.rest).drop grdofs).take 4,
        ((grd.done ++ grd.rest).drop grdofs).drop 4, false⟩) := by
    rw [fseek_inside w grd grdofs (by omega)]
    unfold cfread
    rw [if_pos (by simp only [List.length_drop]; omega)]
  simp only [domergeLoop, heof, Bool.false_eq_true, if_false, h1, ne_eq, hne, not_false_eq_true,
    if_true]

/-- The loop of `domerge` uses its stream only through the end-of-file
indicator and through the stream that `fseek` makes of it. -/
theorem domergeLoop_seek (fuel : Nat) (w : World) (grd grd1 : FILE) (grdofs ofs1 : Nat)
    (first : Bool) (args : List (List Char)) (heof : grd.eof = grd1.eof)
    (hseek : fseek w grd grdofs = fseek w grd1 ofs1) :
    domergeLoop (fuel + 1) w grd grdofs first args
      = domergeLoop (fuel + 1) w grd1 ofs1 first args := by
  simp only [domergeLoop, heof, hseek]

/-- The loop of `domerge` on sets that stand one behind the other, followed
by four bytes that are not the magic number: all the sets are merged, each
from the position at which the set in front of it ended, and the loop ends
normally. -/
theorem domergeLoop_merges (w wk : World) (grd grdk : FILE) (args : List (List Char))
    (h : Merges w grd args wk grdk) :
    ∀ (fuel : Nat) (first : Bool) (m tl : List Byte), grdk.eof = false →
      grdk.rest = m ++ tl → m.length = 4 → le32 m ≠ GRDmagic →
      (grd.done ++ grd.rest).length < fuel + ftell grd →
      domergeLoop fuel w grd (ftell grd) first args = .ok wk := by
  induction h with
  | last w w1 grd grd1 args tl0 heof hrest hm =>
    intro fuel first m tl hkeof hkrest hmlen hne hfuel
    obtain ⟨ht, hl⟩ := advanced_total (mergeset_advanced _ _ _ _ _ hm)
    have hlen : (grd.done ++ grd.rest).length = grd1.done.length + 4 + tl.length := by
      have := congrArg List.length ht
      simp only [List.length_append, hkrest, hrest] at this ⊢
      omega
    have hl2 : grd.done.length + 4 ≤ grd1.done.length := by
      simpa [magicBytes] using hl
    unfold ftell at hfuel
    obtain ⟨f, rfl⟩ : ∃ f, fuel = f + 1 + 1 := ⟨fuel - 2, by omega⟩
    rw [domergeLoop_resume (f + 1) w w1 grd grd1 first args tl0 heof hrest hm]
    have h := domergeLoop_mismatch f w1 grd1 (ftell grd1) false args.tail hkeof
      (by simp [ftell, hkrest]; omega)
      (by simpa [ftell, hkrest, List.take_append_of_le_length, hmlen.symm] using hne)
    simpa using h
  | next w w1 w2 grd grd1 grd2 args tl0 heof hrest hm _ ih =>
    intro fuel first m tl hkeof hkrest hmlen hne hfuel
    obtain ⟨ht, hl⟩ := advanced_total (mergeset_advanced _ _ _ _ _ hm)
    have hlen : (grd1.done ++ grd1.rest).length = (grd.done ++ grd.rest).length := by
      have := congrArg List.length ht
      simp only [List.length_append, hrest] at this ⊢
      omega
    have hl2 : grd.done.length + 4 ≤ grd1.done.length := by
      simpa [magicBytes] using hl
    unfold ftell at hfuel
    obtain ⟨f, rfl⟩ : ∃ f, fuel = f + 1 := ⟨fuel - 1, by
      have : grd.done.length ≤ (grd.done ++ grd.rest).length := by simp
      omega⟩
    rw [domergeLoop_resume f w w1 grd grd1 first args tl0 heof hrest hm]
    exact ih f false m tl hkeof hkrest hmlen hne (by rw [hlen]; unfold ftell; omega)

/-- C16: the rule of the loop of `domerge` for a GRD file that can be opened.
When the four bytes at the starting offset are not the magic number
`0x67FB49AD`, `domerge` dies with "This is not a GRD file." before any set is
processed.  When any number of sets, at least one, stand one behind the other
from the starting offset on, each with the magic number in front of it and
each merged by `mergeset` from the position at which the set in front of it
ended, and `mergeset` leaves the stream of the last one in front of four bytes
that are not the magic number, `domerge` ends normally with the world that the
last call of `mergeset` left.  In every pass that finds the magic number, the
next pass starts at the position at which `mergeset` left the stream; in every
pass but the first, four bytes that are not the magic number end the loop
normally.  The loop never runs out of the iterations that the model gives
it. -/
theorem domerge_termination_rule (w : World) (g : Globals) (grdfile : List Char)
    (args : List (List Char)) (content : List Byte) (hfile : w.files grdfile = some content) :
    (g.grdofs + 4 ≤ content.length →
        le32 ((content.drop g.grdofs).take 4) ≠ GRDmagic →
        domerge w g grdfile args = .error .notGRD) ∧
      (∀ pre rest wk grdk m tl, content = pre ++ rest → pre.length = g.grdofs →
        Merges w ⟨pre, rest, false⟩ args wk grdk →
        grdk.eof = false → grdk.rest = m ++ tl → m.length = 4 → le32 m ≠ GRDmagic →
        domerge w g grdfile args = .ok wk) ∧
      (∀ fuel w0 w1 grd grd2 first rest tl, grd.eof = false → grd.rest = magicBytes ++ tl →
        mergeset w0 ⟨grd.done ++ magicBytes, tl, false⟩ rest.head? = .ok (w1, grd2) →
        domergeLoop (fuel + 1) w0 grd (ftell grd) first rest
          = domergeLoop fuel w1 grd2 (ftell grd2) false rest.tail) ∧
      (∀ fuel w0 grd rest m tl, grd.eof = false → grd.rest = m ++ tl → m.length = 4 →
        le32 m ≠ GRDmagic →
        domergeLoop (fuel + 1) w0 grd (ftell grd) false rest = .ok w0) ∧
      domerge w g grdfile args ≠ .error .hang := by
  refine ⟨?_, ?_, ?_, ?_, domerge_no_hang w g grdfile args⟩
  · intro hlen hne
    have h := domergeLoop_mismatch content.length w (fopenRead content) g.grdofs true args rfl
      (by simpa [fopenRead] using hlen) (by simpa [fopenRead] using hne)
    simpa [domerge, hfile] using h
  · intro pre rest wk grdk m tl hcontent hpre hmerges hkeof hkrest hmlen hne
    subst hcontent
    have hs : fseek w (fopenRead (pre ++ rest)) g.grdofs
        = fseek w ⟨pre, rest, false⟩ (ftell ⟨pre, rest, false⟩) := by
      rw [fseek_ftell, ← hpre]
      exact fseek_append w [] _ pre rest false (by simp)
    simp only [domerge, hfile]
    rw [domergeLoop_seek _ w (fopenRead (pre ++ rest)) ⟨pre, rest, false⟩ g.grdofs
      (ftell ⟨pre, rest, false⟩) true args rfl hs]
    exact domergeLoop_merges w wk ⟨pre, rest, false⟩ grdk args hmerges _ true m tl hkeof hkrest
      hmlen hne (by simp [ftell]; omega)
  · intro fuel w0 w1 grd grd2 first rest tl heof hrest hm
    exact domergeLoop_resume fuel w0 w1 grd grd2 first rest tl heof hrest hm
  · intro fuel w0 grd rest m tl heof hrest hmlen hne
    have h := domergeLoop_mismatch fuel w0 grd (ftell grd) false rest heof
      (by simp [ftell, hrest]; omega)
      (by simpa [ftell, hrest, List.take_append_of_le_length, hmlen.symm] using hne)
    simpa using h


theorem domerge_termination_rule_witness :
    ∃ wk, domerge threeSetWorld ⟨0, false⟩ grdPath [demoPath] = .ok wk ∧
      wk.files demoPath = some (demoRecord 7 ++ demoRecord 8 ++ [0, 0] ++ [0, 0, 0, 0]) ∧
      wk.files demoBackup = some (demoRecord 1 ++ demoRecord 2 ++ [0, 0]) := by
  refine ⟨_, (domerge_termination_rule threeSetWorld ⟨0, false⟩ grdPath [demoPath] _ rfl).2.1
    [] _ _ _ [0, 0, 0, 0] [] rfl rfl
    (Merges.next _ _ _ _ _ _ _ _ rfl rfl rfl
      (Merges.next _ _ _ _ _ _ _ _ rfl rfl rfl
        (Merges.last _ _ _ _ _ _ rfl rfl rfl))) rfl rfl rfl (by decide), ?_, ?_⟩
  · decide
  · decide

/-- Closed instances of `domerge`: a GRD file with two sets and one with three
sets, all merged into `a.grf`, each into the result of the set before; a file
with one set; and the same file read from the offsets 4 and 17, where other
bytes stand, and 18, where fewer than four bytes are left. -/
theorem domerge_demo :
    observeFiles (domerge threeSetWorld ⟨0, false⟩ grdPath [demoPath]) [demoPath, demoBackup]
      = .ok [some (demoRecord 7 ++ demoRecord 8 ++ [0, 0] ++ [0, 0, 0, 0]),
          some (demoRecord 1 ++ demoRecord 2 ++ [0, 0])] ∧
    observeFiles (domerge twoSetWorld ⟨0, false⟩ grdPath [demoPath]) [demoPath, demoBackup]
      = .ok [some (demoRecord 9 ++ demoRecord 8 ++ [0, 0] ++ [0, 0, 0, 0]),
          some (demoRecord 1 ++ demoRecord 2 ++ [0, 0])] ∧
    observeFiles (domerge driverWorld ⟨0, false⟩ grdPath [demoPath]) [demoPath, demoBackup]
      = .ok [some (demoRecord 9 ++ demoRecord 2 ++ [0, 0] ++ [0, 0, 0, 0]),
          some (demoRecord 1 ++ demoRecord 2 ++ [0, 0])] ∧
    observeFiles (domerge driverWorld ⟨4, false⟩ grdPath [demoPath]) [demoPath, demoBackup]
      = .error .notGRD ∧
    observeFiles (domerge driverWorld ⟨17, false⟩ grdPath [demoPath]) [demoPath, demoBackup]
      = .error .notGRD ∧
    observeFiles (domerge driverWorld ⟨18, false⟩ grdPath [demoPath]) [demoPath, demoBackup]
      = .error .shortRead := by
  exact ⟨by decide, by decide, by decide, by decide, by decide, by decide⟩

/-! ## The name of the backup -/

theorem baseName_drop (p : List Char) : ∃ k, baseName p = p.drop k := by
  unfold baseName
  split
  · exact ⟨_, rfl⟩
  · split
    · exact ⟨_, rfl⟩
    · exact ⟨0, rfl⟩

theorem strrchr_append (d f : List Char) (c : Char) (h : c ∈ f) :
    strrchr (d ++ f) c = (strrchr f c).map (fun k => d.length + k) := by
  have h1 : c ∈ d ++ f := List.mem_append_right _ h
  have h2 : c ∈ f.reverse := List.mem_reverse.mpr h
  have h3 : f.reverse.indexOf c < f.length := by
    rw [← List.length_reverse f]
    exact List.indexOf_lt_length.mpr h2
  simp only [strrchr, h1, h, if_true, List.reverse_append, List.indexOf_append_of_mem h2,
    List.length_append, Option.map_some', Option.some.injEq]
  omega

/-- The computed backup path is the one the specification describes whenever
the file name has a dot, or the path has none at all. -/
theorem backupName_eq_spec (p : List Char) (h : '.' ∈ baseName p ∨ '.' ∉ p) :
    backupName p = backupNameSpec p := by
  obtain ⟨d, f, hp, hf⟩ : ∃ d f, p = d ++ f ∧ baseName p = f := by
    obtain ⟨k, hk⟩ := baseName_drop p
    exact ⟨p.take k, baseName p, by rw [hk, List.take_append_drop], rfl⟩
  unfold backupNameSpec backupName
  rw [hf] at h ⊢
  subst hp
  have hdir : (d ++ f).take ((d ++ f).length - f.length) = d := by simp
  rw [hdir]
  rcases h with h | h
  · have hsome : strrchr f '.' = some (f.length - 1 - f.reverse.indexOf '.') := by
      simp [strrchr, h]
    rw [strrchr_append d f '.' h, hsome]
    simp only [Option.map_some']
    rw [List.take_append]
  · have h1 : strrchr (d ++ f) '.' = none := by simp [strrchr, h]
    have h2 : '.' ∉ f := fun hm => h (List.mem_append_right _ hm)
    have h3 : strrchr f '.' = none := by simp [strrchr, h2]
    rw [h1, h3]

/-- C18 (the code at the failing input): for the path `dir.v2\foo`, whose file
name has no dot and whose directory has one, the code cuts the path at the dot
of the directory: the backup path is `dir.bak`, not `dir.v2\foo.bak`, and the
installation renames the target to `dir.bak`. -/
theorem backupName_in_dotted_directory :
    backupName dottedDirPath = "dir.bak".toList ∧
      backupNameSpec dottedDirPath = dottedDirPath ++ ".bak".toList ∧
      (install (filesWorld [(dottedDirPath, [1]), (demoTemp, [2])] false []) dottedDirPath
        demoTemp).2.calls
        = [.renamed dottedDirPath "dir.bak".toList, .renamed demoTemp dottedDirPath] := by
  exact ⟨by decide, by decide, by decide⟩

/-! ## The divisor of `showpct` -/

/-- While the GRF stream has no more bytes left than `grfsize`, the catching
up never divides by zero: every call of `showpct` follows a call of
`copysprite` that took at least two bytes of the stream. -/
theorem catchUp_no_div (fuel : Nat) : ∀ (grfsize spriteno : Nat) (st : MergeState),
    st.grf.eof = false → st.grf.rest.length ≤ grfsize →
    catchUp fuel grfsize spriteno st ≠ .error .divideByZero ∧
      ∀ st1, catchUp fuel grfsize spriteno st = .ok st1 →
        st1.grf.eof = false ∧ st1.grf.rest.length ≤ grfsize := by
  induction fuel with
  | zero =>
    intro grfsize spriteno st hclear hle
    unfold catchUp
    split
    · exact ⟨by simp, fun st1 h => by cases h⟩
    · exact ⟨by simp, fun st1 h => by cases h; exact ⟨hclear, hle⟩⟩
  | succ fuel ih =>
    intro grfsize spriteno st hclear hle
    unfold catchUp
    split
    · cases hcs : copysprite st.grf st.tmp with
      | error err =>
        refine ⟨?_, fun st1 h => by cases h⟩
        rcases copysprite_fault _ _ _ hcs with rfl | rfl <;> simp
      | ok res =>
        obtain ⟨r, grf1, tmp1⟩ := res
        obtain ⟨h1, h2, _⟩ := copysprite_progress _ _ _ _ _ hclear hcs
        dsimp only
        obtain ⟨p, hp⟩ := showpct_ok (ftell grf1) grfsize st.lastpct (by omega)
        rw [hp]
        dsimp only
        exact ih grfsize spriteno _ h1 (by dsimp only; omega)
    · exact ⟨by simp, fun st1 h => by cases h; exact ⟨hclear, hle⟩⟩

theorem mergeEntry_no_div (grfsize : Nat) (st : MergeState) (hclear : st.grf.eof = false)
    (hle : st.grf.rest.length ≤ grfsize) :
    mergeEntry grfsize st ≠ .error .divideByZero ∧
      ∀ st1, mergeEntry grfsize st = .ok st1 →
        st1.grf.eof = false ∧ st1.grf.rest.length ≤ grfsize := by
  unfold mergeEntry
  cases hr : cfread 2 st.grd with
  | error err =>
    rw [cfread_fault _ _ _ hr]
    exact ⟨by simp, fun st1 h => by cases h⟩
  | ok res =>
    obtain ⟨nb, grd1⟩ := res
    dsimp only
    obtain ⟨hc1, hc2⟩ := catchUp_no_div (st.grf.rest.length + 65536) grfsize (le16 nb)
      { st with grd := grd1 } hclear hle
    cases hcatch : catchUp (st.grf.rest.length + 65536) grfsize (le16 nb) { st with grd := grd1 } with
    | error err =>
      rw [hcatch] at hc1
      exact ⟨by simpa using hc1, fun st1 h => by cases h⟩
    | ok st1 =>
      obtain ⟨h2, h3⟩ := hc2 st1 hcatch
      dsimp only
      cases hskip : skipsprite st1.grf with
      | error err =>
        refine ⟨?_, fun st1 h => by cases h⟩
        rcases copysprite_fault _ _ _ hskip with rfl | rfl <;> simp
      | ok res2 =>
        obtain ⟨r, grf2, tmp2⟩ := res2
        obtain ⟨h4, h5, _⟩ := copysprite_progress _ _ _ _ _ h2 hskip
        dsimp only
        cases hcopy : copysprite st1.grd st1.tmp with
        | error err =>
          refine ⟨?_, fun st1 h => by cases h⟩
          rcases copysprite_fault _ _ _ hcopy with rfl | rfl <;> simp
        | ok res3 =>
          obtain ⟨r3, grd2, tmp3⟩ := res3
          dsimp only
          obtain ⟨p, hp⟩ := showpct_ok (ftell grf2) grfsize st1.lastpct (by omega)
          rw [hp]
          exact ⟨by simp, fun st2 h => by cases h; exact ⟨h4, by dsimp only; omega⟩⟩

theorem mergeLoop_no_div (n : Nat) : ∀ (grfsize : Nat) (st : MergeState),
    st.grf.eof = false → st.grf.rest.length ≤ grfsize →
    mergeLoop n grfsize st ≠ .error .divideByZero ∧
      ∀ st1, mergeLoop n grfsize st = .ok st1 →
        st1.grf.eof = false ∧ st1.grf.rest.length ≤ grfsize := by
  induction n with
  | zero =>
    intro grfsize st hclear hle
    refine ⟨by simp [mergeLoop], fun st1 h => ?_⟩
    simp only [mergeLoop, Except.ok.injEq] at h
    subst h
    exact ⟨hclear, hle⟩
  | succ n ih =>
    intro grfsize st hclear hle
    unfold mergeLoop
    obtain ⟨h1, h2⟩ := mergeEntry_no_div grfsize st hclear hle
    cases he : mergeEntry grfsize st with
    | error err =>
      rw [he] at h1
      exact ⟨by simpa using h1, fun st1 h => by cases h⟩
    | ok st2 =>
      obtain ⟨h3, h4⟩ := h2 st2 he
      exact ih grfsize st2 h3 h4

theorem copyRest_no_div (fuel : Nat) : ∀ (grfsize : Nat) (st : MergeState),
    st.grf.eof = false → st.grf.rest.length ≤ grfsize →
    copyRest fuel grfsize st ≠ .error .divideByZero ∧
      ∀ st1, copyRest fuel grfsize st = .ok st1 → 2 ≤ grfsize := by
  induction fuel with
  | zero =>
    intro grfsize st _ _
    exact ⟨by simp [copyRest], fun st1 h => by cases h⟩
  | succ fuel ih =>
    intro grfsize st hclear hle
    unfold copyRest
    cases hcs : copysprite st.grf st.tmp with
    | error err =>
      refine ⟨?_, fun st1 h => by cases h⟩
      rcases copysprite_fault _ _ _ hcs with rfl | rfl <;> simp
    | ok res =>
      obtain ⟨r, grf1, tmp1⟩ := res
      obtain ⟨h1, h2, _⟩ := copysprite_progress _ _ _ _ _ hclear hcs
      dsimp only
      by_cases hr : r ≠ 0
      · rw [if_pos hr]
        obtain ⟨p, hp⟩ := showpct_ok (ftell grf1) grfsize st.lastpct (by omega)
        rw [hp]
        dsimp only
        exact ⟨(ih grfsize _ h1 (by dsimp only; omega)).1, fun _ _ => by omega⟩
      · rw [if_neg hr]
        exact ⟨by simp, fun _ _ => by omega⟩

theorem mergeStreams_no_div (n : Nat) (grd : FILE) (content : List Byte) :
    mergeStreams n content.length grd (fopenRead content) ≠ .error .divideByZero := by
  unfold mergeStreams
  obtain ⟨h1, h2⟩ := mergeLoop_no_div n content.length ⟨grd, fopenRead content, some [], 0, -1⟩
    rfl (le_refl _)
  cases hl : mergeLoop n content.length ⟨grd, fopenRead content, some [], 0, -1⟩ with
  | error err =>
    rw [hl] at h1
    simpa using h1
  | ok st =>
    obtain ⟨h3, h4⟩ := h2 st hl
    dsimp only
    obtain ⟨h5, h6⟩ := copyRest_no_div (st.grf.rest.length + 1) content.length st h3 h4
    cases hr : copyRest (st.grf.rest.length + 1) content.length st with
    | error err =>
      rw [hr] at h5
      simpa using h5
    | ok st1 =>
      dsimp only
      obtain ⟨p, hp⟩ := showpct_ok content.length content.length st1.lastpct
        (by have := h6 st1 hr; omega)
      rw [hp]
      simp

theorem skipLoop_no_div (n : Nat) : ∀ (onlyshow : Bool) (st : SkipState),
    skipLoop n onlyshow st ≠ .error .divideByZero := by
  induction n with
  | zero =>
    intro onlyshow st
    simp [skipLoop]
  | succ n ih =>
    intro onlyshow st
    unfold skipLoop
    cases hr : cfread 2 st.grd with
    | error err =>
      rw [cfread_fault _ _ _ hr]
      simp
    | ok res =>
      obtain ⟨nb, grd1⟩ := res
      simp only
      cases hs : skipsprite grd1 with
      | error err =>
        rcases copysprite_fault _ _ _ hs with rfl | rfl <;> simp
      | ok res2 =>
        obtain ⟨r, grd2, tmp2⟩ := res2
        exact ih _ _

theorem drainLoop_no_div (n : Nat) : ∀ (grd : FILE), drainLoop n grd ≠ .error .divideByZero := by
  induction n with
  | zero =>
    intro grd
    simp [drainLoop]
  | succ n ih =>
    intro grd
    unfold drainLoop
    cases hr : cfread 2 grd with
    | error err =>
      rw [cfread_fault _ _ _ hr]
      simp
    | ok res =>
      obtain ⟨nb, grd1⟩ := res
      simp only
      cases hs : skipsprite grd1 with
      | error err =>
        rcases copysprite_fault _ _ _ hs with rfl | rfl <;> simp
      | ok res2 =>
        obtain ⟨r, grd2, tmp2⟩ := res2
        exact ih _

theorem installFinish_no_div (delete : Bool) (w : World) (grffile tempfile : List Char) :
    (installFinish delete w grffile tempfile).1 ≠ .error .divideByZero := by
  unfold installFinish
  dsimp only
  split
  · simp
  · split <;> simp

theorem install_no_div (w : World) (grffile tempfile : List Char) :
    (install w grffile tempfile).1 ≠ .error .divideByZero := by
  unfold install
  dsimp only
  split
  · split
    · exact installFinish_no_div _ _ _ _
    · split
      · split
        · exact installFinish_no_div _ _ _ _
        · simp
      · exact installFinish_no_div _ _ _ _
  · exact installFinish_no_div _ _ _ _

theorem mergeInto_no_div (w : World) (n : Nat) (grd : FILE) (path : List Char) :
    mergeInto w n grd path ≠ .error .divideByZero := by
  unfold mergeInto
  split
  · have h := skipLoop_no_div n false ⟨grd, -2, -2, w.listing⟩
    cases hs : skipLoop n false ⟨grd, -2, -2, w.listing⟩ with
    | error err =>
      rw [hs] at h
      simpa using h
    | ok st => simp
  · rename_i content _
    dsimp only
    split
    · simp
    · have h := mergeStreams_no_div n grd content
      cases hs : mergeStreams n content.length grd (fopenRead content) with
      | error err =>
        rw [hs] at h
        simpa using h
      | ok st =>
        simp only
        have hi := install_no_div
          { w with files := fun p => if p = tempfileName path then some (st.tmp.getD []) else w.files p }
          path (tempfileName path)
        split
        · rename_i e w3 heq
          rw [heq] at hi
          simpa using hi
        · simp


theorem readHeader_no_div (grd : FILE) : readHeader grd ≠ .error .divideByZero := by
  unfold readHeader
  cases h1 : cfread 2 grd with
  | error err =>
    rw [cfread_fault _ _ _ h1]
    simp
  | ok r1 =>
    obtain ⟨vb, grd1⟩ := r1
    simp only
    split
    · simp
    · cases h2 : cfread 2 grd1 with
      | error err =>
        rw [cfread_fault _ _ _ h2]
        simp
      | ok r2 =>
        obtain ⟨nb, grd2⟩ := r2
        simp only
        cases h3 : cfread 1 grd2 with
        | error err =>
          rw [cfread_fault _ _ _ h3]
          simp
        | ok r3 =>
          obtain ⟨lb, grd3⟩ := r3
          simp only
          split
          · simp
          · split
            · simp
            · cases h4 : cfread (lb.headD 0).val grd3 with
              | error err =>
                rw [cfread_fault _ _ _ h4]
                simp
              | ok r4 => simp

/-- No call of `showpct` made by `mergeset` has the divisor 0. -/
theorem mergeset_no_div (w : World) (grd : FILE) (grffile : Option (List Char)) :
    mergeset w grd grffile ≠ .error .divideByZero := by
  unfold mergeset
  have hh := readHeader_no_div grd
  cases hr : readHeader grd with
  | error err =>
    rw [hr] at hh
    simpa using hh
  | ok res =>
    obtain ⟨n, name, grd1⟩ := res
    simp only
    unfold mergesetBody
    split
    · dsimp only
      have h := skipLoop_no_div n true ⟨grd1, -2, -2,
        w.listing ++ "Generated from: ".toList ++ name ++ ".grf\nSprites in file: ".toList⟩
      split
      · rename_i e heq
        rw [heq] at h
        simpa using h
      · simp
    · split
      · dsimp only
        split
        · split
          · exact mergeInto_no_div _ _ _ _
          · have h := drainLoop_no_div n grd1
            split
            · rename_i e heq
              rw [heq] at h
              simpa using h
            · simp
        · exact mergeInto_no_div _ _ _ _
      · exact mergeInto_no_div _ _ _ _

theorem catchUp_empty (fuel grfsize spriteno : Nat) (grd : FILE) (d : List Byte) (tmp : Sink)
    (c : Nat) (pct : Int) :
    catchUp fuel grfsize spriteno ⟨grd, ⟨d, [], false⟩, tmp, c, pct⟩ = .error .shortRead ∨
      catchUp fuel grfsize spriteno ⟨grd, ⟨d, [], false⟩, tmp, c, pct⟩ = .error .hang ∨
      ∃ c1, catchUp fuel grfsize spriteno ⟨grd, ⟨d, [], false⟩, tmp, c, pct⟩
        = .ok ⟨grd, ⟨d, [], false⟩, tmp, c1, pct⟩ := by
  cases fuel with
  | zero =>
    unfold catchUp
    split
    · exact Or.inr (Or.inl rfl)
    · exact Or.inr (Or.inr ⟨_, rfl⟩)
  | succ fuel =>
    unfold catchUp
    split
    · left
      simp only [copysprite_short d [] tmp (by simp)]
    · exact Or.inr (Or.inr ⟨_, rfl⟩)

theorem mergeEntry_empty (grfsize : Nat) (grd : FILE) (d : List Byte) (tmp : Sink) (c : Nat)
    (pct : Int) : mergeEntry grfsize ⟨grd, ⟨d, [], false⟩, tmp, c, pct⟩ = .error .shortRead := by
  unfold mergeEntry
  cases hr : cfread 2 grd with
  | error err =>
    rw [cfread_fault _ _ _ hr]
  | ok res =>
    obtain ⟨nb, grd1⟩ := res
    dsimp only
    have hno := catchUp_no_hang (([] : List Byte).length + 65536) grfsize (le16 nb)
      ⟨grd1, ⟨d, [], false⟩, tmp, c, pct⟩ rfl
      (by simp only; split <;> [(simp only [List.length_nil]; omega); (split <;> omega)])
    rcases catchUp_empty (([] : List Byte).length + 65536) grfsize (le16 nb) grd1 d tmp c pct
      with h | h | ⟨c1, h⟩
    · rw [h]
    · exact absurd h hno
    · rw [h]
      simp only [skipsprite, copysprite_short d [] none (by simp)]

/-- With an empty GRF file the merge dies at its first read of that file. -/
theorem mergeStreams_empty (n : Nat) (grd : FILE) :
    mergeStreams n 0 grd (fopenRead []) = .error .shortRead := by
  unfold mergeStreams
  cases n with
  | zero =>
    simp only [mergeLoop, fopenRead, List.length_nil, Nat.zero_add, copyRest,
      copysprite_short [] [] (some []) (by simp)]
  | succ n =>
    simp only [mergeLoop, fopenRead, mergeEntry_empty]

/-- C20: `mergeset` never ends in a division by zero, for any environment,
GRD stream and argument: the divisor of every call of `showpct` it makes, the
length of the GRF file, is not 0, since the call follows a successful call of
`copysprite` or `skipsprite` on the GRF stream, which takes at least two
bytes.  And when the GRF file that is merged is empty, `mergeset` dies with a
short read, which is not the fault of any call of `showpct`. -/
theorem mergeset_never_divides_by_zero (w : World) (grd : FILE)
    (grffile : Option (List Char)) :
    mergeset w grd grffile ≠ .error .divideByZero ∧
      ∀ path n name grd1, w.onlyshow = false → readHeader grd = .ok (n, name, grd1) →
        nameMismatch path name = false → w.files path = some [] →
        w.createFails (tempfileName path) = false →
        mergeset w grd (some path) = .error .shortRead := by
  refine ⟨mergeset_no_div w grd grffile, ?_⟩
  intro path n name grd1 hshow hhdr hname hfile hcreate
  rw [mergeset_eq_mergeInto w grd grd1 path name n hshow hname hhdr]
  simp only [mergeInto, hfile, hcreate, Bool.false_eq_true, if_false, List.length_nil,
    mergeStreams_empty]

theorem mergeset_never_divides_by_zero_witness :
    mergeset (oneFile demoPath []) (fopenRead (demoHeader 0 ++ [9, 9])) (some demoPath)
      = .error .shortRead :=
  (mergeset_never_divides_by_zero (oneFile demoPath []) (fopenRead (demoHeader 0 ++ [9, 9]))
    none).2 demoPath 0 ['a'] ⟨demoHeader 0, [9, 9], false⟩ rfl rfl (by decide) rfl rfl

/-! ## Merging twice -/

/-- With the sprite number 65535 the loop `while (++curno <= spriteno)` has no
exit: `curno` is a `U16`. -/
theorem catchUp_wrap (fuel : Nat) : ∀ (grfsize : Nat) (st st1 : MergeState),
    catchUp fuel grfsize 65535 st ≠ .ok st1 := by
  induction fuel with
  | zero =>
    intro grfsize st st1
    have hc : (st.curno + 1) % 65536 ≤ 65535 := by omega
    simp [catchUp, hc]
  | succ fuel ih =>
    intro grfsize st st1
    have hc : (st.curno + 1) % 65536 ≤ 65535 := by omega
    unfold catchUp
    rw [if_pos hc]
    split
    · simp
    · split
      · simp
      · exact ih _ _ _

theorem mergeEntry_index (grfsize i : Nat) (p dd dtl : List Byte) (st st1 : MergeState)
    (hi : i < 65536) (hgrd : st.grd = ⟨dd, encodeEntry (i, p) ++ dtl, false⟩)
    (h : mergeEntry grfsize st = .ok st1) : i < 65535 := by
  have e1 : encodeEntry (i, p) ++ dtl = bytes16 i ++ (p ++ dtl) := by
    simp [encodeEntry]
  unfold mergeEntry at h
  rw [hgrd, e1, cfread_bytes16] at h
  simp only [le16_bytes16 i hi] at h
  split at h
  · cases h
  · rename_i st2 hcatch
    by_contra hne
    have : i = 65535 := by omega
    subst this
    exact catchUp_wrap _ _ _ _ hcatch

theorem mergeLoop_indices (es : List (Nat × List Byte)) : ∀ (grfsize : Nat) (dd dtl : List Byte)
    (st st1 : MergeState), (∀ x ∈ es, IsRecord x.2) → (∀ x ∈ es, x.1 < 65536) →
    st.grd = ⟨dd, encodeEntries es ++ dtl, false⟩ →
    mergeLoop es.length grfsize st = .ok st1 → ∀ x ∈ es, x.1 < 65535 := by
  induction es with
  | nil =>
    intro grfsize dd dtl st st1 _ _ _ _ x hx
    cases hx
  | cons y es ih =>
    intro grfsize dd dtl st st1 hes hidx hgrd h
    obtain ⟨i, p⟩ := y
    simp only [List.length_cons, mergeLoop] at h
    split at h
    · cases h
    · rename_i st2 hentry
      have e1 : encodeEntries ((i, p) :: es) ++ dtl
          = encodeEntry (i, p) ++ (encodeEntries es ++ dtl) := by
        simp [encodeEntries]
      rw [e1] at hgrd
      have hg2 := mergeEntry_grd grfsize i p dd _ st st2 (hes (i, p) (List.mem_cons_self _ _))
        hgrd hentry
      have h1 := mergeEntry_index grfsize i p dd _ st st2 (hidx (i, p) (List.mem_cons_self _ _))
        hgrd hentry
      have h2 := ih grfsize _ dtl st2 st1 (fun x hx => hes x (List.mem_cons_of_mem _ hx))
        (fun x hx => hidx x (List.mem_cons_of_mem _ hx)) hg2 h
      intro x hx
      rcases List.mem_cons.mp hx with rfl | hx
      · exact h1
      · exact h2 x hx

/-- A merge that ends normally has read no sprite number 65535. -/
theorem mergeInto_indices (w w1 : World) (path : List Char) (es : List (Nat × List Byte))
    (content dd dtl : List Byte) (g : FILE) (hfile : w.files path = some content)
    (hes : ∀ x ∈ es, IsRecord x.2) (hidx : ∀ x ∈ es, x.1 < 65536)
    (h : mergeInto w es.length ⟨dd, encodeEntries es ++ dtl, false⟩ path = .ok (w1, g)) :
    ∀ x ∈ es, x.1 < 65535 := by
  simp only [mergeInto, hfile] at h
  split at h
  · cases h
  · split at h
    · cases h
    · rename_i st hs
      unfold mergeStreams at hs
      split at hs
      · cases hs
      · rename_i st1 hloop
        exact mergeLoop_indices es _ dd dtl _ st1 hes hidx rfl hloop

theorem rename_oracles (w w1 : World) (old new : List Char) (h : rename w old new = some w1) :
    SameOracles w w1 := by
  unfold rename at h
  split at h
  · cases h
  · split at h
    · cases h
    · cases h
      exact ⟨rfl, rfl, rfl, rfl⟩

theorem remove_oracles (w w1 : World) (path : List Char) (h : remove w path = some w1) :
    SameOracles w w1 := by
  unfold remove at h
  split at h
  · cases h
  · split at h
    · cases h
    · cases h
      exact ⟨rfl, rfl, rfl, rfl⟩

theorem sameOracles_trans {a b c : World} (h1 : SameOracles a b) (h2 : SameOracles b c) :
    SameOracles a c := by
  obtain ⟨a1, a2, a3, a4⟩ := h1
  obtain ⟨b1, b2, b3, b4⟩ := h2
  exact ⟨b1.trans a1, b2.trans a2, b3.trans a3, b4.trans a4⟩

theorem installFinish_oracles (delete : Bool) (w : World) (grffile tempfile : List Char) :
    SameOracles w (installFinish delete w grffile tempfile).2 := by
  unfold installFinish
  cases delete with
  | false =>
    simp only [Bool.false_eq_true, if_false]
    cases h2 : rename w tempfile grffile with
    | none => exact ⟨rfl, rfl, rfl, rfl⟩
    | some w2 => exact rename_oracles _ _ _ _ h2
  | true =>
    simp only [if_true]
    cases h1 : remove w grffile with
    | none => exact ⟨rfl, rfl, rfl, rfl⟩
    | some w1 =>
      simp only
      cases h2 : rename w1 tempfile grffile with
      | none => exact remove_oracles _ _ _ h1
      | some w2 => exact sameOracles_trans (remove_oracles _ _ _ h1) (rename_oracles _ _ _ _ h2)

theorem install_oracles (w : World) (grffile tempfile : List Char) :
    SameOracles w (install w grffile tempfile).2 := by
  unfold install
  dsimp only
  split
  · split
    · exact installFinish_oracles _ _ _ _
    · split
      · split
        · exact sameOracles_trans (yesno_oracles w) (installFinish_oracles _ _ _ _)
        · exact yesno_oracles w
      · rename_i w1 h1
        exact sameOracles_trans (rename_oracles _ _ _ _ h1) (installFinish_oracles _ _ _ _)
  · exact installFinish_oracles _ _ _ _

theorem mergeInto_oracles (w w1 : World) (n : Nat) (grd g : FILE) (path : List Char)
    (h : mergeInto w n grd path = .ok (w1, g)) : SameOracles w w1 := by
  unfold mergeInto at h
  split at h
  · split at h
    · cases h
    · cases h
      exact ⟨rfl, rfl, rfl, rfl⟩
  · dsimp only at h
    split at h
    · cases h
    · split at h
      · cases h
      · rename_i st hs
        have hi := install_oracles
          { w with files := fun p => if p = tempfileName path then some (st.tmp.getD []) else w.files p }
          path (tempfileName path)
        split at h
        · cases h
        · rename_i u w2 heq
          cases h
          rw [heq] at hi
          exact hi

theorem mergedRecords_length (rs : List (List Byte)) : ∀ (c : Nat) (es : List (Nat × List Byte)),
    (mergedRecords c rs es).length = rs.length := by
  induction rs with
  | nil => intros; rfl
  | cons r rs ih =>
    intro c es
    simp [mergedRecords, ih]

theorem lookup_mem (es : List (Nat × List Byte)) (c : Nat) (p : List Byte)
    (h : es.lookup c = some p) : (c, p) ∈ es := by
  induction es with
  | nil => cases h
  | cons x es ih =>
    obtain ⟨i, q⟩ := x
    by_cases hci : c = i
    · subst hci
      simp only [List.lookup_cons, beq_self_eq_true, Option.some.injEq] at h
      subst h
      exact List.mem_cons_self _ _
    · have hne : (c == i) = false := by simpa using hci
      simp only [List.lookup_cons, hne] at h
      exact List.mem_cons_of_mem _ (ih h)

theorem mergedRecords_isRecord (rs : List (List Byte)) : ∀ (c : Nat)
    (es : List (Nat × List Byte)), (∀ r ∈ rs, IsRecord r) → (∀ x ∈ es, IsRecord x.2) →
    ∀ r ∈ mergedRecords c rs es, IsRecord r := by
  induction rs with
  | nil =>
    intro c es _ _ r hr
    cases hr
  | cons r0 rs ih =>
    intro c es hrs hes r hr
    simp only [mergedRecords, List.mem_cons] at hr
    rcases hr with rfl | hr
    · cases hl : es.lookup c with
      | none => exact hrs r0 (List.mem_cons_self _ _)
      | some p =>
        simp only [Option.getD_some]
        exact hes (c, p) (lookup_mem es c p hl)
    · exact ih (c + 1) es (fun r hr => hrs r (List.mem_cons_of_mem _ hr)) hes r hr

/-- Replacing the records a second time changes nothing. -/
theorem mergedRecords_idem (rs : List (List Byte)) : ∀ (c : Nat) (es : List (Nat × List Byte)),
    mergedRecords c (mergedRecords c rs es) es = mergedRecords c rs es := by
  induction rs with
  | nil => intros; rfl
  | cons r rs ih =>
    intro c es
    simp only [mergedRecords, ih]
    cases es.lookup c <;> rfl


/-- C19: merging is idempotent.  For a target made of well-formed records
followed by the end marker, and a GRD set whose entries have strictly
increasing 16-bit sprite numbers below the number of records and well-formed
sprites, in an environment where no library call fails: when `mergeset` in
merge mode (outside the list mode, the confirmation of a differing name not
declined; the path given by the caller or, without one, the name in the set
with the extension `grf`) has merged the set into the target and returned,
the GRF file holds the merged records, and `mergeset` applied to the same set
in the world it left returns as well, leaves the GRD stream at the same
position, and the GRF file has byte for byte the content that the first merge
installed.  This holds when the second call merges, and also when its
confirmation is declined and the set is skipped. -/
theorem mergeset_idempotent (w w1 : World) (grd g1 : FILE) (grffile : Option (List Char))
    (name : List Char) (recs : List (List Byte)) (es : List (Nat × List Byte))
    (trailing dd dtl : List Byte)
    (hshow : w.onlyshow = false) (haccept : ¬ declined w grffile name)
    (hcoop : Cooperative w (targetPath grffile name))
    (hhdr : readHeader grd = .ok (es.length, name, ⟨dd, encodeEntries es ++ dtl, false⟩))
    (htarget : w.files (targetPath grffile name) = some (recs.flatten ++ 0 :: 0 :: trailing))
    (hrecs : ∀ r ∈ recs, IsRecord r) (hes : ∀ x ∈ es, IsRecord x.2) (hinc : Increasing es)
    (hrange : ∀ x ∈ es, x.1 < recs.length) (hidx : ∀ x ∈ es, x.1 < 65536)
    (hfirst : mergeset w grd grffile = .ok (w1, g1)) :
    w1.files (targetPath grffile name)
        = some ((mergedRecords 0 recs es).flatten ++ [0, 0] ++ [0, 0, 0, 0]) ∧
      ∃ w2, mergeset w1 grd grffile = .ok (w2, g1) ∧
        w2.files (targetPath grffile name)
          = some ((mergedRecords 0 recs es).flatten ++ [0, 0] ++ [0, 0, 0, 0]) := by
  obtain ⟨w0, h0, hfiles, hor0, -⟩ := mergeset_accepted w grd _ grffile name es.length hshow
    haccept hhdr
  rw [h0] at hfirst
  have htarget0 : w0.files (targetPath grffile name)
      = some (recs.flatten ++ 0 :: 0 :: trailing) := by rw [hfiles]; exact htarget
  have hcoop0 := sameOracles_cooperative hor0 _ hcoop
  have hmax := mergeInto_indices w0 w1 _ es _ dd dtl g1 htarget0 hes hidx hfirst
  obtain ⟨w1a, hw1a, hfile1⟩ :=
    mergeInto_records w0 _ es recs trailing dd dtl hcoop0 htarget0 hrecs hes hinc hrange hmax
  have hor := sameOracles_trans hor0 (mergeInto_oracles _ _ _ _ _ _ hfirst)
  rw [hw1a] at hfirst
  cases hfirst
  have hshow1 : w1.onlyshow = false := by rw [hor.1]; exact hshow
  have hcoop1 := sameOracles_cooperative hor _ hcoop
  refine ⟨hfile1, ?_⟩
  by_cases hd : declined w1 grffile name
  · cases grffile with
    | none => exact absurd hd (fun h => h)
    | some path =>
      obtain ⟨hname, hno⟩ := hd
      refine ⟨(yesno w1).2, ?_, ?_⟩
      · simp [mergeset, hhdr, mergesetBody, hshow1, hname, hno, drainLoop_entries es dd dtl hes]
      · rw [yesno_files]
        exact hfile1
  · obtain ⟨w1b, h1b, hfiles1, hor1, -⟩ := mergeset_accepted w1 grd _ grffile name es.length
      hshow1 hd hhdr
    have htarget1 : w1b.files (targetPath grffile name)
        = some ((mergedRecords 0 recs es).flatten ++ 0 :: 0 :: [0, 0, 0, 0]) := by
      rw [hfiles1, hfile1]
      simp
    obtain ⟨w2, hw2, hfile2⟩ :=
      mergeInto_records w1b _ es (mergedRecords 0 recs es) [0, 0, 0, 0] dd dtl
        (sameOracles_cooperative hor1 _ hcoop1) htarget1
        (mergedRecords_isRecord recs 0 es hrecs hes) hes hinc
        (fun x hx => by rw [mergedRecords_length]; exact hrange x hx) hmax
    rw [mergedRecords_idem] at hfile2
    exact ⟨w2, by rw [h1b]; exact hw2, hfile2⟩

theorem mergeset_idempotent_witness :
    ∃ w1, mergeset (filesWorld [("b.grf".toList, demoTarget.flatten ++ [0, 0])] false
          ['y', '\n', 'Y', '\n'])
        (fopenRead (demoHeader 2 ++ (encodeEntries demoPatch ++ []))) (some "b.grf".toList)
        = .ok (w1, ⟨demoHeader 2 ++ encodeEntries demoPatch, [], false⟩) ∧
      w1.files (targetPath (some "b.grf".toList) ['a'])
        = some ((mergedRecords 0 demoTarget demoPatch).flatten ++ [0, 0] ++ [0, 0, 0, 0]) ∧
      ∃ w2, mergeset w1 (fopenRead (demoHeader 2 ++ (encodeEntries demoPatch ++ [])))
          (some "b.grf".toList)
          = .ok (w2, ⟨demoHeader 2 ++ encodeEntries demoPatch, [], false⟩) ∧
        w2.files (targetPath (some "b.grf".toList) ['a'])
          = some ((mergedRecords 0 demoTarget demoPatch).flatten ++ [0, 0] ++ [0, 0, 0, 0]) :=
  ⟨_, rfl, mergeset_idempotent
    (filesWorld [("b.grf".toList, demoTarget.flatten ++ [0, 0])] false ['y', '\n', 'Y', '\n']) _
    (fopenRead (demoHeader 2 ++ (encodeEntries demoPatch ++ []))) _ (some "b.grf".toList) ['a']
    demoTarget demoPatch [] (demoHeader 2) [] rfl (by decide)
    ⟨rfl, fun _ _ => rfl, fun _ => rfl, by decide, by decide⟩ (by decide) rfl (by decide)
    (by decide) (by decide) (by decide) (by decide) rfl⟩

/-- A GRD file that holds the same set twice: `domerge` merges it twice into
`a.grf`, which ends with the content of one merge; the backup is the original
file. -/
theorem domerge_repeated_demo :
    observeFiles (domerge repeatedWorld ⟨0, false⟩ grdPath [demoPath, demoPath])
        [demoPath, demoBackup]
      = .ok [some ((mergedRecords 0 demoTarget demoPatch).flatten ++ [0, 0] ++ [0, 0, 0, 0]),
          some (demoTarget.flatten ++ [0, 0])] := by
  decide

end GrfMerge
